import Mathlib

/-! # fio: rule-based classification and aggregation of bank records

A shallow embedding of `internal/app` (`parser.go`, `rule.go`, `config.go`,
`data.go`, `report.go`) and the properties proved about it.

Conventions of the embedding

* Go `string` is `String`; Go `int` is `Int`, or `Nat` for a slice index and
  for a counter that is only incremented from zero.
* A Go `(T, error)` result is `Except Error T`; a nil-pointer dereference
  (a panic) is `none` of an `Option`.
* `time.Time` values of the program are produced by `time.Parse` with date-only
  layouts, so a value is a calendar date `Time` (year, month, day) and
  `Before`/`After` is the lexicographic order; the zero `time.Time` is
  0001-01-01.
* IEEE floating point is not interpreted: `Floats` carries the two number types
  and the operations the program applies to them.
* `regexp` and `text/template` are libraries outside the repository: `GoLib`
  carries `regexp.Compile` and `template.Parse` and the compiled objects carry
  `FindStringSubmatch` and `Execute`.
* A Go map is an association list with unique keys (`mapGet`, `mapSet`).
-/

namespace Fio

/-! ## Numbers, dates, maps, strings -/

/-- The float64 and float32 values of the program with the operations it uses. -/
structure Floats where
  /-- Go float64 (the signed amount of a record). -/
  F64 : Type
  /-- Go float32 (running totals). -/
  F32 : Type
  /-- The zero value of a float64 field. -/
  zero64 : F64
  /-- The test `x < 0` on float64. -/
  isNeg : F64 → Bool
  /-- The conversion `float32(math.Abs(x))`. -/
  abs32 : F64 → F32
  /-- The zero value of a float32 field. -/
  zero32 : F32
  /-- The float32 addition of `+=`. -/
  add32 : F32 → F32 → F32
  /-- The conversion `float32(n)` of an `int`. -/
  ofInt32 : Int → F32
  /-- The float32 division `x / y`. -/
  div32 : F32 → F32 → F32
  /-- Go `fmt.Sprintf(format, x)` with the single float32 operand `x`. -/
  sprintf : String → F32 → String
  /-- The float32 comparison `x >= y`. -/
  ge32 : F32 → F32 → Bool

/-- A `time.Time` holding a calendar date (midnight UTC). -/
structure Time where
  year : Int
  month : Nat
  day : Nat
deriving DecidableEq, Repr

/-- The zero value of `time.Time`: January 1, year 1. -/
def Time.zero : Time := ⟨1, 1, 1⟩

/-- Go `t.IsZero()`. -/
def Time.IsZero (t : Time) : Bool := decide (t = Time.zero)

/-- Go `t.Before(u)`: the instant `t` is strictly earlier than `u`. -/
def Time.Before (t u : Time) : Bool :=
  decide (t.year < u.year ∨ (t.year = u.year ∧
    (t.month < u.month ∨ (t.month = u.month ∧ t.day < u.day))))

/-- Go `t.After(u)`: the instant `t` is strictly later than `u`. -/
def Time.After (t u : Time) : Bool := u.Before t

/-- Go map read `m[k]`: `none` is the zero value (a nil pointer). -/
def mapGet {α : Type} (m : List (String × α)) (k : String) : Option α :=
  match m with
  | [] => none
  | (k1, v) :: rest => if k1 = k then some v else mapGet rest k

/-- Go map write `m[k] = v`. -/
def mapSet {α : Type} (m : List (String × α)) (k : String) (v : α) : List (String × α) :=
  match m with
  | [] => [(k, v)]
  | (k1, v1) :: rest => if k1 = k then (k, v) :: rest else (k1, v1) :: mapSet rest k v

/-- The space character, the only member of the cutset of `strings.Trim(s, " ")`. -/
def spaceChar : Char := Char.ofNat 32

/-- Go `strings.Trim(s, " ")`: drop leading and trailing space characters. -/
def trimSpaces (s : String) : String :=
  String.mk ((s.data.dropWhile (fun c => c == spaceChar)).reverse.dropWhile
    (fun c => c == spaceChar)).reverse

/-! ## Records (`parser.go`) -/

/-- Go `Record`. -/
structure Record (fl : Floats) where
  date : Time
  accountId : String
  note : String
  vs : String
  line : Int
  money : fl.F64
  valid : Bool

/-- The zero `Record`, which `Parser.Next` returns at end of input. -/
def Record.zero (fl : Floats) : Record fl :=
  { date := Time.zero, accountId := "", note := "", vs := "", line := 0,
    money := fl.zero64, valid := false }

/-- Go `Record.Valid`. -/
def Record.Valid {fl : Floats} (self : Record fl) : Bool := self.valid

/-- Go `Record.Line`. -/
def Record.Line {fl : Floats} (self : Record fl) : Int := self.line

/-- Go `Record.Out`: `self.money < 0`. -/
def Record.Out {fl : Floats} (self : Record fl) : Bool := fl.isNeg self.money

/-- Go `Record.Money`: `float32(math.Abs(self.money))`. -/
def Record.Money {fl : Floats} (self : Record fl) : fl.F32 := fl.abs32 self.money

/-- Go `Record.Date`. -/
def Record.Date {fl : Floats} (self : Record fl) : Time := self.date

/-- Go `Record.AccountId`. -/
def Record.AccountId {fl : Floats} (self : Record fl) : String := self.accountId

/-- Go `Record.Note`. -/
def Record.Note {fl : Floats} (self : Record fl) : String := self.note

/-- Go `Record.Vs`. -/
def Record.Vs {fl : Floats} (self : Record fl) : String := self.vs

/-- Go `Record.Between`. -/
def Record.Between {fl : Floats} (self : Record fl) (d1 d2 : Time) : Bool :=
  if self.Date.Before d1 then false
  else if !d2.IsZero && self.Date.After d2 then false
  else true

/-! ## Library objects and errors -/

/-- A compiled `*regexp.Regexp`. -/
structure Regexp where
  /-- Go `FindStringSubmatch`: `none` is the nil slice (no match); a match is
  the matched text followed by the text of each capture group. -/
  FindStringSubmatch : String → Option (List String)

/-- The `parse.NodeType` of a top-level node of a parsed template. -/
inductive NodeType where
  | NodeText
  | NodeAction
  | NodeIf
  | NodeRange
  | NodeWith
  | NodeTemplate
  | NodeOther
deriving DecidableEq, Repr

/-- A parsed `*template.Template`. -/
structure Template (fl : Floats) where
  /-- The types of `t.Root.Nodes`. -/
  nodes : List NodeType
  /-- Go `t.Execute(&b, &rec)`: the text written to the buffer, or the error. -/
  Execute : Record fl → Except String String

/-- The two library entry points used by `SectionRule.compile`. -/
structure GoLib (fl : Floats) where
  /-- Go `regexp.Compile`. -/
  regexpCompile : String → Except String Regexp
  /-- Go `template.New("").Parse`. -/
  templateParse : String → Except String (Template fl)

/-- The errors built by `fmt.Errorf` in the program, by format string. The
wrapped library error is kept as its message. -/
inductive Error where
  /-- Message "config compile: section %q, rule %d: both key and account empty". -/
  | ruleEmpty (sectName : String) (idx : Nat)
  /-- Message "config: section %q, rule %d: %w" around "compile %q: %w". -/
  | compileTemplate (sectName : String) (idx : Nat) (tmpl : String) (msg : String)
  /-- Message "re compile %q: %w". -/
  | reCompile (re : String) (msg : String)
  /-- Message "extract rule key from %q: %w". -/
  | extractKey (key : String) (msg : String)
  /-- Message "check rule if %q: %w". -/
  | checkIf (cond : String) (msg : String)
  /-- Message "unknown record: line %d: %+v" (the printed record is left out). -/
  | unknownRecord (line : Int)
  /-- An error of the record source (`Parser.Next`). -/
  | source (msg : String)
  /-- Message "parse date, line %d: %w". -/
  | parseDate (line : Int) (msg : String)
  /-- Message "parse float %q: %w". -/
  | parseFloat (text : String) (msg : String)
deriving DecidableEq, Repr

deriving instance DecidableEq for Except

/-! ## Parsing a row (`parser.go`) -/

/-- Go map read `fields[name]` on a `map[string]string`: the empty string when
the key is absent. -/
def fieldGet (fields : List (String × String)) (name : String) : String :=
  match mapGet fields name with
  | some v => v
  | none => ""

/-- The library functions used by `Record.Parse`. -/
structure ParseLib (fl : Floats) where
  /-- Go `time.Parse(layout, value)`. -/
  timeParse : String → String → Except String Time
  /-- Go `strconv.ParseFloat(s, bitSize)`. -/
  parseFloat : String → Nat → Except String fl.F64

/-- Go `strings.ReplaceAll(s, ",", ".")`. -/
def commasToPoints (s : String) : String :=
  String.mk (s.data.map (fun c => if c = Char.ofNat 44 then Char.ofNat 46 else c))

/-- Go `Record.parseDate`. -/
def Record.parseDate {fl : Floats} (lib : ParseLib fl) (self : Record fl)
    (fields : List (String × String)) : Except Error (Record fl) :=
  match lib.timeParse "02.01.2006" (fieldGet fields "Datum") with
  | .error msg => .error (.parseDate self.line msg)
  | .ok date => .ok { self with date := date }

/-- Go `Record.parseMoney`. -/
def Record.parseMoney {fl : Floats} (lib : ParseLib fl) (self : Record fl)
    (fields : List (String × String)) : Except Error (Record fl) :=
  let moneyStr := fieldGet fields "Objem"
  let moneyStr := commasToPoints moneyStr
  match lib.parseFloat moneyStr 32 with
  | .error msg => .error (.parseFloat moneyStr msg)
  | .ok money => .ok { self with money := money }

/-- Go `Record.parseAccount`. -/
def Record.parseAccount {fl : Floats} (self : Record fl) (fields : List (String × String)) :
    Record fl :=
  if fieldGet fields "Protiúčet" ≠ "" ∧ fieldGet fields "Kód banky" ≠ "" then
    { self with accountId := fieldGet fields "Protiúčet" ++ "/" ++ fieldGet fields "Kód banky" }
  else
    { self with accountId := fieldGet fields "Protiúčet" }

/-- The loop `for _, v := range fallback` of `Record.parseNote`: the note is
set to the first non-empty value and left as it is when there is none. -/
def Record.noteFallback {fl : Floats} (self : Record fl) : List String → Record fl
  | [] => self
  | v :: rest => if v ≠ "" then { self with note := v } else Record.noteFallback self rest

/-- Go `Record.parseNote`. -/
def Record.parseNote {fl : Floats} (self : Record fl) (fields : List (String × String)) :
    Record fl :=
  if self.accountId ≠ "" ∧ fieldGet fields "Poznámka" ≠ "" then
    { self with note := fieldGet fields "Poznámka" }
  else if fieldGet fields "Zpráva pro příjemce" = "" ∧ fieldGet fields "Poznámka" ≠ "" then
    { self with note := fieldGet fields "Poznámka" }
  else
    self.noteFallback [self.accountId, fieldGet fields "Zpráva pro příjemce",
      fieldGet fields "Poznámka", fieldGet fields "Typ"]

/-- Go `Record.Parse`. -/
def Record.Parse {fl : Floats} (lib : ParseLib fl) (self : Record fl)
    (fields : List (String × String)) (line : Int) : Except Error (Record fl) :=
  let self0 := { self with line := line }
  match self0.parseDate lib fields with
  | .error e => .error e
  | .ok self1 =>
    match self1.parseMoney lib fields with
    | .error e => .error e
    | .ok self2 =>
      let self3 := { self2 with valid := true }
      let self4 := self3.parseAccount fields
      let self5 := self4.parseNote fields
      .ok { self5 with vs := fieldGet fields "VS" }

/-! ## Rules (`rule.go`) -/

/-- Go `SectionRule`. -/
structure SectionRule (fl : Floats) where
  Key : String
  Re : String
  Account : String
  Vs : String
  If : String
  keyTemplate : Option (Template fl)
  reCompiled : Option Regexp
  ifTemplate : Option (Template fl)

/-- Go `SectionRule.knownAccount`. -/
def SectionRule.knownAccount {fl : Floats} (self : SectionRule fl) (rec : Record fl) : Bool :=
  if self.Account ≠ "" then
    if self.Account ≠ rec.AccountId then false
    else if self.Vs ≠ "" ∧ self.Vs ≠ rec.Vs then false
    else true
  else true

/-- Go `SectionRule.accountKey`. -/
def SectionRule.accountKey {fl : Floats} (self : SectionRule fl) (rec : Record fl) : String :=
  if self.Account = "" then ""
  else
    let account := self.Account
    let account := if rec.Vs ≠ "" then account ++ (", VS: " ++ rec.Vs) else account
    let account := if rec.Note ≠ "" then account ++ (", " ++ rec.Note) else account
    account

/-- Go `SectionRule.templatedKey`. -/
def SectionRule.templatedKey {fl : Floats} (self : SectionRule fl) (rec : Record fl) :
    Except Error String :=
  match self.keyTemplate with
  | none => .ok self.Key
  | some t =>
    match t.Execute rec with
    | .error msg => .error (.extractKey self.Key msg)
    | .ok b => .ok (trimSpaces b)

/-- Go `SectionRule.templatedIf`. -/
def SectionRule.templatedIf {fl : Floats} (self : SectionRule fl) (rec : Record fl) :
    Except Error Bool :=
  match self.ifTemplate with
  | none => .ok true
  | some t =>
    match t.Execute rec with
    | .error msg => .error (.checkIf self.If msg)
    | .ok b => .ok (decide ((trimSpaces b).length > 0))

/-- Go `SectionRule.templatedChecks`: the pair is `(stop, key)`. -/
def SectionRule.templatedChecks {fl : Floats} (self : SectionRule fl) (rec : Record fl) :
    Except Error (Bool × String) :=
  match self.templatedIf rec with
  | .error e => .error e
  | .ok ok =>
    if !ok then .ok (true, "")
    else
      match self.templatedKey rec with
      | .error e => .error e
      | .ok k => if k ≠ "" then .ok (true, k) else .ok (false, "")

/-- Go `SectionRule.extractKeyRe`, given the compiled regexp. -/
def SectionRule.extractKeyRe {fl : Floats} (self : SectionRule fl) (re : Regexp)
    (rec : Record fl) : Except Error String :=
  match re.FindStringSubmatch rec.Note with
  | none => .ok ""
  | some s =>
    match self.templatedChecks rec with
    | .error e => .error e
    | .ok (stop, k) =>
      if stop then .ok k
      else if s.length > 1 then .ok (s.getD 1 "")
      else if self.Account ≠ "" then .ok (self.accountKey rec)
      else .ok rec.Note

/-- Go `SectionRule.ExtractKey`. -/
def SectionRule.ExtractKey {fl : Floats} (self : SectionRule fl) (rec : Record fl) :
    Except Error String :=
  if !self.knownAccount rec then .ok ""
  else
    match self.reCompiled with
    | some re => self.extractKeyRe re rec
    | none =>
      match self.templatedChecks rec with
      | .error e => .error e
      | .ok (stop, k) =>
        if stop then .ok k
        else .ok (self.accountKey rec)

/-- Go `SectionRule.compileOneTemplate`: `none` is the nil template. -/
def SectionRule.compileOneTemplate {fl : Floats} (lib : GoLib fl) (tmpl : String) :
    Except (String × String) (Option (Template fl)) :=
  if tmpl = "" then .ok none
  else
    match lib.templateParse tmpl with
    | .error msg => .error (tmpl, msg)
    | .ok t =>
      match t.nodes with
      | [] => .ok none
      | n0 :: rest =>
        if n0 ≠ NodeType.NodeText ∨ (n0 :: rest).length > 1 then .ok (some t)
        else .ok none

/-- Go `SectionRule.compileTemplates`. -/
def SectionRule.compileTemplates {fl : Floats} (lib : GoLib fl) (self : SectionRule fl)
    (sectName : String) (idx : Nat) : Except Error (SectionRule fl) :=
  match SectionRule.compileOneTemplate lib self.Key with
  | .error (tmpl, msg) => .error (.compileTemplate sectName idx tmpl msg)
  | .ok tk =>
    let self1 := match tk with
      | some t => { self with keyTemplate := some t }
      | none => self
    match SectionRule.compileOneTemplate lib self1.If with
    | .error (tmpl, msg) => .error (.compileTemplate sectName idx tmpl msg)
    | .ok ti =>
      match ti with
      | some t => .ok { self1 with ifTemplate := some t }
      | none => .ok self1

/-- Go `SectionRule.compile`: the rule with its compiled fields set. -/
def SectionRule.compile {fl : Floats} (lib : GoLib fl) (self : SectionRule fl)
    (sectName : String) (idx : Nat) : Except Error (SectionRule fl) :=
  if self.Re = "" ∧ self.Key = "" ∧ self.Account = "" then
    .error (.ruleEmpty sectName idx)
  else
    match self.compileTemplates lib sectName idx with
    | .error e => .error e
    | .ok self1 =>
      match lib.regexpCompile self1.Re with
      | .error msg => .error (.reCompile self1.Re msg)
      | .ok reCompiled => .ok { self1 with reCompiled := some reCompiled }

/-! ## Configuration (`config.go`) -/

/-- Go `SectionConfig`. -/
structure SectionConfig (fl : Floats) where
  Name : String
  Rules : List (SectionRule fl)
  Order : Int
  Skip : Bool
  SkipPerMonth : Bool

/-- Go `Config`. The index maps a name to the section object of that name in
`Sections` (a pointer in Go), here to the section as `compile` leaves it. -/
structure Config (fl : Floats) where
  Sections : List (SectionConfig fl)
  Template : String
  sectionIndex : List (String × SectionConfig fl)

/-- The loop `for i, rule := range sect.Rules` of `Config.compile`, from index `i`. -/
def compileRules {fl : Floats} (lib : GoLib fl) (sectName : String) :
    Nat → List (SectionRule fl) → Except Error (List (SectionRule fl))
  | _, [] => .ok []
  | i, rule :: rest =>
    match rule.compile lib sectName i with
    | .error e => .error e
    | .ok rule1 =>
      match compileRules lib sectName (i + 1) rest with
      | .error e => .error e
      | .ok rest1 => .ok (rule1 :: rest1)

/-- The loop `for _, sect := range self.Sections` of `Config.compile`: the
compiled sections and the index. -/
def compileSections {fl : Floats} (lib : GoLib fl) :
    List (SectionConfig fl) → List (String × SectionConfig fl) →
    Except Error (List (SectionConfig fl) × List (String × SectionConfig fl))
  | [], index => .ok ([], index)
  | sect :: rest, index =>
    match compileRules lib sect.Name 0 sect.Rules with
    | .error e => .error e
    | .ok rules1 =>
      let sect1 := { sect with Rules := rules1 }
      match compileSections lib rest (mapSet index sect.Name sect1) with
      | .error e => .error e
      | .ok (rest1, index1) => .ok (sect1 :: rest1, index1)

/-- Go `Config.compile`. -/
def Config.compile {fl : Floats} (lib : GoLib fl) (self : Config fl) :
    Except Error (Config fl) :=
  match compileSections lib self.Sections self.sectionIndex with
  | .error e => .error e
  | .ok (sections, index) => .ok { self with Sections := sections, sectionIndex := index }

/-- The loop `for _, rule := range sect.Rules` of `Config.FindSection`: the key
of the first rule with a non-empty key, the empty string when the loop ends. -/
def scanRules {fl : Floats} (rec : Record fl) :
    List (SectionRule fl) → Except Error String
  | [] => .ok ""
  | rule :: rest =>
    match rule.ExtractKey rec with
    | .error e => .error e
    | .ok key => if key ≠ "" then .ok key else scanRules rec rest

/-- The loop `for _, sect := range self.Sections` of `Config.FindSection`. -/
def scanSections {fl : Floats} (rec : Record fl) :
    List (SectionConfig fl) → Except Error (String × String)
  | [] => .ok ("", "")
  | sect :: rest =>
    match scanRules rec sect.Rules with
    | .error e => .error e
    | .ok key => if key ≠ "" then .ok (sect.Name, key) else scanSections rec rest

/-- Go `Config.FindSection`. -/
def Config.FindSection {fl : Floats} (self : Config fl) (rec : Record fl) :
    Except Error (String × String) :=
  scanSections rec self.Sections

/-- Go `Config.SkipFromSum`: `none` is the nil dereference of a missing section. -/
def Config.SkipFromSum {fl : Floats} (self : Config fl) (sectName : String) : Option Bool :=
  match mapGet self.sectionIndex sectName with
  | none => none
  | some sect => some sect.Skip

/-- Go `Config.SkipPerMonth`: `none` is the nil dereference of a missing section. -/
def Config.SkipPerMonth {fl : Floats} (self : Config fl) (sectName : String) : Option Bool :=
  match mapGet self.sectionIndex sectName with
  | none => none
  | some sect => some sect.SkipPerMonth


/-! ## Aggregation (`data.go`) -/

/-- Go `SectionItem`. Its `monthsBetween` closure is the bound method
`ReportData.MonthsBetween` of the owning report and is not stored. -/
structure SectionItem (fl : Floats) where
  name : String
  money : fl.F32
  count : Nat
  skipFromSum : Bool

/-- Go `newSectionItem(name).withMonthsBetween(m).withSkipFromSum(v)`. -/
def newSectionItem (fl : Floats) (name : String) (v : Bool) : SectionItem fl :=
  { name := name, money := fl.zero32, count := 0, skipFromSum := v }

/-- Go `SectionItem.Add`. -/
def SectionItem.Add {fl : Floats} (self : SectionItem fl) (money : fl.F32) : SectionItem fl :=
  { self with count := self.count + 1, money := fl.add32 self.money money }

/-- Go `Section`. Its `monthsBetween` closure is the bound method
`ReportData.MonthsBetween` of the owning report and is not stored. -/
structure Section (fl : Floats) where
  name : String
  money : fl.F32
  count : Nat
  skipFromSum : Bool
  items : List (String × SectionItem fl)

/-- Go `newSection(name).withMonthsBetween(m).withSkipFromSum(v)`. -/
def newSection (fl : Floats) (name : String) (v : Bool) : Section fl :=
  { name := name, money := fl.zero32, count := 0, skipFromSum := v, items := [] }

/-- Go `Section.Add`. -/
def Section.Add {fl : Floats} (self : Section fl) (money : fl.F32) : Section fl :=
  { self with count := self.count + 1, money := fl.add32 self.money money }

/-- Go `Section.addItem`: the section with the item created or fetched, and
`money` added to the item. -/
def Section.addItem {fl : Floats} (self : Section fl) (sectKey : String) (money : fl.F32) :
    Section fl :=
  let item := match mapGet self.items sectKey with
    | none => newSectionItem fl sectKey self.skipFromSum
    | some item => item
  { self with items := mapSet self.items sectKey (item.Add money) }

/-- Go `ReportData`. -/
structure ReportData (fl : Floats) where
  beginDate : Time
  endDate : Time
  monthsBetween : Int
  money : fl.F32
  count : Nat
  sections : List (String × Section fl)
  cfg : Config fl

/-- Go `NewReportData`. -/
def NewReportData {fl : Floats} (cfg : Config fl) : ReportData fl :=
  { beginDate := Time.zero, endDate := Time.zero, monthsBetween := 0,
    money := fl.zero32, count := 0, sections := [], cfg := cfg }

/-- Go `ReportData.Count`. -/
def ReportData.Count {fl : Floats} (self : ReportData fl) : Nat := self.count

/-- Go `ReportData.Money`. -/
def ReportData.Money {fl : Floats} (self : ReportData fl) : fl.F32 := self.money

/-- Go `ReportData.MonthsBetween`. -/
def ReportData.MonthsBetween {fl : Floats} (self : ReportData fl) : Int := self.monthsBetween

/-- Go `ReportData.updateTimes`. -/
def ReportData.updateTimes {fl : Floats} (self : ReportData fl) (rec : Record fl) :
    ReportData fl :=
  let self1 :=
    if self.beginDate.IsZero || rec.Date.Before self.beginDate then
      { self with beginDate := rec.Date }
    else self
  if self1.endDate.IsZero || rec.Date.After self1.endDate then
    { self1 with endDate := rec.Date }
  else self1

/-- Go `ReportData.addSection`: the report with the section created or fetched
and `money` added to it, and that section; `none` is the panic of `SkipFromSum`. -/
def ReportData.addSection {fl : Floats} (self : ReportData fl) (sectName : String)
    (money : fl.F32) : Option (ReportData fl × Section fl) :=
  match mapGet self.sections sectName with
  | some sect =>
    some ({ self with sections := mapSet self.sections sectName (sect.Add money) },
      sect.Add money)
  | none =>
    match self.cfg.SkipFromSum sectName with
    | none => none
    | some skip =>
      let sect := (newSection fl sectName skip).Add money
      some ({ self with sections := mapSet self.sections sectName sect }, sect)

/-- Go `ReportData.addRecord`; `none` is the panic of `SkipFromSum` on a
section name that is not in the index. The section returned by `addSection` is
the object held by the map, so `addItem` updates the map entry. -/
def ReportData.addRecord {fl : Floats} (self : ReportData fl) (sectName sectKey : String)
    (rec : Record fl) : Option (ReportData fl) :=
  let self1 := self.updateTimes rec
  let money := rec.Money
  match self1.cfg.SkipFromSum sectName with
  | none => none
  | some skip =>
    let self2 :=
      if !skip then { self1 with count := self1.count + 1, money := fl.add32 self1.money money }
      else self1
    match self2.addSection sectName money with
    | none => none
    | some (self3, sect) =>
      some { self3 with sections := mapSet self3.sections sectName (sect.addItem sectKey money) }

/-- Go `ReportData.updateMonthsBetween`. -/
def ReportData.updateMonthsBetween {fl : Floats} (self : ReportData fl) : ReportData fl :=
  let beginYear := self.beginDate.year
  let beginMonth : Int := self.beginDate.month
  let endYear := self.endDate.year
  let endMonth : Int := self.endDate.month
  let years := endYear - beginYear
  let months := endMonth - beginMonth
  if months < 0 then
    { self with monthsBetween := (years - 1) * 12 + (months + 12) + 1 }
  else
    { self with monthsBetween := years * 12 + months + 1 }

/-- Go `ReportData.finish`. -/
def ReportData.finish {fl : Floats} (self : ReportData fl) : ReportData fl :=
  self.updateMonthsBetween

/-- Go `ReportData.PerMonthString`. -/
def ReportData.PerMonthString {fl : Floats} (self : ReportData fl) (format : String) : String :=
  if decide (self.Count < 2) || decide (self.MonthsBetween < 2) then ""
  else fl.sprintf format (fl.div32 self.Money (fl.ofInt32 self.MonthsBetween))

/-- Go `Section.Name`. -/
def Section.Name {fl : Floats} (self : Section fl) : String := self.name

/-- Go `Section.Money`. -/
def Section.Money {fl : Floats} (self : Section fl) : fl.F32 := self.money

/-- Go `Section.Count`. -/
def Section.Count {fl : Floats} (self : Section fl) : Nat := self.count

/-- Go `Section.MonthsBetween`: the closure given to `withMonthsBetween` is the
bound method `MonthsBetween` of the owning report, here the argument `report`. -/
def Section.MonthsBetween {fl : Floats} (_self : Section fl) (report : ReportData fl) : Int :=
  report.MonthsBetween

/-- Go `Section.PerMonthString`, for a section of `report`. -/
def Section.PerMonthString {fl : Floats} (self : Section fl) (report : ReportData fl)
    (format : String) : String :=
  if self.skipFromSum || decide (self.count < 2) || decide (self.MonthsBetween report < 2) then ""
  else fl.sprintf format (fl.div32 self.Money (fl.ofInt32 (self.MonthsBetween report)))

/-- Go `SectionItem.Name`. -/
def SectionItem.Name {fl : Floats} (self : SectionItem fl) : String := self.name

/-- Go `SectionItem.Money`. -/
def SectionItem.Money {fl : Floats} (self : SectionItem fl) : fl.F32 := self.money

/-- Go `SectionItem.Count`. -/
def SectionItem.Count {fl : Floats} (self : SectionItem fl) : Nat := self.count

/-- Go `SectionItem.MonthsBetween`: the closure is the one of the owning
section, the bound method `MonthsBetween` of the owning report. -/
def SectionItem.MonthsBetween {fl : Floats} (_self : SectionItem fl) (report : ReportData fl) :
    Int :=
  report.MonthsBetween

/-- Go `SectionItem.PerMonthString`, for an item of a section of `report`. -/
def SectionItem.PerMonthString {fl : Floats} (self : SectionItem fl) (report : ReportData fl)
    (format : String) : String :=
  if self.skipFromSum || decide (self.count < 2) || decide (self.MonthsBetween report < 2) then ""
  else fl.sprintf format (fl.div32 self.Money (fl.ofInt32 (self.MonthsBetween report)))

/-- The library function `sort.Slice`, on the list of the elements of the
slice. The comparator `less(i, j)` of the program only reads the elements at
`i` and `j`, so it is a function of two elements. -/
structure SortLib where
  /-- Go `sort.Slice(x, less)`: the slice after sorting. -/
  Slice : {α : Type} → List α → (α → α → Bool) → List α

/-- The law of `sort.Slice` for a comparator that is total and transitive on
the elements of the slice (`less a b` reads "a sorts before b or ties with
it"): the result is a permutation of the slice in which every element is
`less` every later one. -/
def SortLib.Lawful (lib : SortLib) : Prop :=
  ∀ (α : Type) (l : List α) (less : α → α → Bool),
    (∀ a ∈ l, ∀ b ∈ l, less a b = true ∨ less b a = true) →
    (∀ a ∈ l, ∀ b ∈ l, ∀ c ∈ l, less a b = true → less b c = true → less a c = true) →
    (lib.Slice l less).Perm l ∧ (lib.Slice l less).Pairwise (fun a b => less a b = true)

/-- The read `self.cfg.sectionIndex[name].Order` of the comparator; the value
for a name that is not in the index is not used, see `SortedSections`. -/
def Config.orderOf {fl : Floats} (self : Config fl) (sectName : String) : Int :=
  match mapGet self.sectionIndex sectName with
  | some sect => sect.Order
  | none => 0

/-- The comparator that `SortedSections` gives to `sort.Slice`. -/
def ReportData.sectionLess {fl : Floats} (self : ReportData fl) (a b : Section fl) : Bool :=
  let order1 := self.cfg.orderOf a.Name
  let order2 := self.cfg.orderOf b.Name
  if order1 = order2 then fl.ge32 a.Money b.Money
  else decide (order1 < order2)

/-- Go `ReportData.SortedSections`. The sections are collected in the order of
the association list (Go leaves the order of a map unspecified). `none` is the
panic of the comparator on a section whose name is not in the index; the
comparator is not called on fewer than two sections. -/
def ReportData.SortedSections {fl : Floats} (lib : SortLib) (self : ReportData fl) :
    Option (List (Section fl)) :=
  let sections := self.sections.map (fun p => p.2)
  if sections.length < 2 ∨
      sections.all (fun s => (mapGet self.cfg.sectionIndex s.Name).isSome) then
    some (lib.Slice sections self.sectionLess)
  else none

/-! ## The report (`report.go`) -/

/-- Go `Report`. -/
structure Report (fl : Floats) where
  cfg : Config fl
  fromDate : Time
  toDate : Time
  data : ReportData fl

/-- Go `NewReport`. -/
def NewReport {fl : Floats} (cfg : Config fl) : Report fl :=
  { cfg := cfg, fromDate := Time.zero, toDate := Time.zero, data := NewReportData cfg }

/-- Go `Report.WithFromDate`. -/
def Report.WithFromDate {fl : Floats} (self : Report fl) (t : Time) : Report fl :=
  { self with fromDate := t }

/-- Go `Report.WithToDate`. -/
def Report.WithToDate {fl : Floats} (self : Report fl) (t : Time) : Report fl :=
  { self with toDate := t }

/-- The record source behind `Parser.Next`: the results of the reads that
precede the end of the input, each an error or a parsed record. -/
structure Parser (fl : Floats) where
  pending : List (Except Error (Record fl))

/-- Go `Parser.Next`: at the end of the input the zero record and no error. -/
def Parser.Next {fl : Floats} (self : Parser fl) : Except Error (Record fl) × Parser fl :=
  match self.pending with
  | [] => (.ok (Record.zero fl), self)
  | r :: rest => (r, { pending := rest })

/-- The `for` loop of `Report.Parse` over the reads that remain. The result is
the returned error (`none` for nil) and the report as the loop leaves it; the
outer `none` is a panic of `addRecord`. -/
def Report.parseLoop {fl : Floats} (self : Report fl) :
    List (Except Error (Record fl)) → Option (Option Error × Report fl)
  | [] =>
    -- `Next` returns the zero record, which is not valid
    some (none, { self with data := self.data.finish })
  | .error err :: _ => some (some err, self)
  | .ok record :: rest =>
    if !record.Valid then some (none, { self with data := self.data.finish })
    else if !record.Out || !record.Between self.fromDate self.toDate then
      Report.parseLoop self rest
    else
      match self.cfg.FindSection record with
      | .error err => some (some err, self)
      | .ok (sectName, sectKey) =>
        if sectName = "" ∨ sectKey = "" then
          some (some (.unknownRecord record.Line), self)
        else
          match self.data.addRecord sectName sectKey record with
          | none => none
          | some data => Report.parseLoop { self with data := data } rest

/-- Go `Report.Parse`, after `NewParser` has returned the parser. -/
def Report.Parse {fl : Floats} (self : Report fl) (parser : Parser fl) :
    Option (Option Error × Report fl) :=
  self.parseLoop parser.pending

/-! ## A concrete instance of the libraries

`miniLib` is a small instance of `GoLib` on which the program can be evaluated:
regular expressions made of literal characters, `.`, `\d`, escaped punctuation,
groups, `|`, `*`, `+` and `?`, matched leftmost-first as `regexp` does, and
templates made of text and the actions `{{.Note}}`, `{{.Vs}}`, `{{.AccountId}}`
(any other field is an execution error, as for a method `Record` does not
have). A pattern outside this fragment is reported as an error. `wholeAmounts`
computes with whole amounts, on which float arithmetic is exact below 2^24.
-/

/-- The decimal digits of a natural number, most significant first. -/
def natDigits : Nat → Nat → List Char → List Char
  | 0, n, acc => Char.ofNat (48 + n % 10) :: acc
  | fuel + 1, n, acc =>
    if n < 10 then Char.ofNat (48 + n) :: acc
    else natDigits fuel (n / 10) (Char.ofNat (48 + n % 10) :: acc)

/-- The text of a whole amount, as `%v` prints it. -/
def wholeText (x : Int) : List Char :=
  (if x < 0 then [Char.ofNat 45] else []) ++ natDigits x.natAbs x.natAbs []

/-- The `fmt.Sprintf` of `wholeAmounts` on the rest of a format: the verbs
`%v`, `%.0f` and `%.2f` print the operand, `%%` prints a percent sign, and the
operand is reported as missing or extra as `fmt` does. Other verbs are not
interpreted. -/
def wholeFormat : Nat → List Char → Bool → List Char → List Char
  | 0, _, _, _ => []
  | fuel + 1, s, used, num =>
    if s = [] then
      (if used then [] else "%!(EXTRA float32=".data ++ num ++ ")".data)
    else if "%%".data.isPrefixOf s then
      Char.ofNat 37 :: wholeFormat fuel (s.drop 2) used num
    else if "%v".data.isPrefixOf s then
      (if used then "%!v(MISSING)".data else num) ++ wholeFormat fuel (s.drop 2) true num
    else if "%.0f".data.isPrefixOf s then
      (if used then "%!f(MISSING)".data else num) ++ wholeFormat fuel (s.drop 4) true num
    else if "%.2f".data.isPrefixOf s then
      (if used then "%!f(MISSING)".data else num ++ ".00".data) ++
        wholeFormat fuel (s.drop 4) true num
    else s.take 1 ++ wholeFormat fuel (s.drop 1) used num

/-- Whole amounts as integers. The quotient is the integer quotient, which is
the float32 quotient when the division leaves no remainder. -/
def wholeAmounts : Floats :=
  { F64 := Int, F32 := Int, zero64 := 0, isNeg := fun x => decide (x < 0),
    abs32 := fun x => |x|, zero32 := 0, add32 := fun x y => x + y,
    ofInt32 := fun n => n, div32 := fun x y => x / y,
    sprintf := fun format x =>
      String.mk (wholeFormat (format.data.length + 1) format.data false (wholeText x)),
    ge32 := fun x y => decide (x ≥ y) }

/-- The regular expressions of `miniLib`. -/
inductive Rx where
  | chr (c : Char)
  | digit
  | any
  | eps
  | seq (a b : Rx)
  | alt (a b : Rx)
  | star (a : Rx)
  | plus (a : Rx)
  | opt (a : Rx)
  | group (i : Nat) (a : Rx)
deriving Repr

/-- Greedy iteration of a matching step, at most `n` times, each consuming input. -/
def starLoop {R : Type}
    (step : List Char → List (Nat × List Char) →
      (List Char → List (Nat × List Char) → Option R) → Option R) :
    Nat → List Char → List (Nat × List Char) →
      (List Char → List (Nat × List Char) → Option R) → Option R
  | 0, s, caps, k => k s caps
  | n + 1, s, caps, k =>
    match step s caps (fun rest caps1 =>
        if rest.length < s.length then starLoop step n rest caps1 k else none) with
    | some r => some r
    | none => k s caps

/-- Backtracking match of `rx` at the head of the input, with the captures so
far and the continuation for the rest of the pattern. -/
def Rx.run {R : Type} : Rx → List Char → List (Nat × List Char) →
    (List Char → List (Nat × List Char) → Option R) → Option R
  | .chr c, s, caps, k =>
    match s with
    | d :: rest => if d = c then k rest caps else none
    | [] => none
  | .digit, s, caps, k =>
    match s with
    | d :: rest => if d.isDigit then k rest caps else none
    | [] => none
  | .any, s, caps, k =>
    match s with
    | d :: rest => if d ≠ Char.ofNat 10 then k rest caps else none
    | [] => none
  | .eps, s, caps, k => k s caps
  | .seq a b, s, caps, k => a.run s caps (fun rest caps1 => b.run rest caps1 k)
  | .alt a b, s, caps, k =>
    match a.run s caps k with
    | some r => some r
    | none => b.run s caps k
  | .star a, s, caps, k => starLoop a.run s.length s caps k
  | .plus a, s, caps, k =>
    a.run s caps (fun rest caps1 => starLoop a.run rest.length rest caps1 k)
  | .opt a, s, caps, k =>
    match a.run s caps k with
    | some r => some r
    | none => k s caps
  | .group i a, s, caps, k =>
    a.run s caps (fun rest caps1 =>
      k rest ((i, s.take (s.length - rest.length)) :: caps1))

/-- The text of capture group `i`, empty when the group did not take part. -/
def capText (caps : List (Nat × List Char)) (i : Nat) : String :=
  match caps.find? (fun p => p.1 = i) with
  | some p => String.mk p.2
  | none => ""

/-- The leftmost match of `rx` in the input: the matched text and the groups. -/
def Rx.findIn (rx : Rx) (groups : Nat) : List Char → Option (List String)
  | [] =>
    match rx.run [] [] (fun rest caps => some (rest, caps)) with
    | some (_, caps) => some ("" :: (List.range groups).map (fun i => capText caps (i + 1)))
    | none => none
  | c :: t =>
    match rx.run (c :: t) [] (fun rest caps => some (rest, caps)) with
    | some (rest, caps) =>
      some (String.mk ((c :: t).take ((c :: t).length - rest.length)) ::
        (List.range groups).map (fun i => capText caps (i + 1)))
    | none => rx.findIn groups t

/-- Whether a pattern character needs an escape to stand for itself. -/
def isMetaChar (c : Char) : Bool :=
  [42, 43, 63, 91, 93, 123, 125, 94, 36, 92].contains c.toNat

mutual
/-- Alternation `a|b`. The last component counts the groups opened so far. -/
def parseAlt : Nat → List Char → Nat → Option (Rx × List Char × Nat)
  | 0, _, _ => none
  | n + 1, s, g =>
    match parseSeq n s g with
    | none => none
    | some (a, rest, g1) =>
      match rest with
      | c :: rest1 =>
        if c = Char.ofNat 124 then
          match parseAlt n rest1 g1 with
          | none => none
          | some (b, rest2, g2) => some (.alt a b, rest2, g2)
        else some (a, rest, g1)
      | [] => some (a, rest, g1)
/-- Concatenation, up to `|`, `)` or the end. -/
def parseSeq : Nat → List Char → Nat → Option (Rx × List Char × Nat)
  | 0, _, _ => none
  | n + 1, s, g =>
    match s with
    | [] => some (.eps, [], g)
    | c :: _ =>
      if c = Char.ofNat 124 ∨ c = Char.ofNat 41 then some (.eps, s, g)
      else
        match parseAtom n s g with
        | none => none
        | some (a, rest, g1) =>
          match parseSeq n rest g1 with
          | none => none
          | some (b, rest2, g2) => some (.seq a b, rest2, g2)
/-- One atom with its repetition operators. -/
def parseAtom : Nat → List Char → Nat → Option (Rx × List Char × Nat)
  | 0, _, _ => none
  | n + 1, s, g =>
    match s with
    | [] => none
    | c :: rest =>
      if c = Char.ofNat 40 then
        match parseAlt n rest (g + 1) with
        | some (a, d :: rest1, g1) =>
          if d = Char.ofNat 41 then parsePost n (.group (g + 1) a) rest1 g1 else none
        | _ => none
      else if c = Char.ofNat 92 then
        match rest with
        | [] => none
        | e :: rest1 =>
          if e = Char.ofNat 100 then parsePost n .digit rest1 g
          else if e.isAlphanum then none
          else parsePost n (.chr e) rest1 g
      else if c = Char.ofNat 46 then parsePost n .any rest g
      else if isMetaChar c then none
      else parsePost n (.chr c) rest g
/-- The repetition operators after an atom. -/
def parsePost : Nat → Rx → List Char → Nat → Option (Rx × List Char × Nat)
  | 0, _, _, _ => none
  | n + 1, a, s, g =>
    match s with
    | [] => some (a, s, g)
    | c :: rest =>
      if c = Char.ofNat 42 then parsePost n (.star a) rest g
      else if c = Char.ofNat 43 then parsePost n (.plus a) rest g
      else if c = Char.ofNat 63 then parsePost n (.opt a) rest g
      else some (a, s, g)
end

/-- The `regexp.Compile` of `miniLib`. -/
def miniRegexpCompile (re : String) : Except String Regexp :=
  match parseAlt (2 * re.data.length + 2) re.data 0 with
  | some (rx, [], g) => .ok { FindStringSubmatch := fun s => rx.findIn g s.data }
  | _ => .error "error parsing regexp"

/-- A node of a `miniLib` template: text, or the action `{{.name}}`. -/
inductive TNode where
  | text (s : List Char)
  | field (name : String)
deriving Repr

/-- The body of an action up to the closing delimiter, and the input after it. -/
def splitAction : List Char → Option (List Char × List Char)
  | [] => none
  | c :: rest =>
    match rest with
    | d :: rest1 =>
      if c = Char.ofNat 125 ∧ d = Char.ofNat 125 then some ([], rest1)
      else
        match splitAction rest with
        | none => none
        | some (body, after) => some (c :: body, after)
    | [] => none

/-- The field named by an action body `.name`. -/
def fieldOf (body : String) : Option String :=
  match (trimSpaces body).data with
  | c :: name =>
    if c = Char.ofNat 46 ∧ name ≠ [] ∧ name.all Char.isAlphanum then some (String.mk name)
    else none
  | [] => none

/-- The nodes so far with the pending text, if any, in front. -/
def flushText (acc : List Char) (nodes : List TNode) : List TNode :=
  if acc = [] then nodes else TNode.text acc.reverse :: nodes

/-- The nodes of a template text; `acc` is the text read since the last action. -/
def parseNodes : Nat → List Char → List Char → Except String (List TNode)
  | 0, _, _ => .error "template too long"
  | _ + 1, [], acc => .ok (flushText acc [])
  | n + 1, c :: rest, acc =>
    match rest with
    | d :: rest1 =>
      if c = Char.ofNat 123 ∧ d = Char.ofNat 123 then
        match splitAction rest1 with
        | none => .error "unclosed action"
        | some (body, after) =>
          match fieldOf (String.mk body) with
          | none => .error "unsupported action"
          | some name =>
            match parseNodes n after [] with
            | .error e => .error e
            | .ok nodes => .ok (flushText acc (TNode.field name :: nodes))
      else parseNodes n rest (c :: acc)
    | [] => parseNodes n rest (c :: acc)

/-- The `parse.NodeType` of a node. -/
def TNode.type : TNode → NodeType
  | .text _ => NodeType.NodeText
  | .field _ => NodeType.NodeAction

/-- Execution of the nodes against a record. -/
def execNodes {fl : Floats} (rec : Record fl) : List TNode → Except String String
  | [] => .ok ""
  | .text s :: rest =>
    match execNodes rec rest with
    | .error e => .error e
    | .ok out => .ok (String.mk s ++ out)
  | .field name :: rest =>
    let value : Option String :=
      if name = "Note" then some rec.Note
      else if name = "Vs" then some rec.Vs
      else if name = "AccountId" then some rec.AccountId
      else none
    match value with
    | none => .error ("can not evaluate field " ++ name)
    | some v =>
      match execNodes rec rest with
      | .error e => .error e
      | .ok out => .ok (v ++ out)

/-- The `template.Parse` of `miniLib`. -/
def miniTemplateParse (fl : Floats) (tmpl : String) : Except String (Template fl) :=
  match parseNodes (tmpl.data.length + 1) tmpl.data [] with
  | .error e => .error e
  | .ok nodes => .ok { nodes := nodes.map TNode.type, Execute := fun rec => execNodes rec nodes }

/-- The library instance. -/
def miniLib (fl : Floats) : GoLib fl :=
  { regexpCompile := miniRegexpCompile, templateParse := miniTemplateParse fl }

/-- A rule as the configuration file declares it, nothing compiled yet. -/
def declaredRule (fl : Floats) (key re account vs cond : String) : SectionRule fl :=
  { Key := key, Re := re, Account := account, Vs := vs, If := cond,
    keyTemplate := none, reCompiled := none, ifTemplate := none }

/-- An outgoing record of `wholeAmounts` dated 2024-01-15 on line 2. -/
def sampleRecord (accountId note vs : String) : Record wholeAmounts :=
  { date := ⟨2024, 1, 15⟩, accountId := accountId, note := note, vs := vs, line := 2,
    money := (-100 : Int), valid := true }


/-! ## Specification vocabulary -/

/-- The records `Report.Parse` does not skip: outgoing and inside the date filter. -/
def Report.kept {fl : Floats} (self : Report fl) (recs : List (Record fl)) :
    List (Record fl) :=
  recs.filter (fun r => r.Out && r.Between self.fromDate self.toDate)

/-- A sequence of `addRecord` calls, each with its section name, key and record. -/
def addAll {fl : Floats} :
    ReportData fl → List (String × String × Record fl) → Option (ReportData fl)
  | d, [] => some d
  | d, (sectName, sectKey, rec) :: rest =>
    match d.addRecord sectName sectKey rec with
    | none => none
    | some d1 => addAll d1 rest

/-- The `addRecord` call that `Report.Parse` makes for a record: the section
name and key are those `FindSection` returns. -/
def classifiedCalls {fl : Floats} (cfg : Config fl) :
    List (Record fl) → List (String × String × Record fl)
  | [] => []
  | r :: rest =>
    match cfg.FindSection r with
    | .ok (sectName, sectKey) => (sectName, sectKey, r) :: classifiedCalls cfg rest
    | .error _ => classifiedCalls cfg rest

/-- `FindSection` classifies the record: no error, a section name and a key. -/
def Classified {fl : Floats} (cfg : Config fl) (r : Record fl) : Prop :=
  ∃ sectName sectKey, cfg.FindSection r = .ok (sectName, sectKey) ∧
    sectName ≠ "" ∧ sectKey ≠ ""

/-- Every section of the configuration is in its index, as `Config.compile`
leaves it. -/
def Indexed {fl : Floats} (cfg : Config fl) : Prop :=
  ∀ s ∈ cfg.Sections, mapGet cfg.sectionIndex s.Name ≠ none

/-- The section that `addSection` leaves in the map and returns. -/
def sectionAfterAdd {fl : Floats} (d : ReportData fl) (sectName : String) (skip : Bool)
    (money : fl.F32) : Section fl :=
  match mapGet d.sections sectName with
  | some sect => sect.Add money
  | none => (newSection fl sectName skip).Add money

/-- The calls that count towards the grand total: those whose section is not
flagged skip-from-sum. -/
def countedCalls {fl : Floats} (cfg : Config fl) (calls : List (String × String × Record fl)) :
    List (String × String × Record fl) :=
  calls.filter (fun c => decide (cfg.SkipFromSum c.1 = some false))

/-- The count of a section of the report, zero while the section does not exist. -/
def ReportData.sectionCount {fl : Floats} (d : ReportData fl) (sectName : String) : Nat :=
  match mapGet d.sections sectName with
  | some sect => sect.count
  | none => 0

/-- The money of a section of the report, zero while the section does not exist. -/
def ReportData.sectionMoney {fl : Floats} (d : ReportData fl) (sectName : String) : fl.F32 :=
  match mapGet d.sections sectName with
  | some sect => sect.money
  | none => fl.zero32

/-- The item of a section of the report, if both exist. -/
def ReportData.item {fl : Floats} (d : ReportData fl) (sectName sectKey : String) :
    Option (SectionItem fl) :=
  match mapGet d.sections sectName with
  | some sect => mapGet sect.items sectKey
  | none => none

/-- The count of an item, zero while the item does not exist. -/
def ReportData.itemCount {fl : Floats} (d : ReportData fl) (sectName sectKey : String) : Nat :=
  match d.item sectName sectKey with
  | some item => item.count
  | none => 0

/-- The money of an item, zero while the item does not exist. -/
def ReportData.itemMoney {fl : Floats} (d : ReportData fl) (sectName sectKey : String) :
    fl.F32 :=
  match d.item sectName sectKey with
  | some item => item.money
  | none => fl.zero32

/-- The law of `regexp` for the empty pattern: it compiles to a regexp that
matches every text, with the empty match and no capture group. -/
def EmptyPatternLaw {fl : Floats} (lib : GoLib fl) : Prop :=
  ∀ re, lib.regexpCompile "" = .ok re → ∀ s, re.FindStringSubmatch s = some [""]

/-- Whether the regexp of the rule, if one is compiled, matches the note. -/
def SectionRule.reMatches {fl : Floats} (self : SectionRule fl) (rec : Record fl) : Bool :=
  match self.reCompiled with
  | none => true
  | some re => (re.FindStringSubmatch rec.Note).isSome

/-- The text with leading and trailing whitespace removed, in the words of the
specification ("render it against the record and trim whitespace"). -/
def trimWhitespace (s : String) : String :=
  String.mk ((s.data.dropWhile Char.isWhitespace).reverse.dropWhile Char.isWhitespace).reverse

/-- The rule as `SectionRule.compile` leaves it (the rule itself on an error). -/
def compiledRule {fl : Floats} (lib : GoLib fl) (rule : SectionRule fl) (sectName : String)
    (idx : Nat) : SectionRule fl :=
  match rule.compile lib sectName idx with
  | .ok r => r
  | .error _ => rule

/-- The regexp that `miniLib` compiles from a pattern (matching nothing on an error). -/
def miniRegexp (re : String) : Regexp :=
  match miniRegexpCompile re with
  | .ok r => r
  | .error _ => { FindStringSubmatch := fun _ => none }

/-- A declared configuration: four sections, the third flagged skip-from-sum. -/
def declaredConfig : Config wholeAmounts :=
  { Sections := [
      { Name := "Food", Order := 1, Skip := false, SkipPerMonth := false,
        Rules := [declaredRule wholeAmounts "Groceries" "ALBERT" "" "" ""] },
      { Name := "Fees", Order := 2, Skip := false, SkipPerMonth := false,
        Rules := [declaredRule wholeAmounts "" "FEE-(\\d+)" "" "" ""] },
      { Name := "Rent", Order := 3, Skip := true, SkipPerMonth := false,
        Rules := [declaredRule wholeAmounts "" "" "123/456" "9" ""] },
      { Name := "Other", Order := 4, Skip := false, SkipPerMonth := true,
        Rules := [declaredRule wholeAmounts "" "(CARD|ATM) .*" "" "" ""] } ],
    Template := "report.tmpl",
    sectionIndex := [] }

/-- The rule `{re: "FEE-(\d+)"}` of section "Fees", compiled. -/
def feeRule : SectionRule wholeAmounts :=
  compiledRule (miniLib wholeAmounts) (declaredRule wholeAmounts "" "FEE-(\\d+)" "" "" "") "Fees" 0

/-- The rule `{re: "ALBERT", key: "Groceries"}` of section "Food", compiled. -/
def groceriesRule : SectionRule wholeAmounts :=
  compiledRule (miniLib wholeAmounts)
    (declaredRule wholeAmounts "Groceries" "ALBERT" "" "" "") "Food" 0

/-- The rule `{account: "123/456", vs: "9"}` of section "Rent", compiled. -/
def rentRule : SectionRule wholeAmounts :=
  compiledRule (miniLib wholeAmounts) (declaredRule wholeAmounts "" "" "123/456" "9" "") "Rent" 0

/-- The rule `{key: "{{.Vs}}"}`, compiled: a key template and nothing else. -/
def vsKeyRule : SectionRule wholeAmounts :=
  compiledRule (miniLib wholeAmounts)
    (declaredRule wholeAmounts "\x7b\x7b.Vs\x7d\x7d" "" "" "" "") "Other" 0

/-- The rule whose key is the block `{{.Vs}}` ending in a line feed, compiled. -/
def vsLineKeyRule : SectionRule wholeAmounts :=
  compiledRule (miniLib wholeAmounts)
    (declaredRule wholeAmounts "\x7b\x7b.Vs\x7d\x7d\n" "" "" "" "") "Other" 0

/-- The rule `{re: "(CARD|ATM) .*"}` of section "Other", compiled. -/
def cardRule : SectionRule wholeAmounts :=
  compiledRule (miniLib wholeAmounts)
    (declaredRule wholeAmounts "" "(CARD|ATM) .*" "" "" "") "Other" 0

/-- The section "Food" of `declaredConfig`, compiled. -/
def foodSection : SectionConfig wholeAmounts :=
  { Name := "Food", Order := 1, Skip := false, SkipPerMonth := false, Rules := [groceriesRule] }

/-- The sections of `declaredConfig` after "Food", compiled. -/
def laterSections : List (SectionConfig wholeAmounts) :=
  [ { Name := "Fees", Order := 2, Skip := false, SkipPerMonth := false, Rules := [feeRule] },
    { Name := "Rent", Order := 3, Skip := true, SkipPerMonth := false, Rules := [rentRule] },
    { Name := "Other", Order := 4, Skip := false, SkipPerMonth := true, Rules := [cardRule] } ]

/-- The configuration `declaredConfig` as `Config.compile` leaves it. -/
def sampleConfig : Config wholeAmounts :=
  { Sections := foodSection :: laterSections,
    Template := "report.tmpl",
    sectionIndex := (foodSection :: laterSections).map (fun s => (s.Name, s)) }

/-- A valid record of `wholeAmounts`. -/
def recordOf (line : Int) (date : Time) (money : Int) (accountId note vs : String) :
    Record wholeAmounts :=
  { date := date, accountId := accountId, note := note, vs := vs, line := line,
    money := money, valid := true }

/-- A statement of five rows: an incoming payment, two outgoing payments the
configuration classifies, one outside January 2024, and one no rule matches. -/
def sampleRows : List (Record wholeAmounts) :=
  [ recordOf 2 ⟨2024, 1, 3⟩ 5000 "" "SALARY" "",
    recordOf 3 ⟨2024, 1, 5⟩ (-120) "" "ALBERT 12" "",
    recordOf 4 ⟨2024, 1, 9⟩ (-900) "123/456" "" "9",
    recordOf 5 ⟨2024, 2, 1⟩ (-70) "" "ALBERT 13" "",
    recordOf 6 ⟨2024, 1, 20⟩ (-15) "" "KIOSK" "" ]

/-- The report for January 2024 over `sampleConfig`. -/
def sampleReport : Report wholeAmounts :=
  ((NewReport sampleConfig).WithFromDate ⟨2024, 1, 1⟩).WithToDate ⟨2024, 1, 31⟩

/-- Three `addRecord` calls, the second for the skip-from-sum section "Rent". -/
def sampleCalls : List (String × String × Record wholeAmounts) :=
  [ ("Food", "Groceries", recordOf 3 ⟨2024, 1, 5⟩ (-120) "" "ALBERT 12" ""),
    ("Rent", "123/456, VS: 9", recordOf 4 ⟨2024, 3, 9⟩ (-900) "123/456" "" "9"),
    ("Food", "Groceries", recordOf 5 ⟨2023, 11, 1⟩ (-70) "" "ALBERT 13" "") ]

/-- The rule declares none of regexp, key and account. -/
def SectionRule.lacksAll {fl : Floats} (self : SectionRule fl) : Prop :=
  self.Re = "" ∧ self.Key = "" ∧ self.Account = ""

/-- A configuration whose second section has, at index 1, a rule that declares
none of regexp, key and account. -/
def brokenConfig : Config wholeAmounts :=
  { Sections := [
      { Name := "Food", Order := 1, Skip := false, SkipPerMonth := false,
        Rules := [declaredRule wholeAmounts "Groceries" "ALBERT" "" "" ""] },
      { Name := "Fees", Order := 2, Skip := false, SkipPerMonth := false,
        Rules := [declaredRule wholeAmounts "" "FEE-(\\d+)" "" "" "",
                  declaredRule wholeAmounts "" "" "" "9" "x"] } ],
    Template := "report.tmpl",
    sectionIndex := [] }

/-- Two `addRecord` calls, the first for a record dated 0001-01-01. -/
def zeroDateCalls : List (String × String × Record wholeAmounts) :=
  [ ("Food", "Groceries", recordOf 2 ⟨1, 1, 1⟩ (-120) "" "ALBERT 12" ""),
    ("Food", "Groceries", recordOf 3 ⟨2024, 1, 15⟩ (-70) "" "ALBERT 13" "") ]

/-- The month of the date is one of the twelve calendar months, as for every
`time.Time`. -/
def Time.validMonth (t : Time) : Prop := 1 ≤ t.month ∧ t.month ≤ 12

/-- Two `addRecord` calls for records dated 2024-01-15 and 2024-03-02. -/
def spanCalls : List (String × String × Record wholeAmounts) :=
  [ ("Food", "Groceries", recordOf 2 ⟨2024, 1, 15⟩ (-120) "" "ALBERT 12" ""),
    ("Food", "Groceries", recordOf 3 ⟨2024, 3, 2⟩ (-60) "" "ALBERT 13" "") ]

/-- The report after `spanCalls` on a fresh `ReportData` (the fresh one on a panic). -/
def spanReport : ReportData wholeAmounts :=
  match addAll (NewReportData sampleConfig) spanCalls with
  | some d => d
  | none => NewReportData sampleConfig

/-- The rule `{re: "ALBERT", vs: "9"}`, compiled: a reference code without an
account. -/
def vsOnlyRule : SectionRule wholeAmounts :=
  compiledRule (miniLib wholeAmounts) (declaredRule wholeAmounts "" "ALBERT" "" "9" "") "Food" 0

/-- Two `addRecord` calls for the section "Other", whose configuration sets
the skip-per-month flag, dated 2024-01-15 and 2024-03-02. -/
def otherCalls : List (String × String × Record wholeAmounts) :=
  [ ("Other", "CARD", recordOf 2 ⟨2024, 1, 15⟩ (-100) "" "CARD 1" ""),
    ("Other", "CARD", recordOf 3 ⟨2024, 3, 2⟩ (-200) "" "CARD 2" "") ]

/-- The finished report after `otherCalls` (the fresh one on a panic). -/
def otherReport : ReportData wholeAmounts :=
  match addAll (NewReportData sampleConfig) otherCalls with
  | some d => d.finish
  | none => NewReportData sampleConfig

/-- The skip-from-sum flags stored in the tree are those of the configuration:
a section holds the flag of its name, an item the flag of its section. -/
def FlagsAgree {fl : Floats} (cfg : Config fl) (d : ReportData fl) : Prop :=
  ∀ sn sect, mapGet d.sections sn = some sect →
    cfg.SkipFromSum sn = some sect.skipFromSum ∧
    ∀ k item, mapGet sect.items k = some item → item.skipFromSum = sect.skipFromSum

/-- The report after `sampleCalls` on a fresh `ReportData` (the fresh one on a panic). -/
def sampleTotals : ReportData wholeAmounts :=
  match addAll (NewReportData sampleConfig) sampleCalls with
  | some d => d
  | none => NewReportData sampleConfig

/-- The rule `{re: "ALBERT", if: " "}`, compiled: the condition is a blank text. -/
def blankIfRule : SectionRule wholeAmounts :=
  compiledRule (miniLib wholeAmounts) (declaredRule wholeAmounts "" "ALBERT" "" "" " ") "Food" 0

/-- The rule `{re: "ALBERT (\d+)", key: "Groceries", if: "{{.Vs}}"}`, compiled. -/
def vsIfRule : SectionRule wholeAmounts :=
  compiledRule (miniLib wholeAmounts)
    (declaredRule wholeAmounts "Groceries" "ALBERT (\\d+)" "" "" "\x7b\x7b.Vs\x7d\x7d") "Food" 0

/-! ## Sums of money -/

/-- The sum of a list of float32 values. -/
def moneySum (fl : Floats) : List fl.F32 → fl.F32
  | [] => fl.zero32
  | x :: rest => fl.add32 x (moneySum fl rest)

/-- The sum of the money of the items of a section. -/
def Section.itemsMoney {fl : Floats} (self : Section fl) : fl.F32 :=
  moneySum fl (self.items.map (fun p => p.2.money))

/-- The number of low bits that float32 drops from a natural number: none
below 2^24, one below 2^25, and so on. -/
def droppedBits : Nat → Nat → Nat
  | 0, _ => 0
  | fuel + 1, n => if n < 16777216 then 0 else 1 + droppedBits fuel (n / 2)

/-- The float32 nearest to a natural number below 2^128: 24 significant bits,
round to nearest, ties to even. -/
def roundF32 (n : Nat) : Nat :=
  let e := droppedBits 128 n
  let q := n / 2 ^ e
  let r := n % 2 ^ e
  if 2 * r > 2 ^ e ∨ (2 * r = 2 ^ e ∧ q % 2 = 1) then (q + 1) * 2 ^ e else q * 2 ^ e

/-- The float32 sum of two natural numbers that are float32 values. -/
def roundedAdd (x y : Nat) : Nat := roundF32 (x + y)

/-- Whole amounts with the rounding of float32: sums and conversions are
rounded to 24 significant bits. -/
def roundedAmounts : Floats :=
  { F64 := Int, F32 := Nat, zero64 := 0, isNeg := fun x => decide (x < 0),
    abs32 := fun x => roundF32 x.natAbs, zero32 := 0,
    add32 := roundedAdd,
    ofInt32 := fun n => roundF32 n.toNat, div32 := fun x y => roundF32 (x / y),
    sprintf := fun format x =>
      String.mk (wholeFormat (format.data.length + 1) format.data false (wholeText x)),
    ge32 := fun x y => decide (x ≥ y) }

/-- A configuration over `roundedAmounts` with the section "Food". -/
def roundedConfig : Config roundedAmounts :=
  { Sections := [
      { Name := "Food", Order := 1, Skip := false, SkipPerMonth := false,
        Rules := [compiledRule (miniLib roundedAmounts)
          (declaredRule roundedAmounts "" "(ALBERT|BILLA)" "" "" "") "Food" 0] } ],
    Template := "report.tmpl",
    sectionIndex := [("Food",
      { Name := "Food", Order := 1, Skip := false, SkipPerMonth := false,
        Rules := [compiledRule (miniLib roundedAmounts)
          (declaredRule roundedAmounts "" "(ALBERT|BILLA)" "" "" "") "Food" 0] })] }

/-- An outgoing record of `roundedAmounts`. -/
def roundedRecord (line : Int) (money : Int) (note : String) : Record roundedAmounts :=
  { date := ⟨2024, 1, 15⟩, accountId := "", note := note, vs := "", line := line,
    money := money, valid := true }

/-- Three `addRecord` calls for "Food": 16777216 for the item "ALBERT", then
twice 1 for the item "BILLA". -/
def roundingCalls : List (String × String × Record roundedAmounts) :=
  [ ("Food", "ALBERT", roundedRecord 2 (-16777216) "ALBERT"),
    ("Food", "BILLA", roundedRecord 3 (-1) "BILLA"),
    ("Food", "BILLA", roundedRecord 4 (-1) "BILLA") ]

/-- One insertion step of Go's insertion sort, on the sorted prefix in reverse:
`x` moves left while it is `less` than its left neighbour. -/
def insertBack {α : Type} (less : α → α → Bool) (x : α) : List α → List α
  | [] => [x]
  | y :: ys => if less x y then y :: insertBack less x ys else x :: y :: ys

/-- Go's insertion sort (`insertionSortLessFunc`), which `sort.Slice` runs on
slices of at most twelve elements. -/
def insertionSortGo {α : Type} (l : List α) (less : α → α → Bool) : List α :=
  (l.foldl (fun acc x => insertBack less x acc) []).reverse

/-- The sort library with insertion sort. -/
def insertionSortLib : SortLib := { Slice := fun l less => insertionSortGo l less }

/-- The sorted sections are in ascending Order and, for equal Order, in
non-increasing money. -/
def SectionsOrdered {fl : Floats} (cfg : Config fl) (out : List (Section fl)) : Prop :=
  out.Pairwise (fun a b =>
    cfg.orderOf a.Name < cfg.orderOf b.Name ∨
    (cfg.orderOf a.Name = cfg.orderOf b.Name ∧ fl.ge32 a.Money b.Money = true))

/-- A configuration with three sections, two of them of Order 1. -/
def orderedConfig : Config wholeAmounts :=
  { Sections := [
      { Name := "Fees", Order := 2, Skip := false, SkipPerMonth := false, Rules := [feeRule] },
      { Name := "Food", Order := 1, Skip := false, SkipPerMonth := false,
        Rules := [groceriesRule] },
      { Name := "Other", Order := 1, Skip := false, SkipPerMonth := false, Rules := [cardRule] } ],
    Template := "report.tmpl",
    sectionIndex := [
      ("Fees", { Name := "Fees", Order := 2, Skip := false, SkipPerMonth := false,
                 Rules := [feeRule] }),
      ("Food", { Name := "Food", Order := 1, Skip := false, SkipPerMonth := false,
                 Rules := [groceriesRule] }),
      ("Other", { Name := "Other", Order := 1, Skip := false, SkipPerMonth := false,
                  Rules := [cardRule] }) ] }

/-- Three `addRecord` calls, one for each section of `orderedConfig`. -/
def orderedCalls : List (String × String × Record wholeAmounts) :=
  [ ("Fees", "42", recordOf 2 ⟨2024, 1, 5⟩ (-500) "" "FEE-42 service" ""),
    ("Food", "Groceries", recordOf 3 ⟨2024, 1, 9⟩ (-120) "" "ALBERT 12" ""),
    ("Other", "CARD", recordOf 4 ⟨2024, 1, 11⟩ (-300) "" "CARD 7" "") ]

/-- The report after `orderedCalls` (the fresh one on a panic). -/
def orderedReport : ReportData wholeAmounts :=
  match addAll (NewReportData orderedConfig) orderedCalls with
  | some d => d
  | none => NewReportData orderedConfig

/-- The value of a non-empty text of decimal digits. -/
def digitsValue (cs : List Char) : Option Nat :=
  if cs ≠ [] ∧ cs.all Char.isDigit = true then
    some (cs.foldl (fun n c => 10 * n + (c.toNat - 48)) 0)
  else none

/-- The number of days of a month. -/
def daysIn (month : Nat) (year : Nat) : Nat :=
  if month = 2 then
    (if year % 4 = 0 ∧ (year % 100 ≠ 0 ∨ year % 400 = 0) then 29 else 28)
  else if month = 4 ∨ month = 6 ∨ month = 9 ∨ month = 11 then 30
  else 31

/-- The `time.Parse` of `miniParseLib`: the layout "02.01.2006" only. -/
def miniTimeParse (layout value : String) : Except String Time :=
  if layout ≠ "02.01.2006" then .error "layout not supported"
  else
    let cs := value.data
    if cs.length = 10 ∧ cs.get? 2 = some (Char.ofNat 46) ∧ cs.get? 5 = some (Char.ofNat 46) then
      match digitsValue (cs.take 2), digitsValue ((cs.drop 3).take 2), digitsValue (cs.drop 6) with
      | some day, some month, some year =>
        if 1 ≤ month ∧ month ≤ 12 ∧ 1 ≤ day ∧ day ≤ daysIn month year then
          .ok { year := year, month := month, day := day }
        else .error "day or month out of range"
      | _, _, _ => .error "cannot parse the date"
    else .error "cannot parse the date"

/-- The `strconv.ParseFloat` of `miniParseLib` for `wholeAmounts`: an optional
sign and decimal digits. -/
def miniParseFloat (s : String) (_bitSize : Nat) : Except String Int :=
  match s.data with
  | [] => .error "invalid syntax"
  | c :: rest =>
    if c = Char.ofNat 45 then
      match digitsValue rest with
      | some n => .ok (-(n : Int))
      | none => .error "invalid syntax"
    else if c = Char.ofNat 43 then
      match digitsValue rest with
      | some n => .ok (n : Int)
      | none => .error "invalid syntax"
    else
      match digitsValue (c :: rest) with
      | some n => .ok (n : Int)
      | none => .error "invalid syntax"

/-- A small instance of `ParseLib` for `wholeAmounts`: dates in the layout of
the program and whole amounts. -/
def miniParseLib : ParseLib wholeAmounts :=
  { timeParse := miniTimeParse, parseFloat := miniParseFloat }

/-- A row with account, bank code, recipient message and note. -/
def rentRow : List (String × String) :=
  [ ("Datum", "15.01.2024"), ("Objem", "-900"), ("Protiúčet", "123"), ("Kód banky", "456"),
    ("Zpráva pro příjemce", "January"), ("Poznámka", "rent"), ("Typ", "Platba"), ("VS", "9") ]

/-- A row without account and note, with a recipient message. -/
def cardRow : List (String × String) :=
  [ ("Datum", "29.02.2024"), ("Objem", "-120"), ("Protiúčet", ""), ("Kód banky", ""),
    ("Zpráva pro příjemce", "ALBERT 12"), ("Poznámka", ""), ("Typ", "Platba kartou"),
    ("VS", "") ]

/-- The record that `Record.Parse` makes of `rentRow` on line 2 (the zero
record on an error). -/
def rentRecord : Record wholeAmounts :=
  match (Record.zero wholeAmounts).Parse miniParseLib rentRow 2 with
  | .ok rec => rec
  | .error _ => Record.zero wholeAmounts

/-- The index holds, under the name, a section of that name. -/
def IndexHas {fl : Floats} (index : List (String × SectionConfig fl)) (name : String) : Prop :=
  ∃ sect, mapGet index name = some sect ∧ sect.Name = name

/-! ## Exact additions of a run

A valuation `val` gives the number that a float32 value denotes, in a
commutative monoid `M`. An addition `x + y` of float32 is exact when its result
denotes the sum of the numbers of `x` and `y`, that is when it is not rounded.
-/

/-- Whether every addition to the grand total that the calls make from the
state is exact. -/
def exactTotals {fl : Floats} {M : Type} [AddCommMonoid M] [DecidableEq M]
    (val : fl.F32 → M) : ReportData fl → List (String × String × Record fl) → Bool
  | _, [] => true
  | d, (sectName, sectKey, rec) :: rest =>
    (if d.cfg.SkipFromSum sectName = some false then
        decide (val (fl.add32 d.money rec.Money) = val d.money + val rec.Money)
      else true) &&
    (match d.addRecord sectName sectKey rec with
     | some d1 => exactTotals val d1 rest
     | none => true)

/-- Whether every addition to the money of a section and to the money of an
item that the calls make from the state is exact. -/
def exactSections {fl : Floats} {M : Type} [AddCommMonoid M] [DecidableEq M]
    (val : fl.F32 → M) : ReportData fl → List (String × String × Record fl) → Bool
  | _, [] => true
  | d, (sectName, sectKey, rec) :: rest =>
    decide (val (fl.add32 (d.sectionMoney sectName) rec.Money) =
      val (d.sectionMoney sectName) + val rec.Money) &&
    decide (val (fl.add32 (d.itemMoney sectName sectKey) rec.Money) =
      val (d.itemMoney sectName sectKey) + val rec.Money) &&
    (match d.addRecord sectName sectKey rec with
     | some d1 => exactSections val d1 rest
     | none => true)

/-- The money of every section of the tree denotes the sum of the numbers that
the money of its items denote. -/
def ValAgrees {fl : Floats} {M : Type} [AddCommMonoid M] (val : fl.F32 → M)
    (d : ReportData fl) : Prop :=
  ∀ sn sect, mapGet d.sections sn = some sect →
    val sect.money = (sect.items.map (fun p => val p.2.money)).sum

/-- The number that a float32 value of `roundedAmounts` denotes. -/
def roundedValue (x : roundedAmounts.F32) : Nat := x

/-- The number that a float32 value of `wholeAmounts` denotes. -/
def wholeValue (x : wholeAmounts.F32) : Int := x

/-- Three `addRecord` calls for "Food" with small amounts: 1 for the item
"ALBERT", then 2 and 3 for the item "BILLA". -/
def smallCalls : List (String × String × Record roundedAmounts) :=
  [ ("Food", "ALBERT", roundedRecord 2 (-1) "ALBERT"),
    ("Food", "BILLA", roundedRecord 3 (-2) "BILLA"),
    ("Food", "BILLA", roundedRecord 4 (-3) "BILLA") ]

/-- The report after `smallCalls` on a fresh `ReportData` (the fresh one on a panic). -/
def smallReport : ReportData roundedAmounts :=
  match addAll (NewReportData roundedConfig) smallCalls with
  | some d => d
  | none => NewReportData roundedConfig

/-- The section "Food" of `smallReport` (a fresh section when it is missing). -/
def smallFood : Section roundedAmounts :=
  match mapGet smallReport.sections "Food" with
  | some s => s
  | none => newSection roundedAmounts "Food" false

/-! # Theorems -/
/-! ## Classification: first match wins -/

theorem scanRules_all_empty {fl : Floats} (rec : Record fl) (rules : List (SectionRule fl))
    (h : ∀ r ∈ rules, r.ExtractKey rec = .ok "") : scanRules rec rules = .ok "" := by
  induction rules with
  | nil => rfl
  | cons r rs ih =>
    have hr := h r (List.mem_cons_self r rs)
    simp only [scanRules, hr]
    simpa using ih (fun q hq => h q (List.mem_cons_of_mem r hq))

theorem scanRules_first {fl : Floats} (rec : Record fl) (rpre rpost : List (SectionRule fl))
    (R : SectionRule fl) (k : String)
    (hpre : ∀ r ∈ rpre, r.ExtractKey rec = .ok "")
    (hR : R.ExtractKey rec = .ok k) (hk : k ≠ "") :
    scanRules rec (rpre ++ R :: rpost) = .ok k := by
  induction rpre with
  | nil => simp [scanRules, hR, hk]
  | cons r rs ih =>
    have hr := hpre r (List.mem_cons_self r rs)
    simp only [List.cons_append, scanRules, hr]
    simpa using ih (fun q hq => hpre q (List.mem_cons_of_mem r hq))

theorem scanSections_all_empty {fl : Floats} (rec : Record fl)
    (sects : List (SectionConfig fl))
    (h : ∀ s ∈ sects, ∀ r ∈ s.Rules, r.ExtractKey rec = .ok "") :
    scanSections rec sects = .ok ("", "") := by
  induction sects with
  | nil => rfl
  | cons s ss ih =>
    have hs := scanRules_all_empty rec s.Rules (h s (List.mem_cons_self s ss))
    simp only [scanSections, hs]
    simpa using ih (fun q hq => h q (List.mem_cons_of_mem s hq))

theorem scanSections_first {fl : Floats} (rec : Record fl)
    (pre post : List (SectionConfig fl)) (S : SectionConfig fl) (k : String)
    (hpre : ∀ s ∈ pre, ∀ r ∈ s.Rules, r.ExtractKey rec = .ok "")
    (hS : scanRules rec S.Rules = .ok k) (hk : k ≠ "") :
    scanSections rec (pre ++ S :: post) = .ok (S.Name, k) := by
  induction pre with
  | nil => simp [scanSections, hS, hk]
  | cons s ss ih =>
    have hs := scanRules_all_empty rec s.Rules (hpre s (List.mem_cons_self s ss))
    simp only [List.cons_append, scanSections, hs]
    simpa using ih (fun q hq => hpre q (List.mem_cons_of_mem s hq))

/-- C1: `Config.FindSection` is a first-match scan. If `S` is the first section
in declaration order holding a rule whose `ExtractKey` on the record is
non-empty, `R` the first such rule of `S` and `k` its key (every rule tried
before `R` returning the empty key without error), the result is
`(S.Name, k)`; if every rule of every section returns the empty key, the result
is two empty strings and no error. -/
theorem FindSection_first_match {fl : Floats} (cfg : Config fl) (rec : Record fl) :
    (∀ (pre post : List (SectionConfig fl)) (S : SectionConfig fl)
        (rpre rpost : List (SectionRule fl)) (R : SectionRule fl) (k : String),
        cfg.Sections = pre ++ S :: post →
        S.Rules = rpre ++ R :: rpost →
        (∀ s ∈ pre, ∀ r ∈ s.Rules, r.ExtractKey rec = .ok "") →
        (∀ r ∈ rpre, r.ExtractKey rec = .ok "") →
        R.ExtractKey rec = .ok k → k ≠ "" →
        cfg.FindSection rec = .ok (S.Name, k)) ∧
    ((∀ s ∈ cfg.Sections, ∀ r ∈ s.Rules, r.ExtractKey rec = .ok "") →
        cfg.FindSection rec = .ok ("", "")) := by
  refine ⟨?_, ?_⟩
  · intro pre post S rpre rpost R k hsec hrules hpre hrpre hR hk
    unfold Config.FindSection
    rw [hsec]
    apply scanSections_first rec pre post S k hpre _ hk
    rw [hrules]
    exact scanRules_first rec rpre rpost R k hrpre hR hk
  · intro h
    exact scanSections_all_empty rec cfg.Sections h


/-! ## Maps -/

theorem mapGet_mapSet_self {α : Type} (m : List (String × α)) (k : String) (v : α) :
    mapGet (mapSet m k v) k = some v := by
  induction m with
  | nil => simp [mapSet, mapGet]
  | cons p rest ih =>
    obtain ⟨k1, v1⟩ := p
    by_cases h : k1 = k
    · simp [mapSet, mapGet, h]
    · simp [mapSet, mapGet, h, ih]

theorem mapGet_mapSet_other {α : Type} (m : List (String × α)) (k k2 : String) (v : α)
    (h : k ≠ k2) : mapGet (mapSet m k v) k2 = mapGet m k2 := by
  induction m with
  | nil => simp [mapSet, mapGet, h]
  | cons p rest ih =>
    obtain ⟨k1, v1⟩ := p
    by_cases h1 : k1 = k
    · have h3 : ¬ k1 = k2 := fun e => h (h1.symm.trans e)
      simp [mapSet, mapGet, h1, h, h3]
    · by_cases h2 : k1 = k2
      · subst h2
        simp [mapSet, mapGet, h1]
      · simp [mapSet, mapGet, h1, h2, ih]

/-! ## `addRecord` -/

theorem updateTimes_cfg {fl : Floats} (d : ReportData fl) (rec : Record fl) :
    (d.updateTimes rec).cfg = d.cfg := by
  simp only [ReportData.updateTimes]
  split_ifs <;> rfl

theorem updateTimes_count {fl : Floats} (d : ReportData fl) (rec : Record fl) :
    (d.updateTimes rec).count = d.count := by
  simp only [ReportData.updateTimes]
  split_ifs <;> rfl

theorem updateTimes_money {fl : Floats} (d : ReportData fl) (rec : Record fl) :
    (d.updateTimes rec).money = d.money := by
  simp only [ReportData.updateTimes]
  split_ifs <;> rfl

theorem updateTimes_sections {fl : Floats} (d : ReportData fl) (rec : Record fl) :
    (d.updateTimes rec).sections = d.sections := by
  simp only [ReportData.updateTimes]
  split_ifs <;> rfl

theorem addSection_eq {fl : Floats} (d : ReportData fl) (sectName : String) (skip : Bool)
    (money : fl.F32) (h : d.cfg.SkipFromSum sectName = some skip) :
    d.addSection sectName money =
      some ({ d with sections :=
                (mapSet d.sections sectName (sectionAfterAdd d sectName skip money)) },
        sectionAfterAdd d sectName skip money) := by
  unfold ReportData.addSection sectionAfterAdd
  cases hm : mapGet d.sections sectName with
  | some sect => rfl
  | none => simp [h]

/-- The state after `addRecord`, in closed form. -/
theorem addRecord_eq {fl : Floats} (d : ReportData fl) (sectName sectKey : String)
    (rec : Record fl) (skip : Bool) (h : d.cfg.SkipFromSum sectName = some skip) :
    d.addRecord sectName sectKey rec =
      some { d.updateTimes rec with
        count := if skip then d.count else d.count + 1,
        money := if skip then d.money else fl.add32 d.money rec.Money,
        sections := (mapSet (mapSet d.sections sectName
            (sectionAfterAdd d sectName skip rec.Money)) sectName
          ((sectionAfterAdd d sectName skip rec.Money).addItem sectKey rec.Money)) } := by
  have h1 : (d.updateTimes rec).cfg.SkipFromSum sectName = some skip := by
    rw [updateTimes_cfg]; exact h
  unfold ReportData.addRecord
  simp only [h1]
  cases skip with
  | true =>
    have h2 := addSection_eq (d.updateTimes rec) sectName true rec.Money h1
    simp only [Bool.not_true, Bool.false_eq_true, if_false, h2, if_true]
    simp [sectionAfterAdd, updateTimes_sections, updateTimes_count, updateTimes_money]
  | false =>
    have h1b : ({ d.updateTimes rec with
        count := (d.updateTimes rec).count + 1,
        money := fl.add32 (d.updateTimes rec).money rec.Money } : ReportData fl).cfg.SkipFromSum
          sectName = some false := h1
    have h2 := addSection_eq _ sectName false rec.Money h1b
    simp only [Bool.not_false, if_true, h2]
    simp [sectionAfterAdd, updateTimes_sections, updateTimes_count, updateTimes_money]


/-! ## `Report.Parse` -/

theorem scanSections_name_mem {fl : Floats} (rec : Record fl)
    (sects : List (SectionConfig fl)) (sn k : String)
    (h : scanSections rec sects = .ok (sn, k)) (hk : k ≠ "") :
    ∃ s ∈ sects, s.Name = sn := by
  induction sects with
  | nil =>
    simp only [scanSections, Except.ok.injEq, Prod.mk.injEq] at h
    exact absurd h.2.symm hk
  | cons s ss ih =>
    simp only [scanSections] at h
    cases hs : scanRules rec s.Rules with
    | error e => simp [hs] at h
    | ok key =>
      simp only [hs] at h
      by_cases hkey : key = ""
      · simp only [hkey, ne_eq, not_true_eq_false, if_false] at h
        obtain ⟨t, ht, hn⟩ := ih h
        exact ⟨t, List.mem_cons_of_mem s ht, hn⟩
      · simp only [ne_eq, hkey, not_false_eq_true, if_true, Except.ok.injEq,
          Prod.mk.injEq] at h
        exact ⟨s, List.mem_cons_self s ss, h.1⟩

theorem skipFromSum_of_indexed {fl : Floats} (cfg : Config fl) (hidx : Indexed cfg)
    (rec : Record fl) (sn k : String) (h : cfg.FindSection rec = .ok (sn, k)) (hk : k ≠ "") :
    ∃ skip, cfg.SkipFromSum sn = some skip := by
  obtain ⟨s, hs, hn⟩ := scanSections_name_mem rec cfg.Sections sn k h hk
  have := hidx s hs
  rw [hn] at this
  unfold Config.SkipFromSum
  cases hm : mapGet cfg.sectionIndex sn with
  | none => exact absurd hm this
  | some sect => exact ⟨sect.Skip, rfl⟩

theorem addRecord_cfg {fl : Floats} (d d1 : ReportData fl) (sectName sectKey : String)
    (rec : Record fl) (h : d.addRecord sectName sectKey rec = some d1) : d1.cfg = d.cfg := by
  cases hs : d.cfg.SkipFromSum sectName with
  | none =>
    have h1 : (d.updateTimes rec).cfg.SkipFromSum sectName = none := by
      rw [updateTimes_cfg]; exact hs
    simp [ReportData.addRecord, h1] at h
  | some skip =>
    rw [addRecord_eq d sectName sectKey rec skip hs] at h
    simp only [Option.some.injEq] at h
    rw [← h]
    exact updateTimes_cfg d rec

theorem parseLoop_kept {fl : Floats} (rep : Report fl) (recs : List (Record fl))
    (hvalid : ∀ r ∈ recs, r.Valid = true) :
    rep.parseLoop (recs.map .ok) = rep.parseLoop ((rep.kept recs).map .ok) := by
  induction recs generalizing rep with
  | nil => rfl
  | cons r rs ih =>
    have hv := hvalid r (List.mem_cons_self r rs)
    have hrs : ∀ q ∈ rs, q.Valid = true := fun q hq => hvalid q (List.mem_cons_of_mem r hq)
    by_cases hk : (r.Out && r.Between rep.fromDate rep.toDate) = true
    · have hkept : rep.kept (r :: rs) = r :: rep.kept rs := by
        simp [Report.kept, List.filter_cons, hk]
      have hcond : (!r.Out || !r.Between rep.fromDate rep.toDate) = false := by
        simp only [Bool.and_eq_true] at hk
        simp [hk.1, hk.2]
      rw [hkept]
      simp only [List.map_cons, Report.parseLoop, hv, hcond, Bool.not_true, Bool.false_eq_true,
        if_false]
      cases hf : rep.cfg.FindSection r with
      | error e => rfl
      | ok p =>
        obtain ⟨sn, k⟩ := p
        simp only
        split_ifs
        · rfl
        · cases ha : rep.data.addRecord sn k r with
          | none => rfl
          | some d => exact ih { rep with data := d } hrs
    · have hkept : rep.kept (r :: rs) = rep.kept rs := by
        simp [Report.kept, List.filter_cons, hk]
      have hcond : (!r.Out || !r.Between rep.fromDate rep.toDate) = true := by
        cases h1 : r.Out <;> cases h2 : r.Between rep.fromDate rep.toDate <;> simp_all
      rw [hkept]
      simp only [List.map_cons, Report.parseLoop, hv, hcond, Bool.not_true, Bool.false_eq_true,
        if_false, if_true]
      exact ih rep hrs

theorem kept_mem {fl : Floats} (rep : Report fl) (recs : List (Record fl))
    (hvalid : ∀ r ∈ recs, r.Valid = true) (r : Record fl) (hr : r ∈ rep.kept recs) :
    r.Valid = true ∧ (!r.Out || !r.Between rep.fromDate rep.toDate) = false := by
  have h := List.mem_filter.mp hr
  refine ⟨hvalid r h.1, ?_⟩
  have h2 := h.2
  simp only [Bool.and_eq_true] at h2
  simp [h2.1, h2.2]

theorem parseLoop_all_classified {fl : Floats} (rep : Report fl) (l : List (Record fl))
    (hcfg : rep.data.cfg = rep.cfg) (hidx : Indexed rep.cfg)
    (hl : ∀ r ∈ l, r.Valid = true ∧
      (!r.Out || !r.Between rep.fromDate rep.toDate) = false)
    (hcl : ∀ r ∈ l, Classified rep.cfg r) :
    ∃ d, addAll rep.data (classifiedCalls rep.cfg l) = some d ∧
      rep.parseLoop (l.map .ok) = some (none, { rep with data := d.finish }) := by
  induction l generalizing rep with
  | nil => exact ⟨rep.data, rfl, rfl⟩
  | cons r rs ih =>
    obtain ⟨hv, hcond⟩ := hl r (List.mem_cons_self r rs)
    obtain ⟨sn, k, hf, hsn, hk⟩ := hcl r (List.mem_cons_self r rs)
    obtain ⟨skip, hskip⟩ := skipFromSum_of_indexed rep.cfg hidx r sn k hf hk
    rw [← hcfg] at hskip
    have hadd := addRecord_eq rep.data sn k r skip hskip
    have hcfg1 := addRecord_cfg rep.data _ sn k r hadd
    obtain ⟨d, hd, hp⟩ := ih { rep with data := _ } (hcfg1.trans hcfg) hidx
      (fun q hq => hl q (List.mem_cons_of_mem r hq))
      (fun q hq => hcl q (List.mem_cons_of_mem r hq))
    refine ⟨d, ?_, ?_⟩
    · simp only [classifiedCalls, hf, addAll, hadd]
      exact hd
    · simp only [List.map_cons, Report.parseLoop, hv, hcond, Bool.not_true, Bool.false_eq_true,
        if_false, hf, hsn, hk, or_self, hadd]
      exact hp

theorem parseLoop_first_unknown {fl : Floats} (rep : Report fl)
    (pre post : List (Record fl)) (r : Record fl) (sn k : String)
    (hcfg : rep.data.cfg = rep.cfg) (hidx : Indexed rep.cfg)
    (hl : ∀ q ∈ pre ++ r :: post, q.Valid = true ∧
      (!q.Out || !q.Between rep.fromDate rep.toDate) = false)
    (hcl : ∀ q ∈ pre, Classified rep.cfg q)
    (hf : rep.cfg.FindSection r = .ok (sn, k)) (hempty : sn = "" ∨ k = "") :
    ∃ d, addAll rep.data (classifiedCalls rep.cfg pre) = some d ∧
      rep.parseLoop ((pre ++ r :: post).map .ok) =
        some (some (.unknownRecord r.Line), { rep with data := d }) := by
  induction pre generalizing rep with
  | nil =>
    obtain ⟨hv, hcond⟩ := hl r (by simp)
    refine ⟨rep.data, rfl, ?_⟩
    simp only [List.nil_append, List.map_cons, Report.parseLoop, hv, hcond, Bool.not_true,
      Bool.false_eq_true, if_false, hf, hempty, if_true]
  | cons p ps ih =>
    obtain ⟨hv, hcond⟩ := hl p (by simp)
    obtain ⟨sn1, k1, hf1, hsn1, hk1⟩ := hcl p (List.mem_cons_self p ps)
    obtain ⟨skip, hskip⟩ := skipFromSum_of_indexed rep.cfg hidx p sn1 k1 hf1 hk1
    rw [← hcfg] at hskip
    have hadd := addRecord_eq rep.data sn1 k1 p skip hskip
    have hcfg1 := addRecord_cfg rep.data _ sn1 k1 p hadd
    obtain ⟨d, hd, hp⟩ := ih { rep with data := _ } (hcfg1.trans hcfg) hidx
      (fun q hq => hl q (by
        simp only [List.cons_append, List.mem_cons]
        exact Or.inr (by simpa using hq)))
      (fun q hq => hcl q (List.mem_cons_of_mem p hq)) hf
    refine ⟨d, ?_, ?_⟩
    · simp only [classifiedCalls, hf1, addAll, hadd]
      exact hd
    · simp only [List.cons_append, List.map_cons, Report.parseLoop, hv, hcond, Bool.not_true,
        Bool.false_eq_true, if_false, hf1, hsn1, hk1, or_self, hadd]
      exact hp

/-- C2: `Report.Parse` on a stream of valid records. The records that are not
outgoing or lie outside the date filter have no effect (the result is a function
of `kept`). At the first kept record for which `FindSection` returns an empty
section name or an empty key, the records kept before it have been added in
input order, `finish` has not run, and the error is the unknown-record error
with that record's line number. When every kept record classifies, all of them
have been added in input order, `finish` has run and no error is returned. -/
theorem Parse_spec {fl : Floats} (rep : Report fl) (recs : List (Record fl))
    (hvalid : ∀ r ∈ recs, r.Valid = true)
    (hcfg : rep.data.cfg = rep.cfg) (hidx : Indexed rep.cfg) :
    (∀ (pre post : List (Record fl)) (r : Record fl) (sn k : String),
        rep.kept recs = pre ++ r :: post →
        (∀ q ∈ pre, Classified rep.cfg q) →
        rep.cfg.FindSection r = .ok (sn, k) → (sn = "" ∨ k = "") →
        ∃ d, addAll rep.data (classifiedCalls rep.cfg pre) = some d ∧
          rep.Parse { pending := recs.map .ok } =
            some (some (.unknownRecord r.Line), { rep with data := d })) ∧
    ((∀ q ∈ rep.kept recs, Classified rep.cfg q) →
        ∃ d, addAll rep.data (classifiedCalls rep.cfg (rep.kept recs)) = some d ∧
          rep.Parse { pending := recs.map .ok } =
            some (none, { rep with data := d.finish })) := by
  have hkept := parseLoop_kept rep recs hvalid
  refine ⟨?_, ?_⟩
  · intro pre post r sn k hdec hcl hf hempty
    have hl : ∀ q ∈ pre ++ r :: post, q.Valid = true ∧
        (!q.Out || !q.Between rep.fromDate rep.toDate) = false := by
      intro q hq
      rw [← hdec] at hq
      exact kept_mem rep recs hvalid q hq
    obtain ⟨d, hd, hp⟩ := parseLoop_first_unknown rep pre post r sn k hcfg hidx hl hcl hf hempty
    refine ⟨d, hd, ?_⟩
    unfold Report.Parse
    simp only
    rw [hkept, hdec]
    exact hp
  · intro hcl
    obtain ⟨d, hd, hp⟩ := parseLoop_all_classified rep (rep.kept recs) hcfg hidx
      (fun q hq => kept_mem rep recs hvalid q hq) hcl
    refine ⟨d, hd, ?_⟩
    unfold Report.Parse
    simp only
    rw [hkept]
    exact hp

/-! ## Grand totals -/

theorem addAll_totals {fl : Floats} (cfg : Config fl)
    (calls : List (String × String × Record fl)) (d : ReportData fl) (hcfg : d.cfg = cfg)
    (hidx : ∀ c ∈ calls, cfg.SkipFromSum c.1 ≠ none) :
    ∃ d1, addAll d calls = some d1 ∧ d1.cfg = cfg ∧
      d1.count = d.count + (countedCalls cfg calls).length ∧
      d1.money = ((countedCalls cfg calls).map (fun c => c.2.2.Money)).foldl fl.add32 d.money := by
  induction calls generalizing d with
  | nil => exact ⟨d, rfl, hcfg, rfl, rfl⟩
  | cons c cs ih =>
    obtain ⟨sn, k, r⟩ := c
    have hne := hidx (sn, k, r) (List.mem_cons_self _ cs)
    cases hs : cfg.SkipFromSum sn with
    | none => exact absurd hs hne
    | some skip =>
      have hs1 : d.cfg.SkipFromSum sn = some skip := by rw [hcfg]; exact hs
      have hadd := addRecord_eq d sn k r skip hs1
      have hcfg1 := (addRecord_cfg d _ sn k r hadd).trans hcfg
      obtain ⟨d1, h1, h2, h3, h4⟩ := ih _ hcfg1 (fun q hq => hidx q (List.mem_cons_of_mem _ hq))
      refine ⟨d1, ?_, h2, ?_, ?_⟩
      · simp only [addAll, hadd]
        exact h1
      · rw [h3]
        cases skip <;> simp [countedCalls, List.filter_cons, hs]
        omega
      · rw [h4]
        cases skip <;> simp [countedCalls, List.filter_cons, hs]

theorem addRecord_section_item {fl : Floats} (d : ReportData fl) (sn k : String)
    (r : Record fl) (skip : Bool) (hs : d.cfg.SkipFromSum sn = some skip) :
    ∃ d1, d.addRecord sn k r = some d1 ∧
      d1.sectionCount sn = d.sectionCount sn + 1 ∧
      d1.sectionMoney sn = fl.add32 (d.sectionMoney sn) r.Money ∧
      d1.itemCount sn k = d.itemCount sn k + 1 ∧
      d1.itemMoney sn k = fl.add32 (d.itemMoney sn k) r.Money := by
  refine ⟨_, addRecord_eq d sn k r skip hs, ?_, ?_, ?_, ?_⟩
  · simp only [ReportData.sectionCount, mapGet_mapSet_self, Section.addItem, sectionAfterAdd]
    cases mapGet d.sections sn <;> simp [Section.Add, newSection]
  · simp only [ReportData.sectionMoney, mapGet_mapSet_self, Section.addItem, sectionAfterAdd]
    cases mapGet d.sections sn <;> simp [Section.Add, newSection]
  · simp only [ReportData.itemCount, ReportData.item, mapGet_mapSet_self, Section.addItem,
      sectionAfterAdd]
    cases hm : mapGet d.sections sn with
    | none => simp [Section.Add, newSection, mapGet, SectionItem.Add, newSectionItem]
    | some sect =>
      simp only [Section.Add]
      cases mapGet sect.items k <;> simp [SectionItem.Add, newSectionItem]
  · simp only [ReportData.itemMoney, ReportData.item, mapGet_mapSet_self, Section.addItem,
      sectionAfterAdd]
    cases hm : mapGet d.sections sn with
    | none => simp [Section.Add, newSection, mapGet, SectionItem.Add, newSectionItem]
    | some sect =>
      simp only [Section.Add]
      cases mapGet sect.items k <;> simp [SectionItem.Add, newSectionItem]

theorem countedCalls_cons {fl : Floats} (cfg : Config fl) (sn k : String) (r : Record fl)
    (cs : List (String × String × Record fl)) :
    countedCalls cfg ((sn, k, r) :: cs) =
      if cfg.SkipFromSum sn = some false then (sn, k, r) :: countedCalls cfg cs
      else countedCalls cfg cs := by
  unfold countedCalls
  by_cases h : cfg.SkipFromSum sn = some false
  · simp [List.filter_cons, h]
  · simp [List.filter_cons, h]

/-- The number of the grand total after the calls, when every addition to it
is exact. -/
theorem addAll_exact_total {fl : Floats} {M : Type} [AddCommMonoid M] [DecidableEq M]
    (val : fl.F32 → M) (cfg : Config fl) (calls : List (String × String × Record fl))
    (d d1 : ReportData fl) (hcfg : d.cfg = cfg) (hrun : addAll d calls = some d1)
    (hexact : exactTotals val d calls = true) :
    val d1.money =
      val d.money + ((countedCalls cfg calls).map (fun c => val c.2.2.Money)).sum := by
  induction calls generalizing d with
  | nil =>
    simp only [addAll, Option.some.injEq] at hrun
    rw [← hrun]
    simp [countedCalls]
  | cons c cs ih =>
    obtain ⟨sn, k, r⟩ := c
    simp only [addAll] at hrun
    cases hadd : d.addRecord sn k r with
    | none => simp [hadd] at hrun
    | some d2 =>
      simp only [hadd] at hrun
      simp only [exactTotals, hadd, Bool.and_eq_true] at hexact
      obtain ⟨hstep, hrest⟩ := hexact
      have hcfg2 := (addRecord_cfg d d2 sn k r hadd).trans hcfg
      have hih := ih d2 hcfg2 hrun hrest
      rw [hih, countedCalls_cons]
      cases hs : d.cfg.SkipFromSum sn with
      | none =>
        have h1 : (d.updateTimes r).cfg.SkipFromSum sn = none := by
          rw [updateTimes_cfg]; exact hs
        simp [ReportData.addRecord, h1] at hadd
      | some skip =>
        have hadd2 := addRecord_eq d sn k r skip hs
        rw [hadd] at hadd2
        simp only [Option.some.injEq] at hadd2
        have hs2 : cfg.SkipFromSum sn = some skip := by rw [← hcfg]; exact hs
        cases skip with
        | true =>
          have hm : d2.money = d.money := by rw [hadd2]; rfl
          rw [hm, hs2]
          simp
        | false =>
          have hm : d2.money = fl.add32 d.money r.Money := by rw [hadd2]; rfl
          rw [hs] at hstep
          simp only [if_true, decide_eq_true_eq] at hstep
          rw [hm, hstep, hs2]
          simp [add_assoc]

/-- Counterexample to C3 as stated: with float32 rounding, after the amounts
16777216, 1 and 1 of a counted section the grand-total money is 16777216 (each
added 1 is rounded away), while the sum of the three amounts is 16777218; the
additions to the grand total are not all exact. -/
theorem grand_total_rounding_counterexample :
    (addAll (NewReportData roundedConfig) roundingCalls).map
        (fun d => (d.Count, roundedValue d.Money)) = some (3, 16777216) ∧
      ((countedCalls roundedConfig roundingCalls).map
        (fun c => roundedValue c.2.2.Money)).sum = 16777218 ∧
      exactTotals roundedValue (NewReportData roundedConfig) roundingCalls = false :=
  ⟨rfl, by decide, rfl⟩

/-- C3 (amended): after a sequence of `addRecord` calls on a fresh `ReportData`
(every section name in the index, so that no call panics), the grand-total
count is the number of calls whose section is not flagged skip-from-sum; the
grand-total money is the float32 sum of those records' absolute amounts
accumulated in call order, and it denotes the sum of those amounts whenever
every addition to the grand total is exact (not rounded). A call for a
skip-from-sum section, in any state, leaves both grand totals unchanged and
still adds the record to its section and to its item. -/
theorem addRecord_grand_totals {fl : Floats} (cfg : Config fl)
    (calls : List (String × String × Record fl))
    (hidx : ∀ c ∈ calls, cfg.SkipFromSum c.1 ≠ none) :
    (∃ d, addAll (NewReportData cfg) calls = some d ∧
      d.Count = (countedCalls cfg calls).length ∧
      d.Money = ((countedCalls cfg calls).map (fun c => c.2.2.Money)).foldl
        fl.add32 fl.zero32 ∧
      (∀ (M : Type) [AddCommMonoid M] [DecidableEq M] (val : fl.F32 → M),
        val fl.zero32 = 0 →
        exactTotals val (NewReportData cfg) calls = true →
        val d.Money = ((countedCalls cfg calls).map (fun c => val c.2.2.Money)).sum)) ∧
    (∀ (d : ReportData fl) (sn k : String) (r : Record fl),
      d.cfg.SkipFromSum sn = some true →
      ∃ d1, d.addRecord sn k r = some d1 ∧
        d1.Count = d.Count ∧ d1.Money = d.Money ∧
        d1.sectionCount sn = d.sectionCount sn + 1 ∧
        d1.sectionMoney sn = fl.add32 (d.sectionMoney sn) r.Money ∧
        d1.itemCount sn k = d.itemCount sn k + 1 ∧
        d1.itemMoney sn k = fl.add32 (d.itemMoney sn k) r.Money) := by
  refine ⟨?_, ?_⟩
  · obtain ⟨d, h1, _, h3, h4⟩ := addAll_totals cfg calls (NewReportData cfg) rfl hidx
    refine ⟨d, h1, ?_, ?_, ?_⟩
    · simpa [ReportData.Count, NewReportData] using h3
    · simpa [ReportData.Money, NewReportData] using h4
    · intro M _ _ val hval0 hexact
      have h := addAll_exact_total val cfg calls (NewReportData cfg) d rfl h1 hexact
      have hz : val (NewReportData cfg).money = 0 := hval0
      rw [hz, zero_add] at h
      exact h
  · intro d sn k r hs
    obtain ⟨d1, h1, h2, h3, h4, h5⟩ := addRecord_section_item d sn k r true hs
    refine ⟨d1, h1, ?_, ?_, h2, h3, h4, h5⟩
    · rw [addRecord_eq d sn k r true hs] at h1
      simp only [Option.some.injEq] at h1
      rw [← h1]; rfl
    · rw [addRecord_eq d sn k r true hs] at h1
      simp only [Option.some.injEq] at h1
      rw [← h1]; rfl

/-! ## Compiled rules -/

theorem compileTemplates_fields {fl : Floats} (lib : GoLib fl) (rule r : SectionRule fl)
    (sectName : String) (idx : Nat) (h : rule.compileTemplates lib sectName idx = .ok r) :
    r.Key = rule.Key ∧ r.Re = rule.Re ∧ r.Account = rule.Account ∧ r.Vs = rule.Vs ∧
      r.If = rule.If ∧ r.reCompiled = rule.reCompiled ∧
      (∃ tk ti, SectionRule.compileOneTemplate lib rule.Key = .ok tk ∧
        SectionRule.compileOneTemplate lib rule.If = .ok ti ∧
        r.keyTemplate = (match tk with | some t => some t | none => rule.keyTemplate) ∧
        r.ifTemplate = (match ti with | some t => some t | none => rule.ifTemplate)) := by
  unfold SectionRule.compileTemplates at h
  cases hk : SectionRule.compileOneTemplate lib rule.Key with
  | error e => simp [hk] at h
  | ok tk =>
    simp only [hk] at h
    cases tk with
    | none =>
      simp only at h
      cases hi : SectionRule.compileOneTemplate lib rule.If with
      | error e => simp [hi] at h
      | ok ti =>
        simp only [hi] at h
        cases ti with
        | none =>
          simp only [Except.ok.injEq] at h
          subst h
          exact ⟨rfl, rfl, rfl, rfl, rfl, rfl, none, none, rfl, rfl, rfl, rfl⟩
        | some t =>
          simp only [Except.ok.injEq] at h
          subst h
          exact ⟨rfl, rfl, rfl, rfl, rfl, rfl, none, some t, rfl, rfl, rfl, rfl⟩
    | some t0 =>
      simp only at h
      cases hi : SectionRule.compileOneTemplate lib rule.If with
      | error e => simp [hi] at h
      | ok ti =>
        simp only [hi] at h
        cases ti with
        | none =>
          simp only [Except.ok.injEq] at h
          subst h
          exact ⟨rfl, rfl, rfl, rfl, rfl, rfl, some t0, none, rfl, rfl, rfl, rfl⟩
        | some t =>
          simp only [Except.ok.injEq] at h
          subst h
          exact ⟨rfl, rfl, rfl, rfl, rfl, rfl, some t0, some t, rfl, rfl, rfl, rfl⟩

theorem compile_fields {fl : Floats} (lib : GoLib fl) (rule r : SectionRule fl)
    (sectName : String) (idx : Nat) (h : rule.compile lib sectName idx = .ok r) :
    r.Key = rule.Key ∧ r.Re = rule.Re ∧ r.Account = rule.Account ∧ r.Vs = rule.Vs ∧
      r.If = rule.If ∧
      (∃ re, lib.regexpCompile rule.Re = .ok re ∧ r.reCompiled = some re) ∧
      (∃ tk ti, SectionRule.compileOneTemplate lib rule.Key = .ok tk ∧
        SectionRule.compileOneTemplate lib rule.If = .ok ti ∧
        r.keyTemplate = (match tk with | some t => some t | none => rule.keyTemplate) ∧
        r.ifTemplate = (match ti with | some t => some t | none => rule.ifTemplate)) := by
  unfold SectionRule.compile at h
  split_ifs at h
  cases ht : rule.compileTemplates lib sectName idx with
  | error e => simp [ht] at h
  | ok r1 =>
    simp only [ht] at h
    obtain ⟨h1, h2, h3, h4, h5, _, h7⟩ := compileTemplates_fields lib rule r1 sectName idx ht
    cases hre : lib.regexpCompile r1.Re with
    | error e => simp [hre] at h
    | ok re =>
      simp only [hre, Except.ok.injEq] at h
      subst h
      rw [h2] at hre
      exact ⟨h1, h2, h3, h4, h5, ⟨re, hre, rfl⟩, h7⟩

theorem compile_not_empty {fl : Floats} (lib : GoLib fl) (rule r : SectionRule fl)
    (sectName : String) (idx : Nat) (h : rule.compile lib sectName idx = .ok r) :
    ¬ (rule.Re = "" ∧ rule.Key = "" ∧ rule.Account = "") := by
  intro hempty
  simp [SectionRule.compile, hempty] at h

/-! ## Key extraction -/

/-- `ExtractKey` once the account gate, the regexp match and the if-gate have
passed and the key step has returned `k`. -/
theorem ExtractKey_of_gates {fl : Floats} (r : SectionRule fl) (re : Regexp) (rec : Record fl)
    (s : List String) (k : String)
    (hre : r.reCompiled = some re) (hacc : r.knownAccount rec = true)
    (hm : re.FindStringSubmatch rec.Note = some s)
    (hif : r.templatedIf rec = .ok true) (hkey : r.templatedKey rec = .ok k) :
    r.ExtractKey rec =
      if k ≠ "" then .ok k
      else if s.length > 1 then .ok (s.getD 1 "")
      else if r.Account ≠ "" then .ok (r.accountKey rec)
      else .ok rec.Note := by
  simp only [SectionRule.ExtractKey, hacc, hre, SectionRule.extractKeyRe, hm,
    SectionRule.templatedChecks, hif, hkey, Bool.not_true, Bool.false_eq_true, if_false]
  by_cases hk : k = ""
  · simp [hk]
  · simp [hk]

/-- `ExtractKey` of a rule without a compiled regexp, once the account gate and
the if-gate have passed and the key step has returned `k`. -/
theorem ExtractKey_of_gates_no_regexp {fl : Floats} (r : SectionRule fl) (rec : Record fl)
    (k : String) (hre : r.reCompiled = none) (hacc : r.knownAccount rec = true)
    (hif : r.templatedIf rec = .ok true) (hkey : r.templatedKey rec = .ok k) :
    r.ExtractKey rec = if k ≠ "" then .ok k else .ok (r.accountKey rec) := by
  simp only [SectionRule.ExtractKey, hacc, hre, SectionRule.templatedChecks, hif, hkey,
    Bool.not_true, Bool.false_eq_true, if_false]
  by_cases hk : k = ""
  · simp [hk]
  · simp [hk]

/-- A compiled rule that declares no regexp and no account, with the if-gate
passed and an empty key step, returns the note of the record. -/
theorem ExtractKey_compiled_no_regex_no_account {fl : Floats} (lib : GoLib fl)
    (hlib : EmptyPatternLaw lib) (rule r : SectionRule fl) (sectName : String) (idx : Nat)
    (rec : Record fl) (hc : rule.compile lib sectName idx = .ok r)
    (hRe : rule.Re = "") (hAcc : rule.Account = "")
    (hif : r.templatedIf rec = .ok true) (hkey : r.templatedKey rec = .ok "") :
    r.ExtractKey rec = .ok rec.Note := by
  obtain ⟨_, _, h3, _, _, ⟨re, hre1, hre2⟩, _⟩ := compile_fields lib rule r sectName idx hc
  rw [hRe] at hre1
  have hm := hlib re hre1 rec.Note
  have hacc : r.knownAccount rec = true := by
    simp [SectionRule.knownAccount, h3, hAcc]
  rw [ExtractKey_of_gates r re rec [""] "" hre2 hacc hm hif hkey]
  simp [h3, hAcc]

/-- C4 (the code at the failing input): the rule `{key: "{{.Vs}}"}`, compiled,
declares no regexp and no account; on a record with an empty reference code and
the note "foo" the if-gate passes and the key template renders to the empty
string, and `ExtractKey` returns the key "foo", not the empty key. -/
theorem ExtractKey_empty_key_template_gives_note :
    (declaredRule wholeAmounts "\x7b\x7b.Vs\x7d\x7d" "" "" "" "").compile
        (miniLib wholeAmounts) "Other" 0 = .ok vsKeyRule ∧
      vsKeyRule.templatedIf (sampleRecord "" "foo" "") = .ok true ∧
      vsKeyRule.templatedKey (sampleRecord "" "foo" "") = .ok "" ∧
      vsKeyRule.ExtractKey (sampleRecord "" "foo" "") = .ok "foo" :=
  ⟨rfl, rfl, rfl, rfl⟩

/-- C5: for a rule with a compiled regexp and a record that passes the account
gate and the if-gate and for which the key step yields the empty string: if the
regexp does not match the note, `ExtractKey` returns the empty key; if it
matches, `ExtractKey` returns capture group 1 when the regexp has a capture
group, otherwise the account key when the rule declares an account, otherwise
the note of the record. -/
theorem ExtractKey_regex_fallbacks {fl : Floats} (r : SectionRule fl) (re : Regexp)
    (rec : Record fl) (hre : r.reCompiled = some re) (hacc : r.knownAccount rec = true)
    (hif : r.templatedIf rec = .ok true) (hkey : r.templatedKey rec = .ok "") :
    (re.FindStringSubmatch rec.Note = none → r.ExtractKey rec = .ok "") ∧
    (∀ s, re.FindStringSubmatch rec.Note = some s →
      (1 < s.length → r.ExtractKey rec = .ok (s.getD 1 "")) ∧
      (s.length ≤ 1 → r.Account ≠ "" → r.ExtractKey rec = .ok (r.accountKey rec)) ∧
      (s.length ≤ 1 → r.Account = "" → r.ExtractKey rec = .ok rec.Note)) := by
  refine ⟨?_, ?_⟩
  · intro hm
    simp [SectionRule.ExtractKey, hacc, hre, SectionRule.extractKeyRe, hm]
  · intro s hm
    have h := ExtractKey_of_gates r re rec s "" hre hacc hm hif hkey
    refine ⟨?_, ?_, ?_⟩
    · intro hlen
      rw [h]; simp [hlen]
    · intro hlen hA
      rw [h]; simp [Nat.not_lt.mpr hlen, hA]
    · intro hlen hA
      rw [h]; simp [Nat.not_lt.mpr hlen, hA]

/-- The example of C5: the rule `{re: "FEE-(\d+)"}` on the note "FEE-42 service"
gives the key "42". -/
theorem ExtractKey_regex_fallbacks_witness :
    feeRule.ExtractKey (sampleRecord "" "FEE-42 service" "") = .ok "42" :=
  ((ExtractKey_regex_fallbacks feeRule (miniRegexp "FEE-(\\d+)")
      (sampleRecord "" "FEE-42 service" "") rfl rfl rfl rfl).2
    ["FEE-42", "42"] rfl).1 (by decide)

/-- The empty pattern of `miniLib` matches every text with the empty match. -/
theorem miniLib_emptyPattern (fl : Floats) : EmptyPatternLaw (miniLib fl) := by
  intro re h s
  have h0 : (miniLib fl).regexpCompile "" =
      .ok { FindStringSubmatch := fun s => Rx.eps.findIn 0 s.data } := rfl
  rw [h0] at h
  simp only [Except.ok.injEq] at h
  subst h
  show Rx.eps.findIn 0 s.data = some [""]
  cases s.data with
  | nil => rfl
  | cons c t => simp [Rx.findIn, Rx.run]

/-- Counterexample to C6 as stated: the key template renders the reference code
followed by a line feed; with leading and trailing whitespace removed the
rendered text is "7", yet `ExtractKey` returns the rendered text with its line
feed. -/
theorem templated_key_line_feed_counterexample :
    ∃ t, vsLineKeyRule.keyTemplate = some t ∧
      vsLineKeyRule.knownAccount (sampleRecord "" "rent" "7") = true ∧
      vsLineKeyRule.reMatches (sampleRecord "" "rent" "7") = true ∧
      vsLineKeyRule.templatedIf (sampleRecord "" "rent" "7") = .ok true ∧
      t.Execute (sampleRecord "" "rent" "7") = .ok "7\n" ∧
      trimWhitespace "7\n" = "7" ∧
      vsLineKeyRule.ExtractKey (sampleRecord "" "rent" "7") = .ok "7\n" ∧
      vsLineKeyRule.ExtractKey (sampleRecord "" "rent" "7") ≠ .ok (trimWhitespace "7\n") :=
  ⟨_, rfl, rfl, rfl, rfl, rfl, by decide, rfl, by decide⟩

/-- C6 (amended): for a rule with a key template and a record that passes the
account gate, the regexp match (when a regexp is compiled) and the if-gate: if
the rendered key template with leading and trailing space characters removed is
non-empty, `ExtractKey` returns exactly that text, whatever the capture groups
of the regexp. -/
theorem ExtractKey_templated_key {fl : Floats} (r : SectionRule fl) (t : Template fl)
    (rec : Record fl) (out : String)
    (hacc : r.knownAccount rec = true) (hre : r.reMatches rec = true)
    (hif : r.templatedIf rec = .ok true)
    (ht : r.keyTemplate = some t) (hout : t.Execute rec = .ok out)
    (hne : trimSpaces out ≠ "") :
    r.ExtractKey rec = .ok (trimSpaces out) := by
  have hkey : r.templatedKey rec = .ok (trimSpaces out) := by
    simp [SectionRule.templatedKey, ht, hout]
  cases hc : r.reCompiled with
  | none =>
    rw [ExtractKey_of_gates_no_regexp r rec _ hc hacc hif hkey]
    simp [hne]
  | some re =>
    simp only [SectionRule.reMatches, hc] at hre
    cases hm : re.FindStringSubmatch rec.Note with
    | none => simp [hm] at hre
    | some s =>
      rw [ExtractKey_of_gates r re rec s _ hc hacc hm hif hkey]
      simp [hne]

/-- A rule whose regexp has a capture group and whose key template renders
" 7 ": the key is "7", not the capture group. -/
theorem ExtractKey_templated_key_witness :
    (compiledRule (miniLib wholeAmounts)
      (declaredRule wholeAmounts " \x7b\x7b.Vs\x7d\x7d " "FEE-(\\d+)" "" "" "") "Fees" 0).ExtractKey
        (sampleRecord "" "FEE-42 service" "7") = .ok "7" :=
  ExtractKey_templated_key _
    { nodes := [NodeType.NodeText, NodeType.NodeAction, NodeType.NodeText],
      Execute := fun rec => execNodes rec
        [TNode.text [spaceChar], TNode.field "Vs", TNode.text [spaceChar]] }
    (sampleRecord "" "FEE-42 service" "7") " 7 " rfl rfl rfl rfl rfl (by decide)

/-- Counterexample to C7 as stated: the compiled rule
`{re: "ALBERT", key: "Groceries"}` keeps no key template, and its key step
yields "Groceries", not the empty string. -/
theorem static_key_step_counterexample :
    groceriesRule.Key = "Groceries" ∧ groceriesRule.keyTemplate.isNone = true ∧
      groceriesRule.templatedKey (sampleRecord "" "ALBERT 12" "") = .ok "Groceries" ∧
      groceriesRule.templatedKey (sampleRecord "" "ALBERT 12" "") ≠ .ok "" :=
  ⟨rfl, rfl, rfl, by decide⟩

/-- C7 (amended): for a compiled rule whose Key is static text (the template
parses to a single text node, so no key template is kept), the key step yields
the Key text itself for every record; when the Key is non-empty and the record
passes the account gate, the regexp match and the if-gate, `ExtractKey` returns
that Key and the regexp-capture and account-key fallbacks are not consulted. -/
theorem templatedKey_static {fl : Floats} (lib : GoLib fl) (rule r : SectionRule fl)
    (sectName : String) (idx : Nat) (t : Template fl) (rec : Record fl)
    (hc : rule.compile lib sectName idx = .ok r) (hfresh : rule.keyTemplate = none)
    (hparse : lib.templateParse rule.Key = .ok t)
    (hstatic : t.nodes = [NodeType.NodeText]) :
    r.keyTemplate = none ∧ r.templatedKey rec = .ok rule.Key ∧
      (rule.Key ≠ "" → r.knownAccount rec = true → r.reMatches rec = true →
        r.templatedIf rec = .ok true → r.ExtractKey rec = .ok rule.Key) := by
  obtain ⟨h1, _, _, _, _, ⟨re, _, hre⟩, tk, ti, htk, _, hkt, _⟩ :=
    compile_fields lib rule r sectName idx hc
  have hnone : tk = none := by
    unfold SectionRule.compileOneTemplate at htk
    by_cases hk : rule.Key = ""
    · simp only [hk, if_true, Except.ok.injEq] at htk
      exact htk.symm
    · simp only [hk, if_false, hparse, hstatic] at htk
      simp only [ne_eq, not_true_eq_false, List.length_singleton, gt_iff_lt,
        lt_self_iff_false, or_self, if_false, Except.ok.injEq] at htk
      exact htk.symm
  rw [hnone] at hkt
  have hkt1 : r.keyTemplate = none := hkt.trans hfresh
  have hkey : r.templatedKey rec = .ok rule.Key := by
    simp [SectionRule.templatedKey, hkt1, h1]
  refine ⟨hkt1, hkey, ?_⟩
  intro hne hacc hm hif
  simp only [SectionRule.reMatches, hre] at hm
  cases hs : re.FindStringSubmatch rec.Note with
  | none => simp [hs] at hm
  | some s =>
    rw [ExtractKey_of_gates r re rec s _ hre hacc hs hif hkey]
    simp [hne]

/-- The rule `{re: "ALBERT", key: "Groceries"}` on the note "ALBERT 12". -/
theorem templatedKey_static_witness :
    groceriesRule.keyTemplate = none ∧
      groceriesRule.templatedKey (sampleRecord "" "ALBERT 12" "") = .ok "Groceries" ∧
      groceriesRule.ExtractKey (sampleRecord "" "ALBERT 12" "") = .ok "Groceries" :=
  have h := templatedKey_static (miniLib wholeAmounts)
    (declaredRule wholeAmounts "Groceries" "ALBERT" "" "" "") groceriesRule "Food" 0
    { nodes := [NodeType.NodeText],
      Execute := fun rec => execNodes rec [TNode.text "Groceries".data] }
    (sampleRecord "" "ALBERT 12" "") rfl rfl rfl rfl
  ⟨h.1, h.2.1, h.2.2 (by decide) rfl rfl rfl⟩

/-- C8: for a compiled rule that declares an account but no regexp and no key,
and a record that passes the account gate and the if-gate, `ExtractKey` returns
the account of the rule, followed by ", VS: " and the reference code of the
record when that code is non-empty, followed by ", " and the note of the record
when the note is non-empty. -/
theorem ExtractKey_account_key {fl : Floats} (lib : GoLib fl) (hlib : EmptyPatternLaw lib)
    (rule r : SectionRule fl) (sectName : String) (idx : Nat) (rec : Record fl)
    (hc : rule.compile lib sectName idx = .ok r) (hfresh : rule.keyTemplate = none)
    (hRe : rule.Re = "") (hKey : rule.Key = "") (hAcc : rule.Account ≠ "")
    (hacc : r.knownAccount rec = true) (hif : r.templatedIf rec = .ok true) :
    r.ExtractKey rec = .ok (rule.Account ++
      (if rec.Vs ≠ "" then ", VS: " ++ rec.Vs else "") ++
      (if rec.Note ≠ "" then ", " ++ rec.Note else "")) := by
  obtain ⟨h1, _, h3, _, _, ⟨re, hre1, hre2⟩, tk, ti, htk, _, hkt, _⟩ :=
    compile_fields lib rule r sectName idx hc
  rw [hRe] at hre1
  have hm := hlib re hre1 rec.Note
  have hnone : tk = none := by
    simp only [SectionRule.compileOneTemplate, hKey, if_true, Except.ok.injEq] at htk
    exact htk.symm
  rw [hnone] at hkt
  have hkt1 : r.keyTemplate = none := hkt.trans hfresh
  have hkey : r.templatedKey rec = .ok "" := by
    simp [SectionRule.templatedKey, hkt1, h1, hKey]
  rw [ExtractKey_of_gates r re rec [""] "" hre2 hacc hm hif hkey]
  have hA : r.Account ≠ "" := by rw [h3]; exact hAcc
  simp only [ne_eq, not_true_eq_false, if_false, List.length_singleton, gt_iff_lt,
    lt_self_iff_false, hA, not_false_eq_true, if_true]
  unfold SectionRule.accountKey
  rw [if_neg hA, h3]
  by_cases hv : rec.Vs = "" <;> by_cases hn : rec.Note = "" <;> simp [hv, hn]

/-- The example of C8: the rule `{account: "123/456", vs: "9"}` on a record of
account 123/456 with reference code 9 and an empty note gives "123/456, VS: 9". -/
theorem ExtractKey_account_key_witness :
    rentRule.ExtractKey (sampleRecord "123/456" "" "9") = .ok "123/456, VS: 9" :=
  ExtractKey_account_key (miniLib wholeAmounts) (miniLib_emptyPattern wholeAmounts)
    (declaredRule wholeAmounts "" "" "123/456" "9" "") rentRule "Rent" 0
    (sampleRecord "123/456" "" "9") rfl rfl rfl rfl (by decide) rfl rfl

/-! ## The sample configuration -/

theorem sampleConfig_compiled :
    declaredConfig.compile (miniLib wholeAmounts) = .ok sampleConfig := rfl

theorem sampleConfig_indexed : Indexed sampleConfig := by
  intro s hs
  simp only [sampleConfig, laterSections, List.mem_cons, List.mem_singleton,
    List.not_mem_nil, or_false] at hs
  rcases hs with h | h | h | h <;> subst h <;> simp [sampleConfig, laterSections, foodSection, mapGet]

/-- A record matching a rule of "Food" and a rule of "Other" is classified by
"Food", the section declared first. -/
theorem FindSection_first_match_witness :
    cardRule.ExtractKey (sampleRecord "" "CARD ALBERT 12" "") = .ok "CARD" ∧
      sampleConfig.FindSection (sampleRecord "" "CARD ALBERT 12" "") =
        .ok ("Food", "Groceries") :=
  ⟨rfl, (FindSection_first_match sampleConfig (sampleRecord "" "CARD ALBERT 12" "")).1
    [] laterSections foodSection [] [] groceriesRule "Groceries" rfl rfl
    (fun _ h => absurd h (List.not_mem_nil _)) (fun _ h => absurd h (List.not_mem_nil _))
    rfl (by decide)⟩

/-- The January report over `sampleRows` stops at line 6, which no rule matches. -/
theorem Parse_spec_witness :
    ∃ d, addAll sampleReport.data (classifiedCalls sampleReport.cfg
          [recordOf 3 ⟨2024, 1, 5⟩ (-120) "" "ALBERT 12" "",
           recordOf 4 ⟨2024, 1, 9⟩ (-900) "123/456" "" "9"]) = some d ∧
      sampleReport.Parse { pending := sampleRows.map .ok } =
        some (some (.unknownRecord 6), { sampleReport with data := d }) :=
  (Parse_spec sampleReport sampleRows (by decide) rfl sampleConfig_indexed).1
    [recordOf 3 ⟨2024, 1, 5⟩ (-120) "" "ALBERT 12" "",
     recordOf 4 ⟨2024, 1, 9⟩ (-900) "123/456" "" "9"] []
    (recordOf 6 ⟨2024, 1, 20⟩ (-15) "" "KIOSK" "") "" "" rfl
    (by
      intro q hq
      simp only [List.mem_cons, List.mem_singleton, List.not_mem_nil, or_false] at hq
      rcases hq with h | h <;> subst h
      · exact ⟨"Food", "Groceries", rfl, by decide, by decide⟩
      · exact ⟨"Rent", "123/456, VS: 9", rfl, by decide, by decide⟩)
    rfl (Or.inl rfl)

/-- Three calls on `sampleConfig`, one of them for the skip-from-sum section:
the grand total counts two records and 190 of money. Three calls with float32
rounding and the small amounts 1, 2 and 3: every addition is exact and the
grand total denotes 6. -/
theorem addRecord_grand_totals_witness :
    (∃ d, addAll (NewReportData sampleConfig) sampleCalls = some d ∧
      d.Count = 2 ∧ d.Money = (190 : Int) ∧ wholeValue d.Money = 190) ∧
    (∃ d, addAll (NewReportData roundedConfig) smallCalls = some d ∧
      d.Count = 3 ∧ roundedValue d.Money = 6) := by
  obtain ⟨d, h1, h2, h3, h4⟩ := (addRecord_grand_totals sampleConfig sampleCalls (by decide)).1
  obtain ⟨e, g1, g2, _, g4⟩ := (addRecord_grand_totals roundedConfig smallCalls (by decide)).1
  exact ⟨⟨d, h1, h2.trans (by decide), h3.trans rfl,
      (h4 Int wholeValue rfl (by rfl)).trans (by decide)⟩,
    ⟨e, g1, g2.trans (by decide), (g4 Nat roundedValue rfl (by rfl)).trans (by decide)⟩⟩

/-! ## Rejection of rules without regexp, key and account -/

theorem compile_lacksAll {fl : Floats} (lib : GoLib fl) (rule : SectionRule fl)
    (sectName : String) (idx : Nat) (h : rule.lacksAll) :
    rule.compile lib sectName idx = .error (.ruleEmpty sectName idx) := by
  unfold SectionRule.lacksAll at h
  simp [SectionRule.compile, h]

theorem compile_error_not_ruleEmpty {fl : Floats} (lib : GoLib fl) (rule : SectionRule fl)
    (sectName : String) (idx : Nat) (h : ¬ rule.lacksAll) (sn1 : String) (idx1 : Nat) :
    rule.compile lib sectName idx ≠ .error (.ruleEmpty sn1 idx1) := by
  unfold SectionRule.lacksAll at h
  unfold SectionRule.compile
  rw [if_neg h]
  cases ht : rule.compileTemplates lib sectName idx with
  | error e =>
    simp only
    unfold SectionRule.compileTemplates at ht
    cases hk : SectionRule.compileOneTemplate lib rule.Key with
    | error p =>
      simp only [hk, Except.error.injEq] at ht
      rw [← ht]; simp
    | ok tk =>
      simp only [hk] at ht
      generalize (match tk with
        | some t => ({ rule with keyTemplate := some t } : SectionRule fl)
        | none => rule) = self1 at ht
      cases hi : SectionRule.compileOneTemplate lib self1.If with
      | error p =>
        simp only [hi, Except.error.injEq] at ht
        rw [← ht]; simp
      | ok ti =>
        simp only [hi] at ht
        cases ti <;> simp at ht
  | ok r1 =>
    simp only
    cases lib.regexpCompile r1.Re <;> simp

theorem compileRules_error_of_lacksAll {fl : Floats} (lib : GoLib fl) (sectName : String)
    (rules : List (SectionRule fl)) (i : Nat) (h : ∃ r ∈ rules, r.lacksAll) :
    ∃ e, compileRules lib sectName i rules = .error e := by
  induction rules generalizing i with
  | nil =>
    obtain ⟨r, hr, _⟩ := h
    exact absurd hr (List.not_mem_nil r)
  | cons r rs ih =>
    by_cases hr : r.lacksAll
    · exact ⟨.ruleEmpty sectName i, by simp [compileRules, compile_lacksAll lib r sectName i hr]⟩
    · have hrs : ∃ q ∈ rs, q.lacksAll := by
        obtain ⟨q, hq, hql⟩ := h
        rcases List.mem_cons.mp hq with h1 | h1
        · exact absurd (h1 ▸ hql) hr
        · exact ⟨q, h1, hql⟩
      obtain ⟨e, he⟩ := ih (i + 1) hrs
      cases hc : r.compile lib sectName i with
      | error e1 => exact ⟨e1, by simp [compileRules, hc]⟩
      | ok r1 => exact ⟨e, by simp [compileRules, hc, he]⟩

theorem compileSections_error_of_lacksAll {fl : Floats} (lib : GoLib fl)
    (sects : List (SectionConfig fl)) (index : List (String × SectionConfig fl))
    (h : ∃ s ∈ sects, ∃ r ∈ s.Rules, r.lacksAll) :
    ∃ e, compileSections lib sects index = .error e := by
  induction sects generalizing index with
  | nil =>
    obtain ⟨s, hs, _⟩ := h
    exact absurd hs (List.not_mem_nil s)
  | cons s ss ih =>
    cases hc : compileRules lib s.Name 0 s.Rules with
    | error e1 => exact ⟨e1, by simp [compileSections, hc]⟩
    | ok rules1 =>
      have hss : ∃ q ∈ ss, ∃ r ∈ q.Rules, r.lacksAll := by
        obtain ⟨q, hq, hql⟩ := h
        rcases List.mem_cons.mp hq with h1 | h1
        · subst h1
          obtain ⟨e, he⟩ := compileRules_error_of_lacksAll lib q.Name q.Rules 0 hql
          rw [he] at hc
          exact absurd hc (by simp)
        · exact ⟨q, h1, hql⟩
      obtain ⟨e, he⟩ := ih (mapSet index s.Name { s with Rules := rules1 }) hss
      exact ⟨e, by simp [compileSections, hc, he]⟩

theorem compileRules_first_lacksAll {fl : Floats} (lib : GoLib fl) (sectName : String)
    (rpre rpost : List (SectionRule fl)) (R : SectionRule fl) (i : Nat)
    (hpre : ∃ rs, compileRules lib sectName i rpre = .ok rs) (hR : R.lacksAll) :
    compileRules lib sectName i (rpre ++ R :: rpost) =
      .error (.ruleEmpty sectName (i + rpre.length)) := by
  induction rpre generalizing i with
  | nil => simp [compileRules, compile_lacksAll lib R sectName i hR]
  | cons r rs ih =>
    obtain ⟨out, hout⟩ := hpre
    cases hc : r.compile lib sectName i with
    | error e => simp [compileRules, hc] at hout
    | ok r1 =>
      cases hrest : compileRules lib sectName (i + 1) rs with
      | error e => simp [compileRules, hc, hrest] at hout
      | ok rest1 =>
        have h := ih (i + 1) ⟨rest1, hrest⟩
        have harith : i + 1 + rs.length = i + (rs.length + 1) := by omega
        rw [List.cons_append]
        simp only [compileRules, hc, List.length_cons]
        rw [h, harith]

theorem compileSections_first_error {fl : Floats} (lib : GoLib fl)
    (pre post : List (SectionConfig fl)) (S : SectionConfig fl) (e : Error)
    (index : List (String × SectionConfig fl))
    (hpre : ∀ s ∈ pre, ∃ rs, compileRules lib s.Name 0 s.Rules = .ok rs)
    (hS : compileRules lib S.Name 0 S.Rules = .error e) :
    compileSections lib (pre ++ S :: post) index = .error e := by
  induction pre generalizing index with
  | nil => simp [compileSections, hS]
  | cons s ss ih =>
    obtain ⟨rs, hrs⟩ := hpre s (List.mem_cons_self s ss)
    have h := ih (mapSet index s.Name { s with Rules := rs })
      (fun q hq => hpre q (List.mem_cons_of_mem s hq))
    simp [compileSections, hrs, h]

/-- C9: `Config.compile` returns an error whenever some rule has Re, Key and
Account all empty; when the rules before the first such rule compile, the error
names the section of that rule and its index within the section; and a rule
that sets at least one of Re, Key and Account is never rejected with that
error. -/
theorem compile_rejects_rule_lacking_all {fl : Floats} (lib : GoLib fl) (cfg : Config fl) :
    ((∃ s ∈ cfg.Sections, ∃ r ∈ s.Rules, r.lacksAll) → ∃ e, cfg.compile lib = .error e) ∧
    (∀ (pre post : List (SectionConfig fl)) (S : SectionConfig fl)
        (rpre rpost : List (SectionRule fl)) (R : SectionRule fl),
        cfg.Sections = pre ++ S :: post → S.Rules = rpre ++ R :: rpost →
        (∀ s ∈ pre, ∃ rs, compileRules lib s.Name 0 s.Rules = .ok rs) →
        (∃ rs, compileRules lib S.Name 0 rpre = .ok rs) → R.lacksAll →
        cfg.compile lib = .error (.ruleEmpty S.Name rpre.length)) ∧
    (∀ (rule : SectionRule fl) (sectName : String) (idx : Nat), ¬ rule.lacksAll →
        ∀ (sn1 : String) (idx1 : Nat),
          rule.compile lib sectName idx ≠ .error (.ruleEmpty sn1 idx1)) := by
  refine ⟨?_, ?_, ?_⟩
  · intro h
    obtain ⟨e, he⟩ := compileSections_error_of_lacksAll lib cfg.Sections cfg.sectionIndex h
    exact ⟨e, by simp [Config.compile, he]⟩
  · intro pre post S rpre rpost R hsec hrules hpre hrpre hR
    have h1 := compileRules_first_lacksAll lib S.Name rpre rpost R 0 hrpre hR
    rw [← hrules, Nat.zero_add] at h1
    have h2 := compileSections_first_error lib pre post S _ cfg.sectionIndex hpre h1
    simp [Config.compile, hsec, h2]
  · intro rule sectName idx h sn1 idx1
    exact compile_error_not_ruleEmpty lib rule sectName idx h sn1 idx1

/-- The configuration `brokenConfig` is rejected for rule 1 of section "Fees". -/
theorem compile_rejects_rule_lacking_all_witness :
    brokenConfig.compile (miniLib wholeAmounts) = .error (.ruleEmpty "Fees" 1) :=
  (compile_rejects_rule_lacking_all (miniLib wholeAmounts) brokenConfig).2.1
    [{ Name := "Food", Order := 1, Skip := false, SkipPerMonth := false,
       Rules := [declaredRule wholeAmounts "Groceries" "ALBERT" "" "" ""] }]
    []
    { Name := "Fees", Order := 2, Skip := false, SkipPerMonth := false,
      Rules := [declaredRule wholeAmounts "" "FEE-(\\d+)" "" "" "",
                declaredRule wholeAmounts "" "" "" "9" "x"] }
    [declaredRule wholeAmounts "" "FEE-(\\d+)" "" "" ""] []
    (declaredRule wholeAmounts "" "" "" "9" "x") rfl rfl
    (by
      intro s hs
      rw [List.mem_singleton] at hs
      subst hs
      exact ⟨[groceriesRule], rfl⟩)
    ⟨[feeRule], rfl⟩ ⟨rfl, rfl, rfl⟩

/-! ## The date span -/

theorem Time.before_irrefl (a : Time) : a.Before a = false := by
  simp [Time.Before]

theorem Time.not_before_trans (a b c : Time) (h1 : b.Before a = false)
    (h2 : c.Before b = false) : c.Before a = false := by
  simp only [Time.Before, decide_eq_false_iff_not] at *
  omega

theorem Time.not_before_of_before (a b : Time) (h : a.Before b = true) :
    b.Before a = false := by
  simp only [Time.Before, decide_eq_false_iff_not, decide_eq_true_eq] at *
  omega

theorem updateTimes_begin {fl : Floats} (d : ReportData fl) (rec : Record fl) :
    (d.updateTimes rec).beginDate =
      if d.beginDate.IsZero || rec.Date.Before d.beginDate then rec.Date else d.beginDate := by
  simp only [ReportData.updateTimes]
  split_ifs <;> rfl

theorem updateTimes_end {fl : Floats} (d : ReportData fl) (rec : Record fl) :
    (d.updateTimes rec).endDate =
      if d.endDate.IsZero || rec.Date.After d.endDate then rec.Date else d.endDate := by
  simp only [ReportData.updateTimes]
  split_ifs <;> rfl

theorem addRecord_dates {fl : Floats} (d d1 : ReportData fl) (sn k : String) (r : Record fl)
    (h : d.addRecord sn k r = some d1) :
    d1.beginDate = (d.updateTimes r).beginDate ∧ d1.endDate = (d.updateTimes r).endDate := by
  cases hs : d.cfg.SkipFromSum sn with
  | none =>
    have h1 : (d.updateTimes r).cfg.SkipFromSum sn = none := by
      rw [updateTimes_cfg]; exact hs
    simp [ReportData.addRecord, h1] at h
  | some skip =>
    rw [addRecord_eq d sn k r skip hs] at h
    simp only [Option.some.injEq] at h
    rw [← h]
    exact ⟨rfl, rfl⟩

/-- The date span after more calls, from a state whose span is set. -/
theorem addAll_span {fl : Floats} (cfg : Config fl)
    (calls : List (String × String × Record fl)) (d : ReportData fl) (hcfg : d.cfg = cfg)
    (hidx : ∀ c ∈ calls, cfg.SkipFromSum c.1 ≠ none)
    (hz : ∀ c ∈ calls, c.2.2.Date.IsZero = false)
    (hb : d.beginDate.IsZero = false) (he : d.endDate.IsZero = false) :
    ∃ d1, addAll d calls = some d1 ∧
      (d1.beginDate = d.beginDate ∨ ∃ c ∈ calls, c.2.2.Date = d1.beginDate) ∧
      d.beginDate.Before d1.beginDate = false ∧
      (∀ c ∈ calls, c.2.2.Date.Before d1.beginDate = false) ∧
      (d1.endDate = d.endDate ∨ ∃ c ∈ calls, c.2.2.Date = d1.endDate) ∧
      d.endDate.After d1.endDate = false ∧
      (∀ c ∈ calls, c.2.2.Date.After d1.endDate = false) := by
  induction calls generalizing d with
  | nil =>
    refine ⟨d, rfl, Or.inl rfl, Time.before_irrefl _, ?_, Or.inl rfl, Time.before_irrefl _, ?_⟩
    · intro c hc; exact absurd hc (List.not_mem_nil c)
    · intro c hc; exact absurd hc (List.not_mem_nil c)
  | cons c cs ih =>
    obtain ⟨sn, k, r⟩ := c
    have hne := hidx (sn, k, r) (List.mem_cons_self _ cs)
    have hrz : r.Date.IsZero = false := hz (sn, k, r) (List.mem_cons_self _ cs)
    cases hs : cfg.SkipFromSum sn with
    | none => exact absurd hs hne
    | some skip =>
      have hs1 : d.cfg.SkipFromSum sn = some skip := by rw [hcfg]; exact hs
      obtain ⟨d2, hadd⟩ : ∃ d2, d.addRecord sn k r = some d2 :=
        ⟨_, addRecord_eq d sn k r skip hs1⟩
      have hcfg1 := (addRecord_cfg d d2 sn k r hadd).trans hcfg
      obtain ⟨hbd, hed⟩ := addRecord_dates d d2 sn k r hadd
      rw [updateTimes_begin, hb, Bool.false_or] at hbd
      rw [updateTimes_end, he, Bool.false_or] at hed
      have hb1 : ∀ x : ReportData fl, x.beginDate =
          (if r.Date.Before d.beginDate then r.Date else d.beginDate) →
          x.beginDate.IsZero = false := by
        intro x hx; rw [hx]; split_ifs
        · exact hrz
        · exact hb
      have he1 : ∀ x : ReportData fl, x.endDate =
          (if r.Date.After d.endDate then r.Date else d.endDate) →
          x.endDate.IsZero = false := by
        intro x hx; rw [hx]; split_ifs
        · exact hrz
        · exact he
      obtain ⟨d1, h1, h2, h3, h4, h5, h6, h7⟩ := ih d2 hcfg1
        (fun q hq => hidx q (List.mem_cons_of_mem _ hq))
        (fun q hq => hz q (List.mem_cons_of_mem _ hq)) (hb1 d2 hbd) (he1 d2 hed)
      rw [hbd] at h2 h3
      rw [hed] at h5 h6
      refine ⟨d1, ?_, ?_, ?_, ?_, ?_, ?_, ?_⟩
      · simp only [addAll, hadd]
        exact h1
      · by_cases hlt : r.Date.Before d.beginDate = true
        · rw [if_pos hlt] at h2
          rcases h2 with h2 | ⟨c, hc, hcd⟩
          · exact Or.inr ⟨(sn, k, r), List.mem_cons_self _ cs, h2.symm⟩
          · exact Or.inr ⟨c, List.mem_cons_of_mem _ hc, hcd⟩
        · rw [if_neg hlt] at h2
          rcases h2 with h2 | ⟨c, hc, hcd⟩
          · exact Or.inl h2
          · exact Or.inr ⟨c, List.mem_cons_of_mem _ hc, hcd⟩
      · by_cases hlt : r.Date.Before d.beginDate = true
        · rw [if_pos hlt] at h3
          exact Time.not_before_trans _ _ _ h3 (Time.not_before_of_before _ _ hlt)
        · rw [if_neg hlt] at h3
          exact h3
      · intro c hc
        rcases List.mem_cons.mp hc with hc1 | hc1
        · subst hc1
          show r.Date.Before d1.beginDate = false
          by_cases hlt : r.Date.Before d.beginDate = true
          · rw [if_pos hlt] at h3
            exact h3
          · rw [if_neg hlt] at h3
            exact Time.not_before_trans _ _ _ h3 (by simpa using hlt)
        · exact h4 c hc1
      · by_cases hlt : r.Date.After d.endDate = true
        · rw [if_pos hlt] at h5
          rcases h5 with h5 | ⟨c, hc, hcd⟩
          · exact Or.inr ⟨(sn, k, r), List.mem_cons_self _ cs, h5.symm⟩
          · exact Or.inr ⟨c, List.mem_cons_of_mem _ hc, hcd⟩
        · rw [if_neg hlt] at h5
          rcases h5 with h5 | ⟨c, hc, hcd⟩
          · exact Or.inl h5
          · exact Or.inr ⟨c, List.mem_cons_of_mem _ hc, hcd⟩
      · by_cases hlt : r.Date.After d.endDate = true
        · rw [if_pos hlt] at h6
          exact Time.not_before_trans _ _ _ (Time.not_before_of_before _ _ hlt) h6
        · rw [if_neg hlt] at h6
          exact h6
      · intro c hc
        rcases List.mem_cons.mp hc with hc1 | hc1
        · subst hc1
          show r.Date.After d1.endDate = false
          by_cases hlt : r.Date.After d.endDate = true
          · rw [if_pos hlt] at h6
            exact h6
          · rw [if_neg hlt] at h6
            exact Time.not_before_trans _ _ _ (by simpa using hlt) h6
        · exact h7 c hc1

/-- Counterexample to C10 as stated: after a record dated 0001-01-01 and a
record dated 2024-01-15 the begin date is 2024-01-15, which is after the date
of the first record. -/
theorem zero_date_begin_counterexample :
    (addAll (NewReportData sampleConfig) zeroDateCalls).map (fun d => d.beginDate) =
        some ⟨2024, 1, 15⟩ ∧
      (recordOf 2 ⟨1, 1, 1⟩ (-120) "" "ALBERT 12" "").Date.Before ⟨2024, 1, 15⟩ = true :=
  ⟨rfl, rfl⟩

/-- C10 (amended): after a non-empty sequence of `addRecord` calls on a fresh
`ReportData`, none of them for a record dated 0001-01-01 (the zero date, which
the report takes for a date not yet set), the begin date is the minimum and the
end date is the maximum of the dates of all added records, records of
skip-from-sum sections included. -/
theorem addRecord_date_span {fl : Floats} (cfg : Config fl)
    (calls : List (String × String × Record fl)) (hne : calls ≠ [])
    (hidx : ∀ c ∈ calls, cfg.SkipFromSum c.1 ≠ none)
    (hz : ∀ c ∈ calls, c.2.2.Date.IsZero = false) :
    ∃ d, addAll (NewReportData cfg) calls = some d ∧
      (∃ c ∈ calls, c.2.2.Date = d.beginDate) ∧
      (∀ c ∈ calls, c.2.2.Date.Before d.beginDate = false) ∧
      (∃ c ∈ calls, c.2.2.Date = d.endDate) ∧
      (∀ c ∈ calls, c.2.2.Date.After d.endDate = false) := by
  cases calls with
  | nil => exact absurd rfl hne
  | cons c cs =>
    obtain ⟨sn, k, r⟩ := c
    have hne1 := hidx (sn, k, r) (List.mem_cons_self _ cs)
    have hrz : r.Date.IsZero = false := hz (sn, k, r) (List.mem_cons_self _ cs)
    cases hs : cfg.SkipFromSum sn with
    | none => exact absurd hs hne1
    | some skip =>
      obtain ⟨d2, hadd⟩ : ∃ d2, (NewReportData cfg).addRecord sn k r = some d2 :=
        ⟨_, addRecord_eq (NewReportData cfg) sn k r skip hs⟩
      have hcfg1 : d2.cfg = cfg := addRecord_cfg (NewReportData cfg) d2 sn k r hadd
      obtain ⟨hbd, hed⟩ := addRecord_dates (NewReportData cfg) d2 sn k r hadd
      have hb0 : (NewReportData cfg).beginDate.IsZero = true := rfl
      have he0 : (NewReportData cfg).endDate.IsZero = true := rfl
      rw [updateTimes_begin, hb0, Bool.true_or, if_pos rfl] at hbd
      rw [updateTimes_end, he0, Bool.true_or, if_pos rfl] at hed
      obtain ⟨d1, h1, h2, h3, h4, h5, h6, h7⟩ := addAll_span cfg cs d2 hcfg1
        (fun q hq => hidx q (List.mem_cons_of_mem _ hq))
        (fun q hq => hz q (List.mem_cons_of_mem _ hq))
        (by rw [hbd]; exact hrz) (by rw [hed]; exact hrz)
      rw [hbd] at h2 h3
      rw [hed] at h5 h6
      refine ⟨d1, ?_, ?_, ?_, ?_, ?_⟩
      · simp only [addAll, hadd]
        exact h1
      · rcases h2 with h2 | ⟨c, hc, hcd⟩
        · exact ⟨(sn, k, r), List.mem_cons_self _ cs, h2.symm⟩
        · exact ⟨c, List.mem_cons_of_mem _ hc, hcd⟩
      · intro c hc
        rcases List.mem_cons.mp hc with hc1 | hc1
        · subst hc1; exact h3
        · exact h4 c hc1
      · rcases h5 with h5 | ⟨c, hc, hcd⟩
        · exact ⟨(sn, k, r), List.mem_cons_self _ cs, h5.symm⟩
        · exact ⟨c, List.mem_cons_of_mem _ hc, hcd⟩
      · intro c hc
        rcases List.mem_cons.mp hc with hc1 | hc1
        · subst hc1; exact h6
        · exact h7 c hc1

/-- The three calls of `sampleCalls`: the span runs from 2023-11-01 to
2024-03-09, the latter the date of the record of the skip-from-sum section. -/
theorem addRecord_date_span_witness :
    ∃ d, addAll (NewReportData sampleConfig) sampleCalls = some d ∧
      d.beginDate = ⟨2023, 11, 1⟩ ∧ d.endDate = ⟨2024, 3, 9⟩ := by
  obtain ⟨d, h1, _, _, _, _⟩ :=
    addRecord_date_span sampleConfig sampleCalls (List.cons_ne_nil _ _) (by decide) (by decide)
  refine ⟨d, h1, ?_, ?_⟩
  · have h : (addAll (NewReportData sampleConfig) sampleCalls).map (fun x => x.beginDate) =
        some ⟨2023, 11, 1⟩ := rfl
    rw [h1] at h
    simpa using h
  · have h : (addAll (NewReportData sampleConfig) sampleCalls).map (fun x => x.endDate) =
        some ⟨2024, 3, 9⟩ := rfl
    rw [h1] at h
    simpa using h

/-! ## Months between -/

/-- C11: `updateMonthsBetween` (run by `finish`) sets months-between to
`(endYear*12+endMonth) - (beginYear*12+beginMonth) + 1`; for calendar months
this is `years*12+months+1` with the month difference brought into [0,11] by
borrowing one year when it is negative; the day of month is ignored. -/
theorem updateMonthsBetween_spec {fl : Floats} (d : ReportData fl)
    (hb : d.beginDate.validMonth) (he : d.endDate.validMonth) :
    d.finish.MonthsBetween =
        (d.endDate.year * 12 + d.endDate.month) -
          (d.beginDate.year * 12 + d.beginDate.month) + 1 ∧
    (∃ years months : Int, 0 ≤ months ∧ months ≤ 11 ∧
        ((months = (d.endDate.month : Int) - d.beginDate.month ∧
            years = d.endDate.year - d.beginDate.year) ∨
         ((d.endDate.month : Int) - d.beginDate.month < 0 ∧
            months = (d.endDate.month : Int) - d.beginDate.month + 12 ∧
            years = d.endDate.year - d.beginDate.year - 1)) ∧
        d.finish.MonthsBetween = years * 12 + months + 1) ∧
    (∀ day1 day2 : Nat,
        ({ d with beginDate := { d.beginDate with day := day1 },
                  endDate := { d.endDate with day := day2 } } :
            ReportData fl).finish.MonthsBetween = d.finish.MonthsBetween) := by
  obtain ⟨hb1, hb2⟩ := hb
  obtain ⟨he1, he2⟩ := he
  refine ⟨?_, ?_, ?_⟩
  · simp only [ReportData.finish, ReportData.updateMonthsBetween, ReportData.MonthsBetween]
    split_ifs <;> simp only <;> ring
  · by_cases hneg : (d.endDate.month : Int) - d.beginDate.month < 0
    · refine ⟨d.endDate.year - d.beginDate.year - 1,
        (d.endDate.month : Int) - d.beginDate.month + 12, by omega, by omega,
        Or.inr ⟨hneg, rfl, rfl⟩, ?_⟩
      simp only [ReportData.finish, ReportData.updateMonthsBetween, ReportData.MonthsBetween,
        if_pos hneg]
    · refine ⟨d.endDate.year - d.beginDate.year,
        (d.endDate.month : Int) - d.beginDate.month, by omega, by omega,
        Or.inl ⟨rfl, rfl⟩, ?_⟩
      simp only [ReportData.finish, ReportData.updateMonthsBetween, ReportData.MonthsBetween,
        if_neg hneg]
  · intro day1 day2
    simp only [ReportData.finish, ReportData.updateMonthsBetween, ReportData.MonthsBetween]
    split_ifs <;> rfl

/-- The example of C11: records dated 2024-01-15 and 2024-03-02 in the same
report give months-between 3. -/
theorem updateMonthsBetween_spec_witness :
    spanReport.beginDate = ⟨2024, 1, 15⟩ ∧ spanReport.endDate = ⟨2024, 3, 2⟩ ∧
      spanReport.finish.MonthsBetween = 3 :=
  ⟨rfl, rfl,
    (updateMonthsBetween_spec spanReport ⟨by decide, by decide⟩
      ⟨by decide, by decide⟩).1.trans (by decide)⟩

/-! ## The date filter -/

/-- Counterexample to C17 as stated: a record dated 0000-12-31 is rejected by
`Between` although both bounds are the zero date. -/
theorem between_year_zero_counterexample :
    (recordOf 2 ⟨0, 12, 31⟩ (-5) "" "x" "").Between Time.zero Time.zero = false ∧
      ((Time.zero.IsZero = true ∨
          (recordOf 2 ⟨0, 12, 31⟩ (-5) "" "x" "").Date.Before Time.zero = false) ∧
        (Time.zero.IsZero = true ∨
          (recordOf 2 ⟨0, 12, 31⟩ (-5) "" "x" "").Date.After Time.zero = false)) :=
  ⟨rfl, Or.inl rfl, Or.inl rfl⟩

/-- C17 (amended): for a record dated on or after 0001-01-01 (the zero date)
and every pair of dates `d1`, `d2`, `Between` is true if and only if (`d1` is
the zero date or the date of the record is not before `d1`) and (`d2` is the
zero date or the date of the record is not after `d2`). -/
theorem Between_spec {fl : Floats} (r : Record fl) (d1 d2 : Time)
    (h : r.Date.Before Time.zero = false) :
    r.Between d1 d2 = true ↔
      (d1.IsZero = true ∨ r.Date.Before d1 = false) ∧
      (d2.IsZero = true ∨ r.Date.After d2 = false) := by
  have hz : d1.IsZero = true → r.Date.Before d1 = false := by
    intro hd
    have : d1 = Time.zero := by simpa [Time.IsZero] using hd
    rw [this]; exact h
  unfold Record.Between
  cases hb : r.Date.Before d1 <;> cases hd2 : d2.IsZero <;> cases ha : r.Date.After d2 <;>
    cases hd1 : d1.IsZero <;> simp_all

/-- A record of January 2024 against the filter of January 2024 and against
no filter. -/
theorem Between_spec_witness :
    (sampleRecord "" "x" "").Between ⟨2024, 1, 1⟩ ⟨2024, 1, 31⟩ = true ∧
      (sampleRecord "" "x" "").Between Time.zero Time.zero = true :=
  ⟨(Between_spec (sampleRecord "" "x" "") ⟨2024, 1, 1⟩ ⟨2024, 1, 31⟩ rfl).mpr
      ⟨Or.inr rfl, Or.inr rfl⟩,
   (Between_spec (sampleRecord "" "x" "") Time.zero Time.zero rfl).mpr
      ⟨Or.inl rfl, Or.inl rfl⟩⟩

/-! ## The account gate -/

/-- C18: if the rule declares an account, `ExtractKey` returns the empty key
unless the account identifier of the record equals it and, when the rule also
declares a reference code, the reference code of the record equals that code;
on a rule without account the declared reference code has no effect on the
result. -/
theorem ExtractKey_account_gate {fl : Floats} (r : SectionRule fl) (rec : Record fl) :
    (r.Account ≠ "" →
      (r.Account ≠ rec.AccountId ∨ (r.Vs ≠ "" ∧ r.Vs ≠ rec.Vs)) →
      r.ExtractKey rec = .ok "") ∧
    (r.Account = "" → ∀ vs : String,
      ({ r with Vs := vs } : SectionRule fl).ExtractKey rec = r.ExtractKey rec) := by
  refine ⟨?_, ?_⟩
  · intro hA hmis
    have hk : r.knownAccount rec = false := by
      unfold SectionRule.knownAccount
      rcases hmis with h | h
      · simp [hA, h]
      · simp [hA, h.1, h.2]
    simp [SectionRule.ExtractKey, hk]
  · intro hA vs
    simp only [SectionRule.ExtractKey, SectionRule.knownAccount, SectionRule.extractKeyRe,
      SectionRule.templatedChecks, SectionRule.templatedIf, SectionRule.templatedKey,
      SectionRule.accountKey, hA]
    rfl

/-- The rule `{account: "123/456", vs: "9"}` on a record with another reference
code gives the empty key; the rule `{re: "ALBERT", vs: "9"}` matches a record
with reference code 7. -/
theorem ExtractKey_account_gate_witness :
    rentRule.ExtractKey (sampleRecord "123/456" "" "8") = .ok "" ∧
      vsOnlyRule.ExtractKey (sampleRecord "" "ALBERT 12" "7") = .ok "ALBERT 12" ∧
      ({ vsOnlyRule with Vs := "" } : SectionRule wholeAmounts).ExtractKey
          (sampleRecord "" "ALBERT 12" "7") =
        vsOnlyRule.ExtractKey (sampleRecord "" "ALBERT 12" "7") :=
  ⟨(ExtractKey_account_gate rentRule (sampleRecord "123/456" "" "8")).1 (by decide)
      (Or.inr ⟨by decide, by decide⟩),
   rfl,
   (ExtractKey_account_gate vsOnlyRule (sampleRecord "" "ALBERT 12" "7")).2 rfl ""⟩

/-! ## The date span is ordered -/

theorem updateTimes_ordered {fl : Floats} (d : ReportData fl) (r : Record fl)
    (h : d.endDate.Before d.beginDate = false) :
    (d.updateTimes r).endDate.Before (d.updateTimes r).beginDate = false := by
  rw [updateTimes_begin, updateTimes_end]
  by_cases hb : (d.beginDate.IsZero || r.Date.Before d.beginDate) = true
  · by_cases he : (d.endDate.IsZero || r.Date.After d.endDate) = true
    · rw [if_pos hb, if_pos he]
      exact Time.before_irrefl _
    · rw [if_pos hb, if_neg he]
      simp only [Bool.or_eq_true, not_or, Bool.not_eq_true] at he
      exact he.2
  · have hb2 := hb
    simp only [Bool.or_eq_true, not_or, Bool.not_eq_true] at hb2
    by_cases he : (d.endDate.IsZero || r.Date.After d.endDate) = true
    · rw [if_neg hb, if_pos he]
      exact hb2.2
    · rw [if_neg hb, if_neg he]
      exact h

theorem updateTimes_validMonth {fl : Floats} (d : ReportData fl) (r : Record fl)
    (hr : r.Date.validMonth) (hb : d.beginDate.validMonth) (he : d.endDate.validMonth) :
    (d.updateTimes r).beginDate.validMonth ∧ (d.updateTimes r).endDate.validMonth := by
  rw [updateTimes_begin, updateTimes_end]
  constructor
  · split_ifs
    · exact hr
    · exact hb
  · split_ifs
    · exact hr
    · exact he

theorem addAll_ordered {fl : Floats} (cfg : Config fl)
    (calls : List (String × String × Record fl)) (d : ReportData fl) (hcfg : d.cfg = cfg)
    (hidx : ∀ c ∈ calls, cfg.SkipFromSum c.1 ≠ none)
    (hm : ∀ c ∈ calls, c.2.2.Date.validMonth)
    (ho : d.endDate.Before d.beginDate = false)
    (hb : d.beginDate.validMonth) (he : d.endDate.validMonth) :
    ∃ d1, addAll d calls = some d1 ∧ d1.endDate.Before d1.beginDate = false ∧
      d1.beginDate.validMonth ∧ d1.endDate.validMonth := by
  induction calls generalizing d with
  | nil => exact ⟨d, rfl, ho, hb, he⟩
  | cons c cs ih =>
    obtain ⟨sn, k, r⟩ := c
    have hne := hidx (sn, k, r) (List.mem_cons_self _ cs)
    have hr : r.Date.validMonth := hm (sn, k, r) (List.mem_cons_self _ cs)
    cases hs : cfg.SkipFromSum sn with
    | none => exact absurd hs hne
    | some skip =>
      have hs1 : d.cfg.SkipFromSum sn = some skip := by rw [hcfg]; exact hs
      obtain ⟨d2, hadd⟩ : ∃ d2, d.addRecord sn k r = some d2 :=
        ⟨_, addRecord_eq d sn k r skip hs1⟩
      have hcfg1 := (addRecord_cfg d d2 sn k r hadd).trans hcfg
      obtain ⟨hbd, hed⟩ := addRecord_dates d d2 sn k r hadd
      have ho2 : d2.endDate.Before d2.beginDate = false := by
        rw [hbd, hed]; exact updateTimes_ordered d r ho
      have hv := updateTimes_validMonth d r hr hb he
      rw [← hbd, ← hed] at hv
      obtain ⟨d1, h1, h2, h3, h4⟩ := ih d2 hcfg1
        (fun q hq => hidx q (List.mem_cons_of_mem _ hq))
        (fun q hq => hm q (List.mem_cons_of_mem _ hq)) ho2 hv.1 hv.2
      exact ⟨d1, by simp only [addAll, hadd]; exact h1, h2, h3, h4⟩

/-- C20: after a sequence of `addRecord` calls on a fresh `ReportData` followed
by `finish` (every section name in the index, every date with a calendar
month), the begin date is not after the end date and months-between is at
least 1. -/
theorem finish_span_ordered {fl : Floats} (cfg : Config fl)
    (calls : List (String × String × Record fl))
    (hidx : ∀ c ∈ calls, cfg.SkipFromSum c.1 ≠ none)
    (hm : ∀ c ∈ calls, c.2.2.Date.validMonth) :
    ∃ d, addAll (NewReportData cfg) calls = some d ∧
      d.finish.beginDate.After d.finish.endDate = false ∧
      1 ≤ d.finish.MonthsBetween := by
  have hz : Time.zero.validMonth := ⟨by decide, by decide⟩
  obtain ⟨d, h1, h2, ⟨hb1, hb2⟩, ⟨he1, he2⟩⟩ := addAll_ordered cfg calls (NewReportData cfg) rfl
    hidx hm rfl hz hz
  refine ⟨d, h1, ?_, ?_⟩
  · have hb : d.finish.beginDate = d.beginDate := by
      simp only [ReportData.finish, ReportData.updateMonthsBetween]; split_ifs <;> rfl
    have he : d.finish.endDate = d.endDate := by
      simp only [ReportData.finish, ReportData.updateMonthsBetween]; split_ifs <;> rfl
    rw [hb, he]
    exact h2
  · simp only [Time.Before, decide_eq_false_iff_not] at h2
    simp only [ReportData.finish, ReportData.updateMonthsBetween, ReportData.MonthsBetween]
    split_ifs <;> simp only <;> omega

/-- The three calls of `sampleCalls`, dated 2024-01-05, 2024-03-09 and
2023-11-01: months-between is 5. -/
theorem finish_span_ordered_witness :
    ∃ d, addAll (NewReportData sampleConfig) sampleCalls = some d ∧
      d.finish.beginDate.After d.finish.endDate = false ∧
      1 ≤ d.finish.MonthsBetween ∧
      (addAll (NewReportData sampleConfig) sampleCalls).map
        (fun x => x.finish.MonthsBetween) = some 5 := by
  obtain ⟨d, h1, h2, h3⟩ := finish_span_ordered sampleConfig sampleCalls (by decide)
    (by
      intro c hc
      simp only [sampleCalls, List.mem_cons, List.mem_singleton, List.not_mem_nil,
        or_false] at hc
      rcases hc with h | h | h <;> subst h <;> exact ⟨by decide, by decide⟩)
  exact ⟨d, h1, h2, h3, rfl⟩

/-! ## Per-month strings -/

theorem addItem_flags {fl : Floats} (sect : Section fl) (k : String) (m : fl.F32)
    (h : ∀ k2 item, mapGet sect.items k2 = some item → item.skipFromSum = sect.skipFromSum) :
    (sect.addItem k m).skipFromSum = sect.skipFromSum ∧
    ∀ k2 item, mapGet (sect.addItem k m).items k2 = some item →
      item.skipFromSum = sect.skipFromSum := by
  refine ⟨rfl, ?_⟩
  intro k2 item hget
  simp only [Section.addItem] at hget
  by_cases hk : k = k2
  · subst hk
    rw [mapGet_mapSet_self] at hget
    simp only [Option.some.injEq] at hget
    rw [← hget]
    cases hm : mapGet sect.items k with
    | none => rfl
    | some it => exact h k it hm
  · rw [mapGet_mapSet_other _ _ _ _ hk] at hget
    exact h k2 item hget

theorem addRecord_flagsAgree {fl : Floats} (cfg : Config fl) (d d1 : ReportData fl)
    (sn k : String) (r : Record fl) (hcfg : d.cfg = cfg) (hinv : FlagsAgree cfg d)
    (hadd : d.addRecord sn k r = some d1) : FlagsAgree cfg d1 := by
  cases hs : d.cfg.SkipFromSum sn with
  | none =>
    have h1 : (d.updateTimes r).cfg.SkipFromSum sn = none := by
      rw [updateTimes_cfg]; exact hs
    simp [ReportData.addRecord, h1] at hadd
  | some skip =>
    rw [addRecord_eq d sn k r skip hs] at hadd
    simp only [Option.some.injEq] at hadd
    subst hadd
    intro sn2 sect2 hget
    simp only at hget
    by_cases hsn : sn = sn2
    · subst hsn
      rw [mapGet_mapSet_self] at hget
      simp only [Option.some.injEq] at hget
      subst hget
      unfold sectionAfterAdd
      cases hm : mapGet d.sections sn with
      | none =>
        have hnew : ∀ k2 item,
            mapGet ((newSection fl sn skip).Add r.Money).items k2 = some item →
            item.skipFromSum = ((newSection fl sn skip).Add r.Money).skipFromSum := by
          intro k2 item hg
          simp [Section.Add, newSection, mapGet] at hg
        obtain ⟨h1, h2⟩ := addItem_flags ((newSection fl sn skip).Add r.Money) k r.Money hnew
        refine ⟨?_, ?_⟩
        · rw [h1, ← hcfg, hs]; rfl
        · intro k2 item hg
          rw [h1]
          exact h2 k2 item hg
      | some s =>
        obtain ⟨hflag, hitems⟩ := hinv sn s hm
        have hold : ∀ k2 item, mapGet (s.Add r.Money).items k2 = some item →
            item.skipFromSum = (s.Add r.Money).skipFromSum := by
          intro k2 item hg
          exact hitems k2 item hg
        obtain ⟨h1, h2⟩ := addItem_flags (s.Add r.Money) k r.Money hold
        refine ⟨?_, ?_⟩
        · rw [h1]; exact hflag
        · intro k2 item hg
          rw [h1]
          exact h2 k2 item hg
    · rw [mapGet_mapSet_other _ _ _ _ hsn, mapGet_mapSet_other _ _ _ _ hsn] at hget
      exact hinv sn2 sect2 hget

theorem addAll_flagsAgree {fl : Floats} (cfg : Config fl)
    (calls : List (String × String × Record fl)) (d d1 : ReportData fl) (hcfg : d.cfg = cfg)
    (hinv : FlagsAgree cfg d) (hrun : addAll d calls = some d1) : FlagsAgree cfg d1 := by
  induction calls generalizing d with
  | nil =>
    simp only [addAll, Option.some.injEq] at hrun
    rw [← hrun]; exact hinv
  | cons c cs ih =>
    obtain ⟨sn, k, r⟩ := c
    simp only [addAll] at hrun
    cases hadd : d.addRecord sn k r with
    | none => simp [hadd] at hrun
    | some d2 =>
      simp only [hadd] at hrun
      exact ih d2 ((addRecord_cfg d d2 sn k r hadd).trans hcfg)
        (addRecord_flagsAgree cfg d d2 sn k r hcfg hinv hadd) hrun

theorem flagsAgree_fresh {fl : Floats} (cfg : Config fl) : FlagsAgree cfg (NewReportData cfg) := by
  intro sn sect h
  simp [NewReportData, mapGet] at h

theorem finish_sections {fl : Floats} (d : ReportData fl) : d.finish.sections = d.sections := by
  simp only [ReportData.finish, ReportData.updateMonthsBetween]
  split_ifs <;> rfl

/-- The shape of a per-month string: empty under `stop`, the formatted average
otherwise. -/
theorem perMonth_shape {fl : Floats} (format : String) (stop : Bool) (x : fl.F32)
    (hfmt : ∀ y, fl.sprintf format y ≠ "") :
    ((if stop then "" else fl.sprintf format x) = "" ↔ stop = true) ∧
    (stop = false → (if stop then "" else fl.sprintf format x) = fl.sprintf format x) := by
  cases stop
  · simp [hfmt x]
  · simp

/-- C12: after `finish`, for a format whose output `Sprintf` never leaves empty:
the per-month string of a section and of an item is empty exactly when the
count of the node is below 2 or months-between is below 2 or the owning section
is flagged skip-from-sum in the configuration; the per-month string of the
report is empty exactly when the grand-total count is below 2 or
months-between is below 2; in every other case the string is the format applied
to money divided by months-between. -/
theorem PerMonthString_spec {fl : Floats} (cfg : Config fl)
    (calls : List (String × String × Record fl)) (d0 : ReportData fl) (format : String)
    (hrun : addAll (NewReportData cfg) calls = some d0)
    (hfmt : ∀ x, fl.sprintf format x ≠ "") :
    ((d0.finish.PerMonthString format = "" ↔
        d0.finish.Count < 2 ∨ d0.finish.MonthsBetween < 2) ∧
      (¬ (d0.finish.Count < 2 ∨ d0.finish.MonthsBetween < 2) →
        d0.finish.PerMonthString format =
          fl.sprintf format (fl.div32 d0.finish.Money (fl.ofInt32 d0.finish.MonthsBetween)))) ∧
    (∀ sn sect, mapGet d0.finish.sections sn = some sect →
      ((sect.PerMonthString d0.finish format = "" ↔
          sect.Count < 2 ∨ d0.finish.MonthsBetween < 2 ∨ cfg.SkipFromSum sn = some true) ∧
        (¬ (sect.Count < 2 ∨ d0.finish.MonthsBetween < 2 ∨ cfg.SkipFromSum sn = some true) →
          sect.PerMonthString d0.finish format =
            fl.sprintf format (fl.div32 sect.Money (fl.ofInt32 d0.finish.MonthsBetween)))) ∧
      ∀ k item, mapGet sect.items k = some item →
        (item.PerMonthString d0.finish format = "" ↔
          item.Count < 2 ∨ d0.finish.MonthsBetween < 2 ∨ cfg.SkipFromSum sn = some true) ∧
        (¬ (item.Count < 2 ∨ d0.finish.MonthsBetween < 2 ∨ cfg.SkipFromSum sn = some true) →
          item.PerMonthString d0.finish format =
            fl.sprintf format (fl.div32 item.Money (fl.ofInt32 d0.finish.MonthsBetween)))) := by
  have hinv := addAll_flagsAgree cfg calls (NewReportData cfg) d0 rfl (flagsAgree_fresh cfg) hrun
  refine ⟨?_, ?_⟩
  · obtain ⟨h1, h2⟩ := perMonth_shape format
      (decide (d0.finish.Count < 2) || decide (d0.finish.MonthsBetween < 2))
      (fl.div32 d0.finish.Money (fl.ofInt32 d0.finish.MonthsBetween)) hfmt
    refine ⟨?_, ?_⟩
    · unfold ReportData.PerMonthString
      rw [h1]
      simp
    · intro hn
      unfold ReportData.PerMonthString
      apply h2
      simpa using hn
  · intro sn sect hget
    rw [finish_sections] at hget
    obtain ⟨hflag, hitems⟩ := hinv sn sect hget
    have hskip : cfg.SkipFromSum sn = some true ↔ sect.skipFromSum = true := by
      rw [hflag]; simp
    refine ⟨?_, ?_⟩
    · obtain ⟨h1, h2⟩ := perMonth_shape format
        (sect.skipFromSum || decide (sect.count < 2) ||
          decide (sect.MonthsBetween d0.finish < 2))
        (fl.div32 sect.Money (fl.ofInt32 (sect.MonthsBetween d0.finish))) hfmt
      refine ⟨?_, ?_⟩
      · unfold Section.PerMonthString
        rw [h1, hskip]
        simp only [Section.MonthsBetween, Section.Count, Bool.or_eq_true, decide_eq_true_eq]
        tauto
      · intro hn
        unfold Section.PerMonthString
        rw [h2]
        · rfl
        · rw [hskip] at hn
          simp only [Section.MonthsBetween, Section.Count] at hn ⊢
          cases hsf : sect.skipFromSum <;> simp_all
    · intro k item hk
      have hi := hitems k item hk
      have hskip2 : cfg.SkipFromSum sn = some true ↔ item.skipFromSum = true := by
        rw [hskip, hi]
      obtain ⟨h1, h2⟩ := perMonth_shape format
        (item.skipFromSum || decide (item.count < 2) ||
          decide (item.MonthsBetween d0.finish < 2))
        (fl.div32 item.Money (fl.ofInt32 (item.MonthsBetween d0.finish))) hfmt
      refine ⟨?_, ?_⟩
      · unfold SectionItem.PerMonthString
        rw [h1, hskip2]
        simp only [SectionItem.MonthsBetween, SectionItem.Count, Bool.or_eq_true,
          decide_eq_true_eq]
        tauto
      · intro hn
        unfold SectionItem.PerMonthString
        rw [h2]
        · rfl
        · rw [hskip2] at hn
          simp only [SectionItem.MonthsBetween, SectionItem.Count] at hn ⊢
          cases hsf : item.skipFromSum <;> simp_all

theorem natDigits_ne_nil (fuel n : Nat) (acc : List Char) : natDigits fuel n acc ≠ [] := by
  induction fuel generalizing n acc with
  | zero => simp [natDigits]
  | succ f ih =>
    unfold natDigits
    split_ifs
    · simp
    · exact ih _ _

theorem wholeAmounts_sprintf_v (x : Int) : wholeAmounts.sprintf "%v" x ≠ "" := by
  have h : wholeAmounts.sprintf "%v" x = String.mk (wholeText x ++ []) := rfl
  rw [h, List.append_nil]
  intro hcontra
  have hd : wholeText x = [] := congrArg String.data hcontra
  unfold wholeText at hd
  rw [List.append_eq_nil] at hd
  exact natDigits_ne_nil _ _ _ hd.2

/-- The report after `sampleCalls`: two counted records over five months, 190
of money, so 38 per month. -/
theorem PerMonthString_spec_witness :
    (sampleTotals.finish.PerMonthString "%v" = "" ↔
        sampleTotals.finish.Count < 2 ∨ sampleTotals.finish.MonthsBetween < 2) ∧
      sampleTotals.finish.PerMonthString "%v" = "38" ∧
      (mapGet sampleTotals.finish.sections "Rent").map
        (fun s => s.PerMonthString sampleTotals.finish "%v") = some "" :=
  ⟨(PerMonthString_spec sampleConfig sampleCalls sampleTotals "%v" rfl
      wholeAmounts_sprintf_v).1.1, rfl, rfl⟩

/-- C13 (the code at the failing input): the section "Other" of `sampleConfig`
sets the skip-per-month flag and is not skip-from-sum; after two of its
records, dated 2024-01-15 and 2024-03-02, the per-month string of the section
and of its item is "100", not the empty string. -/
theorem perMonth_ignores_skipPerMonth :
    sampleConfig.SkipPerMonth "Other" = some true ∧
      sampleConfig.SkipFromSum "Other" = some false ∧
      (mapGet otherReport.sections "Other").map
        (fun s => s.PerMonthString otherReport "%v") = some "100" ∧
      (otherReport.item "Other" "CARD").map
        (fun i => i.PerMonthString otherReport "%v") = some "100" :=
  ⟨rfl, rfl, rfl, rfl⟩

/-! ## The if-gate -/

/-- Counterexample to C19 as stated: the rule `{re: "ALBERT", if: " "}`
declares a non-empty if-template whose rendering is empty after trimming, yet
`ExtractKey` returns the note "ALBERT 12": a template of text only is not kept
by `compile`, and without a kept template the gate passes. -/
theorem blank_if_counterexample :
    ∃ t, (miniLib wholeAmounts).templateParse " " = .ok t ∧
      t.Execute (sampleRecord "" "ALBERT 12" "") = .ok " " ∧
      trimSpaces " " = "" ∧
      (declaredRule wholeAmounts "" "ALBERT" "" "" " ").compile
        (miniLib wholeAmounts) "Food" 0 = .ok blankIfRule ∧
      blankIfRule.If = " " ∧
      blankIfRule.ExtractKey (sampleRecord "" "ALBERT 12" "") = .ok "ALBERT 12" :=
  ⟨_, rfl, rfl, by decide, rfl, rfl, rfl⟩

theorem compileOneTemplate_kept {fl : Floats} (lib : GoLib fl) (tmpl : String)
    (t : Template fl) (hne : tmpl ≠ "") (hparse : lib.templateParse tmpl = .ok t)
    (hkept : ∃ n rest, t.nodes = n :: rest ∧ (n ≠ NodeType.NodeText ∨ rest ≠ [])) :
    SectionRule.compileOneTemplate lib tmpl = .ok (some t) := by
  obtain ⟨n, rest, hn, hor⟩ := hkept
  unfold SectionRule.compileOneTemplate
  rw [if_neg hne]
  simp only [hparse, hn]
  have : n ≠ NodeType.NodeText ∨ (n :: rest).length > 1 := by
    rcases hor with h | h
    · exact Or.inl h
    · right
      cases rest with
      | nil => exact absurd rfl h
      | cons a b => simp
  rw [if_pos this]

/-- C19 (amended): for a compiled rule whose if-template is kept by `compile`
(it is non-empty and does not consist of text only) and a record for which the
rendered if-template is empty once its leading and trailing spaces are removed,
`ExtractKey` returns the empty key without error, whatever the regexp, key and
account of the rule and the capture groups of the regexp. -/
theorem ExtractKey_if_gate {fl : Floats} (lib : GoLib fl) (rule r : SectionRule fl)
    (sectName : String) (idx : Nat) (t : Template fl) (rec : Record fl) (out : String)
    (hc : rule.compile lib sectName idx = .ok r)
    (hIf : rule.If ≠ "") (hparse : lib.templateParse rule.If = .ok t)
    (hkept : ∃ n rest, t.nodes = n :: rest ∧ (n ≠ NodeType.NodeText ∨ rest ≠ []))
    (hout : t.Execute rec = .ok out) (htrim : trimSpaces out = "") :
    r.ExtractKey rec = .ok "" := by
  obtain ⟨_, _, _, _, _, ⟨re, _, hre⟩, tk, ti, _, hti, _, hit⟩ :=
    compile_fields lib rule r sectName idx hc
  rw [compileOneTemplate_kept lib rule.If t hIf hparse hkept] at hti
  simp only [Except.ok.injEq] at hti
  rw [← hti] at hit
  simp only at hit
  have hgate : r.templatedIf rec = .ok false := by
    simp [SectionRule.templatedIf, hit, hout, htrim]
  unfold SectionRule.ExtractKey
  cases hk : r.knownAccount rec with
  | false => simp
  | true =>
    simp only [Bool.not_true, Bool.false_eq_true, if_false, hre, SectionRule.extractKeyRe]
    cases hm : re.FindStringSubmatch rec.Note with
    | none => rfl
    | some s => simp [SectionRule.templatedChecks, hgate]

/-- The rule `{re: "ALBERT (\d+)", key: "Groceries", if: "{{.Vs}}"}` on a
record without reference code gives the empty key, although regexp and key
match. -/
theorem ExtractKey_if_gate_witness :
    vsIfRule.ExtractKey (sampleRecord "" "ALBERT 12" "") = .ok "" ∧
      vsIfRule.ExtractKey (sampleRecord "" "ALBERT 12" "7") = .ok "Groceries" :=
  ⟨ExtractKey_if_gate (miniLib wholeAmounts)
      (declaredRule wholeAmounts "Groceries" "ALBERT (\\d+)" "" "" "\x7b\x7b.Vs\x7d\x7d")
      vsIfRule "Food" 0
      { nodes := [NodeType.NodeAction],
        Execute := fun rec => execNodes rec [TNode.field "Vs"] }
      (sampleRecord "" "ALBERT 12" "") "" rfl (by decide) rfl
      ⟨NodeType.NodeAction, [], rfl, Or.inl (by decide)⟩ rfl rfl,
   rfl⟩

/-! ## Section money and item money -/

/-- Counterexample to C14 as stated: with float32 rounding, after 16777216 for
one item and twice 1 for another, the money of the section is 16777216 (each
added 1 is rounded away) while its items hold 16777216 and 2, whose sum is
16777218 in either order. -/
theorem section_money_rounding_counterexample :
    (addAll (NewReportData roundedConfig) roundingCalls).map
        (fun d => (d.sectionMoney "Food", d.itemMoney "Food" "ALBERT",
          d.itemMoney "Food" "BILLA")) =
        some ((16777216 : Nat), (16777216 : Nat), (2 : Nat)) ∧
      (addAll (NewReportData roundedConfig) roundingCalls).map
        (fun d => (mapGet d.sections "Food").map (fun s => s.itemsMoney)) =
          some (some (16777218 : Nat)) ∧
      roundedAdd 16777216 2 = 16777218 ∧ roundedAdd 2 16777216 = 16777218 ∧
      exactSections roundedValue (NewReportData roundedConfig) roundingCalls = false :=
  ⟨rfl, rfl, rfl, rfl, rfl⟩

theorem valSum_mapSet {fl : Floats} {M : Type} [AddCommMonoid M] (val : fl.F32 → M)
    (hval0 : val fl.zero32 = 0) (items : List (String × SectionItem fl)) (k : String)
    (skip : Bool) (m : fl.F32)
    (hexact : val (fl.add32 (match mapGet items k with
        | some item => item.money
        | none => fl.zero32) m) =
      val (match mapGet items k with
        | some item => item.money
        | none => fl.zero32) + val m) :
    ((mapSet items k
        ((match mapGet items k with
          | none => newSectionItem fl k skip
          | some item => item).Add m)).map (fun p => val p.2.money)).sum =
      (items.map (fun p => val p.2.money)).sum + val m := by
  induction items with
  | nil =>
    simp only [mapGet] at hexact
    simp only [mapGet, mapSet, List.map_cons, List.map_nil, List.sum_cons, List.sum_nil,
      SectionItem.Add, newSectionItem, hexact, hval0]
    simp
  | cons p rest ih =>
    obtain ⟨k1, v1⟩ := p
    by_cases hk : k1 = k
    · simp only [mapGet, hk, if_true] at hexact
      simp only [mapGet, mapSet, hk, if_true, List.map_cons, List.sum_cons, SectionItem.Add,
        hexact]
      rw [add_assoc, add_assoc, add_comm (val m)]
    · simp only [mapGet, hk, if_false] at hexact
      simp only [mapGet, mapSet, hk, if_false, List.map_cons, List.sum_cons]
      rw [ih hexact, add_assoc]

theorem addRecord_valAgrees {fl : Floats} {M : Type} [AddCommMonoid M] (val : fl.F32 → M)
    (hval0 : val fl.zero32 = 0) (d d1 : ReportData fl) (sn k : String) (r : Record fl)
    (hinv : ValAgrees val d) (hadd : d.addRecord sn k r = some d1)
    (hsect : val (fl.add32 (d.sectionMoney sn) r.Money) =
      val (d.sectionMoney sn) + val r.Money)
    (hitem : val (fl.add32 (d.itemMoney sn k) r.Money) =
      val (d.itemMoney sn k) + val r.Money) : ValAgrees val d1 := by
  cases hs : d.cfg.SkipFromSum sn with
  | none =>
    have h1 : (d.updateTimes r).cfg.SkipFromSum sn = none := by
      rw [updateTimes_cfg]; exact hs
    simp [ReportData.addRecord, h1] at hadd
  | some skip =>
    rw [addRecord_eq d sn k r skip hs] at hadd
    simp only [Option.some.injEq] at hadd
    subst hadd
    intro sn2 sect2 hget
    simp only at hget
    by_cases hsn : sn = sn2
    · subst hsn
      rw [mapGet_mapSet_self] at hget
      simp only [Option.some.injEq] at hget
      subst hget
      unfold sectionAfterAdd
      cases hm : mapGet d.sections sn with
      | none =>
        simp [Section.addItem, Section.Add, newSection, mapGet, mapSet, SectionItem.Add,
          newSectionItem]
      | some s =>
        have hs2 := hinv sn s hm
        simp only [ReportData.sectionMoney, hm] at hsect
        simp only [ReportData.itemMoney, ReportData.item, hm] at hitem
        have hitem2 : val (fl.add32 (match mapGet s.items k with
              | some item => item.money
              | none => fl.zero32) r.Money) =
            val (match mapGet s.items k with
              | some item => item.money
              | none => fl.zero32) + val r.Money := by
          cases hi : mapGet s.items k with
          | none => simpa [hi] using hitem
          | some it => simpa [hi] using hitem
        have hsum := valSum_mapSet val hval0 s.items k s.skipFromSum r.Money hitem2
        simp only [Section.addItem, Section.Add]
        rw [hsum, hsect, hs2]
    · rw [mapGet_mapSet_other _ _ _ _ hsn, mapGet_mapSet_other _ _ _ _ hsn] at hget
      exact hinv sn2 sect2 hget

theorem addAll_valAgrees {fl : Floats} {M : Type} [AddCommMonoid M] [DecidableEq M]
    (val : fl.F32 → M) (hval0 : val fl.zero32 = 0)
    (calls : List (String × String × Record fl)) (d d1 : ReportData fl)
    (hinv : ValAgrees val d) (hrun : addAll d calls = some d1)
    (hexact : exactSections val d calls = true) : ValAgrees val d1 := by
  induction calls generalizing d with
  | nil =>
    simp only [addAll, Option.some.injEq] at hrun
    rw [← hrun]; exact hinv
  | cons c cs ih =>
    obtain ⟨sn, k, r⟩ := c
    simp only [addAll] at hrun
    cases hadd : d.addRecord sn k r with
    | none => simp [hadd] at hrun
    | some d2 =>
      simp only [hadd] at hrun
      simp only [exactSections, hadd, Bool.and_eq_true, decide_eq_true_eq] at hexact
      obtain ⟨⟨hsect, hitem⟩, hrest⟩ := hexact
      exact ih d2 (addRecord_valAgrees val hval0 d d2 sn k r hinv hadd hsect hitem) hrun hrest

/-- C14 (amended): after a sequence of `addRecord` calls on a fresh
`ReportData` in which every addition to the money of a section and to the
money of an item is exact (not rounded), the money of every section of the
aggregation tree denotes the sum of the numbers that the money of its items
denote; and it is equal to the float32 sum of the money of its items when that
sum is exact too and distinct values denote distinct numbers. -/
theorem section_money_is_items_money {fl : Floats} {M : Type} [AddCommMonoid M]
    [DecidableEq M] (val : fl.F32 → M) (hval0 : val fl.zero32 = 0) (cfg : Config fl)
    (calls : List (String × String × Record fl)) (d : ReportData fl)
    (hrun : addAll (NewReportData cfg) calls = some d)
    (hexact : exactSections val (NewReportData cfg) calls = true) :
    ∀ sn sect, mapGet d.sections sn = some sect →
      val sect.Money = (sect.items.map (fun p => val p.2.Money)).sum ∧
      (Function.Injective val →
        val sect.itemsMoney = (sect.items.map (fun p => val p.2.Money)).sum →
        sect.Money = sect.itemsMoney) := by
  have hfresh : ValAgrees val (NewReportData cfg) := by
    intro sn sect hget
    simp [NewReportData, mapGet] at hget
  have hinv := addAll_valAgrees val hval0 calls (NewReportData cfg) d hfresh hrun hexact
  intro sn sect hget
  have h := hinv sn sect hget
  refine ⟨h, ?_⟩
  intro hinj hsum
  apply hinj
  show val sect.money = val sect.itemsMoney
  rw [hsum]
  exact h

/-- With float32 rounding and the small amounts 1, 2 and 3 every addition is
exact: the section "Food" holds 6, the sum of its items 1 and 5, and equals
their float32 sum. -/
theorem section_money_is_items_money_witness :
    addAll (NewReportData roundedConfig) smallCalls = some smallReport ∧
    exactSections roundedValue (NewReportData roundedConfig) smallCalls = true ∧
    mapGet smallReport.sections "Food" = some smallFood ∧
    roundedValue smallFood.Money = 6 ∧
    smallFood.items.map (fun p => roundedValue p.2.Money) = [1, 5] ∧
    roundedValue smallFood.Money =
      (smallFood.items.map (fun p => roundedValue p.2.Money)).sum ∧
    smallFood.Money = smallFood.itemsMoney :=
  ⟨rfl, rfl, rfl, rfl, rfl,
    (section_money_is_items_money roundedValue rfl roundedConfig smallCalls
      smallReport rfl (by rfl) "Food" smallFood rfl).1,
    (section_money_is_items_money roundedValue rfl roundedConfig smallCalls
      smallReport rfl (by rfl) "Food" smallFood rfl).2 (fun _ _ hxy => hxy) rfl⟩

/-! ## Sorted sections -/

theorem insertBack_perm {α : Type} (less : α → α → Bool) (x : α) (acc : List α) :
    (insertBack less x acc).Perm (x :: acc) := by
  induction acc with
  | nil => exact List.Perm.refl _
  | cons y ys ih =>
    unfold insertBack
    split_ifs
    · exact (List.Perm.cons y ih).trans (List.Perm.swap x y ys)
    · exact List.Perm.refl _

theorem foldl_insertBack_perm {α : Type} (less : α → α → Bool) (l acc : List α) :
    (l.foldl (fun acc x => insertBack less x acc) acc).Perm (l ++ acc) := by
  induction l generalizing acc with
  | nil => exact List.Perm.refl _
  | cons x xs ih =>
    simp only [List.foldl_cons, List.cons_append]
    exact (ih (insertBack less x acc)).trans
      ((List.Perm.append_left xs (insertBack_perm less x acc)).trans List.perm_middle)

theorem insertBack_pairwise {α : Type} (less : α → α → Bool) (P : α → Prop)
    (htotal : ∀ a b, P a → P b → less a b = true ∨ less b a = true)
    (htrans : ∀ a b c, P a → P b → P c → less a b = true → less b c = true → less a c = true)
    (x : α) (acc : List α) (hx : P x) (hacc : ∀ a ∈ acc, P a)
    (hsorted : acc.Pairwise (fun a b => less b a = true)) :
    (insertBack less x acc).Pairwise (fun a b => less b a = true) := by
  induction acc with
  | nil => simp [insertBack]
  | cons y ys ih =>
    have hy : P y := hacc y (List.mem_cons_self y ys)
    have hys : ∀ a ∈ ys, P a := fun a ha => hacc a (List.mem_cons_of_mem y ha)
    rw [List.pairwise_cons] at hsorted
    unfold insertBack
    by_cases hlt : less x y = true
    · rw [if_pos hlt, List.pairwise_cons]
      refine ⟨?_, ih hys hsorted.2⟩
      intro z hz
      have hz2 := (insertBack_perm less x ys).subset hz
      rcases List.mem_cons.mp hz2 with h | h
      · rw [h]; exact hlt
      · exact hsorted.1 z h
    · rw [if_neg hlt, List.pairwise_cons]
      have hyx : less y x = true := by
        rcases htotal x y hx hy with h | h
        · exact absurd h hlt
        · exact h
      refine ⟨?_, List.pairwise_cons.mpr hsorted⟩
      intro z hz
      rcases List.mem_cons.mp hz with h | h
      · rw [h]; exact hyx
      · exact htrans z y x (hys z h) hy hx (hsorted.1 z h) hyx

theorem foldl_insertBack_pairwise {α : Type} (less : α → α → Bool) (P : α → Prop)
    (htotal : ∀ a b, P a → P b → less a b = true ∨ less b a = true)
    (htrans : ∀ a b c, P a → P b → P c → less a b = true → less b c = true → less a c = true)
    (l acc : List α) (hl : ∀ a ∈ l, P a) (hacc : ∀ a ∈ acc, P a)
    (hsorted : acc.Pairwise (fun a b => less b a = true)) :
    (l.foldl (fun acc x => insertBack less x acc) acc).Pairwise
      (fun a b => less b a = true) := by
  induction l generalizing acc with
  | nil => exact hsorted
  | cons x xs ih =>
    simp only [List.foldl_cons]
    have hx : P x := hl x (List.mem_cons_self x xs)
    apply ih (insertBack less x acc) (fun a ha => hl a (List.mem_cons_of_mem x ha))
    · intro a ha
      rcases List.mem_cons.mp ((insertBack_perm less x acc).subset ha) with h | h
      · rw [h]; exact hx
      · exact hacc a h
    · exact insertBack_pairwise less P htotal htrans x acc hx hacc hsorted

/-- Insertion sort obeys the law of `sort.Slice`. -/
theorem insertionSortLib_lawful : insertionSortLib.Lawful := by
  intro α l less htotal htrans
  refine ⟨?_, ?_⟩
  · show (insertionSortGo l less).Perm l
    unfold insertionSortGo
    have h := foldl_insertBack_perm less l []
    rw [List.append_nil] at h
    exact (List.reverse_perm _).trans h
  · show (insertionSortGo l less).Pairwise (fun a b => less a b = true)
    unfold insertionSortGo
    rw [List.pairwise_reverse]
    exact foldl_insertBack_pairwise less (fun a => a ∈ l)
      (fun a b ha hb => htotal a ha b hb)
      (fun a b c ha hb hc => htrans a ha b hb c hc) l [] (fun a ha => ha)
      (fun a ha => absurd ha (List.not_mem_nil a)) List.Pairwise.nil

theorem sectionLess_ordered {fl : Floats} (d : ReportData fl) (a b : Section fl)
    (h : d.sectionLess a b = true) :
    d.cfg.orderOf a.Name < d.cfg.orderOf b.Name ∨
      (d.cfg.orderOf a.Name = d.cfg.orderOf b.Name ∧ fl.ge32 a.Money b.Money = true) := by
  unfold ReportData.sectionLess at h
  simp only at h
  by_cases ho : d.cfg.orderOf a.Name = d.cfg.orderOf b.Name
  · rw [if_pos ho] at h
    exact Or.inr ⟨ho, h⟩
  · rw [if_neg ho] at h
    exact Or.inl (by simpa using h)

theorem sectionLess_of_ordered {fl : Floats} (d : ReportData fl) (a b : Section fl)
    (h : d.cfg.orderOf a.Name < d.cfg.orderOf b.Name ∨
      (d.cfg.orderOf a.Name = d.cfg.orderOf b.Name ∧ fl.ge32 a.Money b.Money = true)) :
    d.sectionLess a b = true := by
  unfold ReportData.sectionLess
  simp only
  rcases h with h | ⟨h1, h2⟩
  · rw [if_neg (by omega)]
    simpa using h
  · rw [if_pos h1]
    exact h2

/-- C15: for a report whose sections are all in the index of the configuration
and whose section moneys are totally ordered by `>=` (no NaN), and a
`sort.Slice` that obeys its law, `SortedSections` returns a permutation of the
section aggregates of the report in which the sections are in ascending
configured Order and, among sections of equal Order, in non-increasing
money. -/
theorem SortedSections_spec {fl : Floats} (lib : SortLib) (hlib : lib.Lawful)
    (d : ReportData fl)
    (hidx : ∀ p ∈ d.sections, (mapGet d.cfg.sectionIndex p.2.Name).isSome = true)
    (htotal : ∀ p ∈ d.sections, ∀ q ∈ d.sections,
      fl.ge32 p.2.Money q.2.Money = true ∨ fl.ge32 q.2.Money p.2.Money = true)
    (htrans : ∀ p ∈ d.sections, ∀ q ∈ d.sections, ∀ r ∈ d.sections,
      fl.ge32 p.2.Money q.2.Money = true → fl.ge32 q.2.Money r.2.Money = true →
      fl.ge32 p.2.Money r.2.Money = true) :
    ∃ out, d.SortedSections lib = some out ∧
      out.Perm (d.sections.map (fun p => p.2)) ∧ SectionsOrdered d.cfg out := by
  have hall : (d.sections.map (fun p => p.2)).all
      (fun s => (mapGet d.cfg.sectionIndex s.Name).isSome) = true := by
    rw [List.all_eq_true]
    intro s hs
    obtain ⟨p, hp, rfl⟩ := List.mem_map.mp hs
    exact hidx p hp
  have ht : ∀ a ∈ d.sections.map (fun p => p.2), ∀ b ∈ d.sections.map (fun p => p.2),
      d.sectionLess a b = true ∨ d.sectionLess b a = true := by
    intro a ha b hb
    obtain ⟨p, hp, rfl⟩ := List.mem_map.mp ha
    obtain ⟨q, hq, rfl⟩ := List.mem_map.mp hb
    rcases lt_trichotomy (d.cfg.orderOf p.2.Name) (d.cfg.orderOf q.2.Name) with h | h | h
    · exact Or.inl (sectionLess_of_ordered d _ _ (Or.inl h))
    · rcases htotal p hp q hq with h2 | h2
      · exact Or.inl (sectionLess_of_ordered d _ _ (Or.inr ⟨h, h2⟩))
      · exact Or.inr (sectionLess_of_ordered d _ _ (Or.inr ⟨h.symm, h2⟩))
    · exact Or.inr (sectionLess_of_ordered d _ _ (Or.inl h))
  have htr : ∀ a ∈ d.sections.map (fun p => p.2), ∀ b ∈ d.sections.map (fun p => p.2),
      ∀ c ∈ d.sections.map (fun p => p.2),
      d.sectionLess a b = true → d.sectionLess b c = true → d.sectionLess a c = true := by
    intro a ha b hb c hc hab hbc
    obtain ⟨p, hp, rfl⟩ := List.mem_map.mp ha
    obtain ⟨q, hq, rfl⟩ := List.mem_map.mp hb
    obtain ⟨r, hr, rfl⟩ := List.mem_map.mp hc
    apply sectionLess_of_ordered
    rcases sectionLess_ordered d _ _ hab with h1 | ⟨h1, g1⟩ <;>
      rcases sectionLess_ordered d _ _ hbc with h2 | ⟨h2, g2⟩
    · exact Or.inl (by omega)
    · exact Or.inl (by omega)
    · exact Or.inl (by omega)
    · exact Or.inr ⟨h1.trans h2, htrans p hp q hq r hr g1 g2⟩
  obtain ⟨hperm, hsorted⟩ := hlib (Section fl) (d.sections.map (fun p => p.2)) d.sectionLess ht htr
  refine ⟨lib.Slice (d.sections.map (fun p => p.2)) d.sectionLess, ?_, hperm, ?_⟩
  · unfold ReportData.SortedSections
    simp only
    rw [if_pos (Or.inr hall)]
  · unfold SectionsOrdered
    exact hsorted.imp (fun {a b} h => sectionLess_ordered d a b h)

/-- The report after `orderedCalls`: "Other" (Order 1, 300) comes before
"Food" (Order 1, 120), and "Fees" (Order 2) last. -/
theorem SortedSections_spec_witness :
    (∃ out, orderedReport.SortedSections insertionSortLib = some out ∧
      out.Perm (orderedReport.sections.map (fun p => p.2)) ∧
      SectionsOrdered orderedReport.cfg out) ∧
    (orderedReport.SortedSections insertionSortLib).map
      (fun out => out.map (fun s => s.Name)) = some ["Other", "Food", "Fees"] :=
  ⟨SortedSections_spec insertionSortLib insertionSortLib_lawful orderedReport
    (by decide) (by decide) (by decide), rfl⟩

/-! ## The note of a parsed record -/

theorem noteFallback_fields {fl : Floats} (self : Record fl) (vs : List String) :
    (self.noteFallback vs).accountId = self.accountId ∧
    (self.noteFallback vs).note =
      (match vs.find? (fun v => decide (v ≠ "")) with
       | some v => v
       | none => self.note) := by
  induction vs with
  | nil => exact ⟨rfl, rfl⟩
  | cons v rest ih =>
    unfold Record.noteFallback
    by_cases hv : v = ""
    · simp only [hv, ne_eq, not_true_eq_false, if_false, List.find?_cons, decide_False]
      exact ih
    · simp [hv, List.find?_cons]

/-- C16: for a record that `Record.Parse` parsed successfully from a row (on
the zero record, as `Parser.Next` does), the note is the note field when the
account identifier and the note field are both non-empty; otherwise the note
field when the recipient-message field is empty and the note field is
non-empty; otherwise the first non-empty value among account identifier,
recipient message, note field and transaction type, in that order, and the
empty string when all four are empty. The account identifier is the account
number, followed by "/" and the bank code when both are non-empty. -/
theorem parseNote_spec {fl : Floats} (lib : ParseLib fl) (fields : List (String × String))
    (line : Int) (rec : Record fl)
    (h : (Record.zero fl).Parse lib fields line = .ok rec) :
    rec.AccountId =
        (if fieldGet fields "Protiúčet" ≠ "" ∧ fieldGet fields "Kód banky" ≠ "" then
          fieldGet fields "Protiúčet" ++ "/" ++ fieldGet fields "Kód banky"
        else fieldGet fields "Protiúčet") ∧
    rec.Note =
        (if rec.AccountId ≠ "" ∧ fieldGet fields "Poznámka" ≠ "" then
          fieldGet fields "Poznámka"
        else if fieldGet fields "Zpráva pro příjemce" = "" ∧ fieldGet fields "Poznámka" ≠ "" then
          fieldGet fields "Poznámka"
        else
          ([rec.AccountId, fieldGet fields "Zpráva pro příjemce", fieldGet fields "Poznámka",
            fieldGet fields "Typ"].find? (fun v => decide (v ≠ ""))).getD "") := by
  unfold Record.Parse at h
  simp only at h
  cases hd : Record.parseDate lib { Record.zero fl with line := line } fields with
  | error e => simp [hd] at h
  | ok r1 =>
    simp only [hd] at h
    have h1 : r1.note = "" := by
      unfold Record.parseDate at hd
      cases ht : lib.timeParse "02.01.2006" (fieldGet fields "Datum") with
      | error m => simp [ht] at hd
      | ok t =>
        simp only [ht, Except.ok.injEq] at hd
        rw [← hd]; rfl
    cases hm : Record.parseMoney lib r1 fields with
    | error e => simp [hm] at h
    | ok r2 =>
      simp only [hm, Except.ok.injEq] at h
      have h2 : r2.note = "" := by
        unfold Record.parseMoney at hm
        simp only at hm
        cases hp : lib.parseFloat (commasToPoints (fieldGet fields "Objem")) 32 with
        | error m => simp [hp] at hm
        | ok x =>
          simp only [hp, Except.ok.injEq] at hm
          rw [← hm]; exact h1
      subst h
      have hacc : (Record.parseAccount { r2 with valid := true } fields).accountId =
          (if fieldGet fields "Protiúčet" ≠ "" ∧ fieldGet fields "Kód banky" ≠ "" then
            fieldGet fields "Protiúčet" ++ "/" ++ fieldGet fields "Kód banky"
          else fieldGet fields "Protiúčet") := by
        unfold Record.parseAccount
        split_ifs <;> rfl
      have hnote0 : (Record.parseAccount { r2 with valid := true } fields).note = "" := by
        unfold Record.parseAccount
        split_ifs <;> exact h2
      generalize Record.parseAccount { r2 with valid := true } fields = r4 at hacc hnote0
      have hres : (r4.parseNote fields).accountId = r4.accountId ∧
          (r4.parseNote fields).note =
            (if r4.accountId ≠ "" ∧ fieldGet fields "Poznámka" ≠ "" then
              fieldGet fields "Poznámka"
            else if fieldGet fields "Zpráva pro příjemce" = "" ∧
                fieldGet fields "Poznámka" ≠ "" then
              fieldGet fields "Poznámka"
            else
              ([r4.accountId, fieldGet fields "Zpráva pro příjemce",
                fieldGet fields "Poznámka", fieldGet fields "Typ"].find?
                  (fun v => decide (v ≠ ""))).getD "") := by
        unfold Record.parseNote
        split_ifs with c1 c2
        · exact ⟨rfl, rfl⟩
        · exact ⟨rfl, rfl⟩
        · obtain ⟨g1, g2⟩ := noteFallback_fields r4
            [r4.accountId, fieldGet fields "Zpráva pro příjemce",
              fieldGet fields "Poznámka", fieldGet fields "Typ"]
          refine ⟨g1, ?_⟩
          rw [g2, hnote0]
          cases List.find? (fun v => decide (v ≠ ""))
            [r4.accountId, fieldGet fields "Zpráva pro příjemce",
              fieldGet fields "Poznámka", fieldGet fields "Typ"] <;> rfl
      obtain ⟨ga, gn⟩ := hres
      refine ⟨?_, ?_⟩
      · show (r4.parseNote fields).accountId = _
        rw [ga, hacc]
      · simp only [Record.Note, Record.AccountId, ga, gn]

/-- The row `rentRow` gives the account identifier "123/456" and the note
"rent"; the row `cardRow`, without account and note field, gives the recipient
message as the note. -/
theorem parseNote_spec_witness :
    rentRecord.AccountId = "123/456" ∧ rentRecord.Note = "rent" ∧
      ((Record.zero wholeAmounts).Parse miniParseLib cardRow 3).map (fun r => r.Note) =
        .ok "ALBERT 12" :=
  have h := parseNote_spec miniParseLib rentRow 2 rentRecord rfl
  ⟨h.1.trans (by decide), h.2.trans (by decide), rfl⟩

/-! ## Classified sections are in the index -/

theorem indexHas_mapSet_self {fl : Floats} (index : List (String × SectionConfig fl))
    (v : SectionConfig fl) : IndexHas (mapSet index v.Name v) v.Name :=
  ⟨v, mapGet_mapSet_self index v.Name v, rfl⟩

theorem indexHas_mapSet {fl : Floats} (index : List (String × SectionConfig fl))
    (v : SectionConfig fl) (n : String) (h : IndexHas index n) :
    IndexHas (mapSet index v.Name v) n := by
  by_cases hn : v.Name = n
  · rw [← hn]
    exact indexHas_mapSet_self index v
  · obtain ⟨sect, hget, hname⟩ := h
    exact ⟨sect, by rw [mapGet_mapSet_other index v.Name n v hn]; exact hget, hname⟩

theorem compileSections_indexHas {fl : Floats} (lib : GoLib fl)
    (sects : List (SectionConfig fl)) (index : List (String × SectionConfig fl))
    (out : List (SectionConfig fl)) (index1 : List (String × SectionConfig fl))
    (h : compileSections lib sects index = .ok (out, index1)) :
    (∀ n, IndexHas index n → IndexHas index1 n) ∧ (∀ s ∈ out, IndexHas index1 s.Name) := by
  induction sects generalizing index out index1 with
  | nil =>
    simp only [compileSections, Except.ok.injEq, Prod.mk.injEq] at h
    obtain ⟨h1, h2⟩ := h
    subst h1 h2
    exact ⟨fun _ hn => hn, fun s hs => absurd hs (List.not_mem_nil s)⟩
  | cons sect rest ih =>
    simp only [compileSections] at h
    cases hr : compileRules lib sect.Name 0 sect.Rules with
    | error e => simp [hr] at h
    | ok rules1 =>
      simp only [hr] at h
      cases hrest : compileSections lib rest
          (mapSet index sect.Name { sect with Rules := rules1 }) with
      | error e => simp [hrest] at h
      | ok p =>
        obtain ⟨rest1, index2⟩ := p
        simp only [hrest, Except.ok.injEq, Prod.mk.injEq] at h
        obtain ⟨h1, h2⟩ := h
        subst h1 h2
        obtain ⟨hkeep, hrest1⟩ := ih _ rest1 index2 hrest
        have hself : IndexHas (mapSet index sect.Name { sect with Rules := rules1 })
            sect.Name :=
          indexHas_mapSet_self index { sect with Rules := rules1 }
        refine ⟨?_, ?_⟩
        · intro n hn
          exact hkeep n (indexHas_mapSet index { sect with Rules := rules1 } n hn)
        · intro s hs
          rcases List.mem_cons.mp hs with hs1 | hs1
          · rw [hs1]
            exact hkeep sect.Name hself
          · exact hrest1 s hs1

/-- A configuration that `Config.compile` returns has every section in its
index. -/
theorem compile_indexed {fl : Floats} (lib : GoLib fl) (cfg0 cfg : Config fl)
    (hc : cfg0.compile lib = .ok cfg) : Indexed cfg := by
  unfold Config.compile at hc
  cases hs : compileSections lib cfg0.Sections cfg0.sectionIndex with
  | error e => simp [hs] at hc
  | ok p =>
    obtain ⟨sections, index⟩ := p
    simp only [hs, Except.ok.injEq] at hc
    subst hc
    intro s hmem
    obtain ⟨sect, hget, _⟩ :=
      (compileSections_indexHas lib cfg0.Sections cfg0.sectionIndex sections index hs).2 s hmem
    show mapGet index s.Name ≠ none
    rw [hget]
    exact Option.some_ne_none sect

/-- C21: for a configuration that `Config.compile` returned and every record, a
section name that `FindSection` returns together with a non-empty key is in the
section index of the configuration, so `SkipFromSum` finds the section, and
`addSection` and `addRecord` for that name on a report of the configuration do
not panic. -/
theorem FindSection_name_indexed {fl : Floats} (lib : GoLib fl) (cfg0 cfg : Config fl)
    (hc : cfg0.compile lib = .ok cfg) (rec : Record fl) (sn k : String)
    (hf : cfg.FindSection rec = .ok (sn, k)) (hk : k ≠ "") :
    (∃ sect, mapGet cfg.sectionIndex sn = some sect) ∧
    (∃ skip, cfg.SkipFromSum sn = some skip) ∧
    (∀ d : ReportData fl, d.cfg = cfg →
      (∀ money : fl.F32, ∃ r, d.addSection sn money = some r) ∧
      (∃ d1, d.addRecord sn k rec = some d1)) := by
  have hidx := compile_indexed lib cfg0 cfg hc
  obtain ⟨skip, hskip⟩ := skipFromSum_of_indexed cfg hidx rec sn k hf hk
  refine ⟨?_, ⟨skip, hskip⟩, ?_⟩
  · unfold Config.SkipFromSum at hskip
    cases hm : mapGet cfg.sectionIndex sn with
    | none => simp [hm] at hskip
    | some sect => exact ⟨sect, rfl⟩
  · intro d hd
    have hskip1 : d.cfg.SkipFromSum sn = some skip := by rw [hd]; exact hskip
    exact ⟨fun money => ⟨_, addSection_eq d sn skip money hskip1⟩,
      ⟨_, addRecord_eq d sn k rec skip hskip1⟩⟩

/-- The configuration `sampleConfig`, compiled from `declaredConfig`: the
record with the note "ALBERT 12" is classified to "Food", which is in the
index, and `addRecord` on a fresh report succeeds. -/
theorem FindSection_name_indexed_witness :
    sampleConfig.FindSection (sampleRecord "" "ALBERT 12" "") = .ok ("Food", "Groceries") ∧
      (∃ skip, sampleConfig.SkipFromSum "Food" = some skip) ∧
      (∃ d1, (NewReportData sampleConfig).addRecord "Food" "Groceries"
        (sampleRecord "" "ALBERT 12" "") = some d1) :=
  have h := FindSection_name_indexed (miniLib wholeAmounts) declaredConfig sampleConfig rfl
    (sampleRecord "" "ALBERT 12" "") "Food" "Groceries" rfl (by decide)
  ⟨rfl, h.2.1, (h.2.2 (NewReportData sampleConfig) rfl).2⟩

end Fio
